import Mathlib

/-!
# Receipt processor: the scoring function `calculatePoints` and the two handlers

A shallow embedding of `src/main.go`.

Modelling conventions.

* A Go `string` that reaches `calculatePoints` was produced by `encoding/json`, which
  always yields valid UTF-8 (invalid bytes are replaced by U+FFFD).  A string is
  therefore modelled by its sequence of code points (`List Char`); `len` is the number
  of bytes of the UTF-8 encoding (`goLen`), not the number of code points.
* Go's `int` is the 64-bit two's complement integer of a 64-bit platform: every
  `points += e` is an addition followed by `wrap64`.
* A `float64` is modelled exactly: a finite value is a sign, a natural mantissa and a
  binary exponent (every finite `float64` is such a dyadic number), plus the two
  infinities and NaN.  Rounding is round-to-nearest, ties-to-even, computed on
  natural numbers.
* The conversion `int(f)` of a float that does not fit in `int` is
  implementation-dependent in Go; the model takes that result as a parameter `cv`.
* Standard-library functions (`strconv.ParseFloat`, `strconv.Atoi`, `strings.Split`,
  `strings.TrimSpace`, `time.Parse`, `regexp`, `math`) are modelled after the Go
  standard library.
* The handlers `ProcessReceipt` and `GetPoints` are functions from the store and the
  request to the response and the store.  What the environment decides is an argument:
  the random bits that `uuid.New` draws and whether the store command fails.  The store
  is a map from keys to texts, and a JSON text is modelled by the value it denotes.
-/

namespace ReceiptProcessor

/-! ## Strings -/

/-- A Go string, as its sequence of Unicode code points. -/
abbrev GoString := List Char

/-- Number of bytes of the UTF-8 encoding of one code point. -/
def runeLen (c : Char) : Nat :=
  if c.toNat < 0x80 then 1
  else if c.toNat < 0x800 then 2
  else if c.toNat < 0x10000 then 3
  else 4

/-- Go `len(s)` for a string: the number of bytes. -/
def goLen : GoString → Nat
  | [] => 0
  | c :: cs => runeLen c + goLen cs

/-- Membership of a code point in the ASCII range `lo..hi`. -/
def inRange (lo hi : Char) (c : Char) : Bool :=
  decide (lo.toNat ≤ c.toNat) && decide (c.toNat ≤ hi.toNat)

/-- The character class `[a-zA-Z0-9]` of the retailer rule. -/
def isAlnum (c : Char) : Bool :=
  inRange 'a' 'z' c || inRange 'A' 'Z' c || inRange '0' '9' c

/-- The result of `alnumRegex.FindAllString(s, -1)`: the non-overlapping matches of
`[a-zA-Z0-9]`, each one character long, from left to right. -/
def FindAllString : GoString → List GoString
  | [] => []
  | c :: cs => if isAlnum c then [c] :: FindAllString cs else FindAllString cs

/-- The predicate `unicode.IsSpace`. -/
def isSpace (c : Char) : Bool :=
  let n := c.toNat
  decide (0x09 ≤ n ∧ n ≤ 0x0d) || decide (n = 0x20) || decide (n = 0x85) ||
  decide (n = 0xA0) || decide (n = 0x1680) || decide (0x2000 ≤ n ∧ n ≤ 0x200a) ||
  decide (n = 0x2028) || decide (n = 0x2029) || decide (n = 0x202f) ||
  decide (n = 0x205f) || decide (n = 0x3000)

/-- Drop the trailing white space of a string. -/
def trimRight : GoString → GoString
  | [] => []
  | c :: cs =>
    match trimRight cs with
    | [] => if isSpace c then [] else [c]
    | r => c :: r

/-- Go `strings.TrimSpace`: the string without leading and trailing white space. -/
def TrimSpace (s : GoString) : GoString :=
  trimRight (s.dropWhile isSpace)

/-- Go `strings.Split(s, "-")`: the pieces of `s` between the dashes (at least one
piece, possibly empty). -/
def Split : GoString → List GoString
  | [] => [[]]
  | c :: cs =>
    match Split cs with
    | [] => if c = '-' then [[], []] else [[c]]
    | p :: ps => if c = '-' then [] :: p :: ps else (c :: p) :: ps

/-! ## Machine integers -/

/-- Reduction of an integer to the 64-bit two's complement range of Go's `int`. -/
def wrap64 (x : Int) : Int :=
  (x + 2 ^ 63) % 2 ^ 64 - 2 ^ 63

/-- The values of Go's `int`. -/
def inInt64 (x : Int) : Prop :=
  -(2 ^ 63) ≤ x ∧ x < 2 ^ 63

instance (x : Int) : Decidable (inInt64 x) := by
  unfold inInt64; infer_instance

/-- Go `a + b` on `int`. -/
def addInt (a b : Int) : Int :=
  wrap64 (a + b)

/-- Errors of package `strconv`. -/
inductive NumError
  | ErrSyntax
  | ErrRange
  deriving DecidableEq, Fintype

deriving instance DecidableEq for Except

/-! ## float64 -/

/-- A `float64` value: `fin neg m e` is the finite number `(-1)^neg * m * 2^e`;
`fin true 0 e` is the negative zero. -/
inductive Float64
  | fin (neg : Bool) (m : Nat) (e : Int)
  | inf (neg : Bool)
  | nan
  deriving DecidableEq

/-- Least `j` (searched upwards from the given start, within the fuel) such that
`n < 2 ^ 2 ^ j`. -/
def log2Span (n : Nat) : Nat → Nat → Nat
  | 0, j => j
  | f + 1, j => if n < 2 ^ 2 ^ j then j else log2Span n f (j + 1)

/-- Binary search for the position of the leading bit of `n` in `lo .. lo + 2^i - 1`. -/
def log2Search (n : Nat) : Nat → Nat → Nat
  | 0, lo => lo
  | i + 1, lo =>
    if 2 ^ (lo + 2 ^ i) ≤ n then log2Search n i (lo + 2 ^ i) else log2Search n i lo

/-- Position of the leading bit of `n`, that is `⌊log₂ n⌋` (and `0` for `n = 0`). -/
def floorLog2 (n : Nat) : Nat :=
  log2Search n (log2Span n n 0) 0

/-- Multiplication by `2 ^ k` when `k` is positive; the identity otherwise. -/
def shiftUp (n : Nat) (k : Int) : Nat :=
  n * 2 ^ k.toNat

/-- The integer nearest to `n / d`, ties to the even one. -/
def roundHalfEven (n d : Nat) : Nat :=
  let q := n / d
  let r := n % d
  if 2 * r < d then q
  else if d < 2 * r then q + 1
  else if q % 2 = 0 then q
  else q + 1

/-- IEEE 754 rounding to `float64` (nearest, ties to even) of the rational `± n / d`
(with `d > 0`): the mantissa has 53 bits, the least exponent of a unit in the last
place is `-1074`, and a result of magnitude `2^1024` or more overflows to an infinity.
The second component reports the overflow. -/
def roundFloat64 (neg : Bool) (n d : Nat) : Float64 × Bool :=
  if n = 0 then (Float64.fin neg 0 0, false)
  else
    let k0 : Int := 52 + (floorLog2 d : Int) - (floorLog2 n : Int)
    let k1 : Int := if shiftUp n k0 / shiftUp d (-k0) < 2 ^ 52 then k0 + 1 else k0
    let k : Int := min k1 1074
    let q := roundHalfEven (shiftUp n k) (shiftUp d (-k))
    if 972 ≤ -k ∨ (-k = 971 ∧ 2 ^ 53 ≤ q) then (Float64.inf neg, true)
    else (Float64.fin neg q (-k), false)

namespace Float64

/-- The float64 constant `0`. -/
def zero : Float64 := fin false 0 0

/-- The float64 constant `0.25`. -/
def quarter : Float64 := fin false 1 (-2)

/-- The float64 constant `0.2`: the float64 nearest to one fifth. -/
def fifth : Float64 := fin false 7205759403792794 (-55)

/-- Go `x == y` on float64: NaN equals nothing, the two zeros are equal. -/
def eq : Float64 → Float64 → Bool
  | fin n1 m1 e1, fin n2 m2 e2 =>
    let e := min e1 e2
    let a := shiftUp m1 (e1 - e)
    let b := shiftUp m2 (e2 - e)
    decide (a = b) && (decide (a = 0) || decide (n1 = n2))
  | inf n1, inf n2 => decide (n1 = n2)
  | _, _ => false

/-- Go `x * y` on float64: the exact product, rounded. -/
def mul : Float64 → Float64 → Float64
  | fin n1 m1 e1, fin n2 m2 e2 =>
    (roundFloat64 (xor n1 n2) (shiftUp (m1 * m2) (e1 + e2)) (shiftUp 1 (-(e1 + e2)))).1
  | fin n1 m1 _, inf n2 => if m1 = 0 then nan else inf (xor n1 n2)
  | inf n1, fin n2 m2 _ => if m2 = 0 then nan else inf (xor n1 n2)
  | inf n1, inf n2 => inf (xor n1 n2)
  | _, _ => nan

end Float64

/-- Go `math.Floor`: the greatest integer value not above `x`; zeros, infinities and
NaN are returned unchanged. -/
def Floor : Float64 → Float64
  | Float64.fin neg m e =>
    if 0 ≤ e then Float64.fin neg m e
    else
      let q := m / 2 ^ (-e).toNat
      let r := m % 2 ^ (-e).toNat
      if neg ∧ r ≠ 0 then Float64.fin neg (q + 1) 0 else Float64.fin neg q 0
  | x => x

/-- Go `math.Ceil`: the least integer value not below `x`; zeros, infinities and NaN
are returned unchanged. -/
def Ceil : Float64 → Float64
  | Float64.fin neg m e =>
    if 0 ≤ e then Float64.fin neg m e
    else
      let q := m / 2 ^ (-e).toNat
      let r := m % 2 ^ (-e).toNat
      if ¬ neg ∧ r ≠ 0 then Float64.fin neg (q + 1) 0 else Float64.fin neg q 0
  | x => x

/-- Go `math.Mod(x, y)`: the remainder of `x / y`, with the sign of `x` and a
magnitude below that of `y`; it is exact.  `Mod(±Inf, y)`, `Mod(NaN, y)`,
`Mod(x, 0)` and `Mod(x, NaN)` are NaN, and `Mod(x, ±Inf)` is `x`. -/
def Mod : Float64 → Float64 → Float64
  | Float64.fin n1 m1 e1, Float64.fin _ m2 e2 =>
    if m2 = 0 then Float64.nan
    else
      let e := min e1 e2
      Float64.fin n1 (shiftUp m1 (e1 - e) % shiftUp m2 (e2 - e)) e
  | Float64.fin n1 m1 e1, Float64.inf _ => Float64.fin n1 m1 e1
  | _, _ => Float64.nan

/-- Go `int(f)` for a float64 `f`: the value truncated towards zero when that fits in
`int`; otherwise the result is implementation-dependent, and is whatever `cv` gives
(reduced to the range of `int`). -/
def floatToInt (cv : Float64 → Int) : Float64 → Int
  | Float64.fin neg m e =>
    let t : Int := (shiftUp m e / 2 ^ (-e).toNat : Nat)
    let v : Int := if neg then -t else t
    if inInt64 v then v else wrap64 (cv (Float64.fin neg m e))
  | x => wrap64 (cv x)

/-! ## strconv.ParseFloat -/

/-- The test `'0' <= c && c <= '9'`. -/
def isDigit (c : Char) : Bool :=
  inRange '0' '9' c

/-- Value of a decimal digit. -/
def digitVal (c : Char) : Nat :=
  c.toNat - 48

/-- Go `lower(c)` of package `strconv`, `c | ('x' - 'X')` on a byte.  The bytes of a
character outside ASCII are left alone: none of them is a letter after `lower`. -/
def lower (c : Char) : Char :=
  if c.toNat < 0x80 then Char.ofNat (c.toNat ||| 0x20) else c

/-- Go `commonPrefixLenIgnoreCase(s, prefix)`: the length of the longest common start
of `s` and the lower-case text `pre`, upper-case ASCII letters of `s` being read as
lower-case ones. -/
def commonPrefixLenIgnoreCase : GoString → GoString → Nat
  | c :: cs, p :: ps =>
    let c1 := if inRange 'A' 'Z' c then Char.ofNat (c.toNat + 32) else c
    if c1 = p then commonPrefixLenIgnoreCase cs ps + 1 else 0
  | _, _ => 0

/-- The part of Go `special` shared by the cases `+`, `-`, `i` and `I`: an infinity
when the text starts with `inf` or `infinity`, and the number of bytes read. -/
def specialInf (neg : Bool) (nsign : Nat) (s : GoString) : Option (Float64 × Nat) :=
  let n := commonPrefixLenIgnoreCase s "infinity".toList
  let n := if 3 < n ∧ n < 8 then 3 else n
  if n = 3 ∨ n = 8 then some (Float64.inf neg, nsign + n) else none

/-- Go `special`: the texts `inf`, `infinity` (with an optional sign) and `nan`, in
any case, and the number of bytes read. -/
def special : GoString → Option (Float64 × Nat)
  | [] => none
  | c :: cs =>
    if c = '+' then specialInf false 1 cs
    else if c = '-' then specialInf true 1 cs
    else if c = 'i' ∨ c = 'I' then specialInf false 0 (c :: cs)
    else if c = 'n' ∨ c = 'N' then
      if commonPrefixLenIgnoreCase (c :: cs) "nan".toList = 3 then some (Float64.nan, 3)
      else none
    else none

/-- Go `underscoreOK`, the loop over the number proper: `saw` is the kind of the last
character seen, `'0'` for a digit or base prefix, `'_'` for an underscore, `'!'` for
anything else, `'^'` at the start. -/
def underscoreLoop (hex : Bool) : GoString → Char → Bool
  | [], saw => saw != '_'
  | c :: cs, saw =>
    if isDigit c || (hex && inRange 'a' 'f' (lower c)) then underscoreLoop hex cs '0'
    else if c = '_' then
      if saw != '0' then false else underscoreLoop hex cs '_'
    else if saw = '_' then false
    else underscoreLoop hex cs '!'

/-- Go `underscoreOK`: underscores stand only between digits, or between a base prefix
and a digit. -/
def underscoreOK (s : GoString) : Bool :=
  let s := match s with
    | c :: cs => if c = '-' ∨ c = '+' then cs else c :: cs
    | [] => []
  match s with
  | c0 :: c1 :: cs =>
    if c0 = '0' ∧ (lower c1 = 'b' ∨ lower c1 = 'o' ∨ lower c1 = 'x') then
      underscoreLoop (lower c1 == 'x') cs '0'
    else underscoreLoop false (c0 :: c1 :: cs) '^'
  | s => underscoreLoop false s '^'

/-- The local variables of the mantissa loop of Go `readFloat`.  The mantissa is kept
in full (Go keeps 19 digits and a truncation flag, and falls back on an exact
conversion when digits were dropped, so that the result is that of the full
mantissa). -/
structure FloatScan where
  sawdot : Bool
  sawdigits : Bool
  underscores : Bool
  nd : Nat
  dp : Int
  mantissa : Nat

/-- The mantissa loop of Go `readFloat`, for base 10 or 16: the variables at the end of
the loop and the text left. -/
def scanMantissa (base : Nat) : GoString → FloatScan → FloatScan × GoString
  | [], st => (st, [])
  | c :: cs, st =>
    if c = '_' then scanMantissa base cs { st with underscores := true }
    else if c = '.' then
      if st.sawdot then (st, c :: cs)
      else scanMantissa base cs { st with sawdot := true, dp := st.nd }
    else if isDigit c then
      if c = '0' ∧ st.nd = 0 then
        scanMantissa base cs { st with sawdigits := true, dp := st.dp - 1 }
      else
        scanMantissa base cs
          { st with sawdigits := true, nd := st.nd + 1,
                    mantissa := st.mantissa * base + digitVal c }
    else if base = 16 ∧ inRange 'a' 'f' (lower c) then
      scanMantissa base cs
        { st with sawdigits := true, nd := st.nd + 1,
                  mantissa := st.mantissa * 16 + ((lower c).toNat - 97 + 10) }
    else (st, c :: cs)

/-- The exponent loop of Go `readFloat`: the exponent read (no longer updated once it
has reached 10000), whether an underscore was seen, and the text left. -/
def scanExponent : GoString → Nat → Bool → Nat × Bool × GoString
  | [], e, u => (e, u, [])
  | c :: cs, e, u =>
    if c = '_' then scanExponent cs e true
    else if isDigit c then
      scanExponent cs (if e < 10000 then e * 10 + digitVal c else e) u
    else (e, u, c :: cs)

/-- The outcome of Go `readFloat`: the number is `± mantissa * 10^exp`, or
`± mantissa * 2^exp` when `hex`; `rest` is the text after the number. -/
structure FloatLit where
  mantissa : Nat
  exp : Int
  neg : Bool
  hex : Bool
  rest : GoString

/-- The end of Go `readFloat`, after the exponent: the check of the underscores in the
text read, which is `s` without `rest`. -/
def finishFloat (s : GoString) (st : FloatScan) (neg hex underscores : Bool) (dp : Int)
    (rest : GoString) : Option FloatLit :=
  let ndMant : Int := if hex then (st.nd : Int) * 4 else st.nd
  let exp : Int := if st.mantissa ≠ 0 then dp - ndMant else 0
  if underscores && !underscoreOK (s.take (s.length - rest.length)) then none
  else some ⟨st.mantissa, exp, neg, hex, rest⟩

/-- Go `readFloat`: reads a decimal or hexadecimal floating-point literal at the start
of `s`; `none` when there is none (Go's `ok = false`). -/
def readFloat (s : GoString) : Option FloatLit :=
  match s with
  | [] => none
  | c :: cs =>
    let neg := c == '-'
    let s1 := if c = '+' ∨ c = '-' then cs else c :: cs
    let hex := match s1 with
      | c0 :: c1 :: _ :: _ => c0 == '0' && lower c1 == 'x'
      | _ => false
    let s2 := if hex then s1.drop 2 else s1
    let (st, s3) := scanMantissa (if hex then 16 else 10) s2 ⟨false, false, false, 0, 0, 0⟩
    if !st.sawdigits then none
    else
      let dp : Int := if st.sawdot then st.dp else st.nd
      let dp : Int := if hex then dp * 4 else dp
      match s3 with
      | x :: s4 =>
        if lower x = (if hex then 'p' else 'e') then
          match s4 with
          | [] => none
          | y :: s5 =>
            let esign : Int := if y = '-' then -1 else 1
            let s6 := if y = '+' ∨ y = '-' then s5 else y :: s5
            match s6 with
            | [] => none
            | z :: _ =>
              if !isDigit z then none
              else
                let (e, u, s7) := scanExponent s6 0 st.underscores
                finishFloat s st neg hex u (dp + (e : Int) * esign) s7
        else if hex then none
        else finishFloat s st neg hex st.underscores dp s3
      | [] =>
        if hex then none
        else finishFloat s st neg hex st.underscores dp s3

/-- Go `strconv.ParseFloat(s, 64)`: the float64 nearest to the number that `s`
denotes (IEEE 754 unbiased rounding); a syntax error when `s` is not wholly a
floating-point literal, `inf`, `infinity` or `nan`; a range error when the number
rounds to an infinity. -/
def ParseFloat (s : GoString) : Except NumError Float64 :=
  match special s with
  | some (f, n) => if n = goLen s then .ok f else .error NumError.ErrSyntax
  | none =>
    match readFloat s with
    | none => .error NumError.ErrSyntax
    | some lit =>
      if lit.rest ≠ [] then .error NumError.ErrSyntax
      else
        let b : Nat := if lit.hex then 2 else 10
        let r := roundFloat64 lit.neg (lit.mantissa * b ^ lit.exp.toNat) (b ^ (-lit.exp).toNat)
        if r.2 then .error NumError.ErrRange else .ok r.1

/-! ## strconv.Atoi -/

/-- The digit loop of `strconv.Atoi` and `strconv.ParseUint` in base 10: the number
read when all characters are decimal digits. -/
def parseDigits : GoString → Nat → Option Nat
  | [], n => some n
  | c :: cs, n => if isDigit c then parseDigits cs (n * 10 + digitVal c) else none

/-- Go `strconv.Atoi`: an optional sign and at least one decimal digit; a syntax error
for any other text, a range error when the number does not fit in `int`. -/
def Atoi (s : GoString) : Except NumError Int :=
  match s with
  | [] => .error NumError.ErrSyntax
  | c :: cs =>
    let neg := c == '-'
    let ds := if c = '+' ∨ c = '-' then cs else c :: cs
    match ds with
    | [] => .error NumError.ErrSyntax
    | _ :: _ =>
      match parseDigits ds 0 with
      | none => .error NumError.ErrSyntax
      | some un =>
        if !neg && decide (2 ^ 63 ≤ un) then .error NumError.ErrRange
        else if neg && decide (2 ^ 63 < un) then .error NumError.ErrRange
        else .ok (if neg then -(un : Int) else (un : Int))

/-! ## time.Parse with the layout "15:04" -/

/-- The fields of a `time.Time` that the layout `"15:04"` sets. -/
structure Time where
  hour : Nat
  min : Nat
  deriving DecidableEq

/-- Go `time.Time.Hour`. -/
def Time.Hour (t : Time) : Nat :=
  t.hour

/-- Go `getnum(s, fixed)` of package `time`: a number of one or two digits at the
start of `s` (of exactly two digits when `fixed`), and the text after it. -/
def getnum (s : GoString) (fixed : Bool) : Option (Nat × GoString) :=
  match s with
  | [] => none
  | c0 :: r0 =>
    if !isDigit c0 then none
    else
      match r0 with
      | [] => if fixed then none else some (digitVal c0, r0)
      | c1 :: r1 =>
        if !isDigit c1 then
          if fixed then none else some (digitVal c0, r0)
        else some (digitVal c0 * 10 + digitVal c1, r1)

/-- Go `time.Parse("15:04", value)`: an hour of one or two digits below 24, a colon, a
minute of exactly two digits below 60, and nothing after; `none` stands for a
non-nil error. -/
def ParseTime (value : GoString) : Option Time :=
  match getnum value false with
  | none => none
  | some (hour, v1) =>
    if 24 ≤ hour then none
    else
      match v1 with
      | [] => none
      | c :: v2 =>
        if c ≠ ':' then none
        else
          match getnum v2 true with
          | none => none
          | some (min, v3) =>
            if 60 ≤ min then none
            else if v3 ≠ [] then none
            else some ⟨hour, min⟩

/-! ## The receipt and its score (src/main.go) -/

/-- Go `type Item struct`. -/
structure Item where
  ShortDescription : GoString
  Price : GoString
  deriving DecidableEq

/-- Go `type Receipt struct`. -/
structure Receipt where
  ID : GoString
  Retailer : GoString
  PurchaseDate : GoString
  PurchaseTime : GoString
  Total : GoString
  Items : List Item
  Points : Int
  deriving DecidableEq

/-- The body of the loop `for _, item := range receipt.Items` of `calculatePoints`:
the value of `points` after one item. -/
def itemStep (cv : Float64 → Int) (points : Int) (item : Item) : Int :=
  let trimmedDesc := TrimSpace item.ShortDescription
  if goLen trimmedDesc % 3 = 0 then
    match ParseFloat item.Price with
    | .ok price => addInt points (floatToInt cv (Ceil (Float64.mul price Float64.fifth)))
    | .error _ => points
  else points

/-- Go `calculatePoints`: the statements of the function in their order, each one
giving the next value of the local variable `points`. -/
def calculatePoints (cv : Float64 → Int) (receipt : Receipt) : Int :=
  let points : Int := 0
  -- Rule: One point per alphanumeric character in retailer name
  let points := addInt points (FindAllString receipt.Retailer).length
  -- Convert total to float
  let points :=
    match ParseFloat receipt.Total with
    | .ok total =>
      -- Rule: 50 points if total is a round dollar amount
      let points := if Float64.eq total (Floor total) then addInt points 50 else points
      -- Rule: 25 points if total is a multiple of 0.25
      if Float64.eq (Mod total Float64.quarter) Float64.zero then addInt points 25
      else points
    | .error _ => points
  -- Rule: 5 points for every two items
  let points := addInt points (wrap64 ((receipt.Items.length / 2 : Nat) * 5))
  -- Rule: If item description length is a multiple of 3, add price * 0.2 (rounded up)
  let points := receipt.Items.foldl (itemStep cv) points
  -- Rule: 6 points if purchase day is odd
  let dateParts := Split receipt.PurchaseDate
  let points :=
    if dateParts.length = 3 then
      match Atoi (dateParts.getD 2 []) with
      | .ok day => if day.tmod 2 = 1 then addInt points 6 else points
      | .error _ => points
    else points
  -- Rule: 10 points if purchase time is between 2:00 PM and 4:00 PM
  let points :=
    match ParseTime receipt.PurchaseTime with
    | some purchaseTime =>
      if 14 ≤ purchaseTime.Hour ∧ purchaseTime.Hour < 16 then addInt points 10 else points
    | none => points
  points

/-! ## The rules, one by one

The contribution of each rule as a function of the one field it reads.  These are the
terms of the sum that `calculatePoints` is compared with. -/

/-- Retailer rule: one point per match of `[a-zA-Z0-9]` in the retailer name. -/
def retailerPoints (retailer : GoString) : Int :=
  ((FindAllString retailer).length : Nat)

/-- Total rules: 50 for a round amount plus 25 for a multiple of 0.25, nothing when
the total does not parse. -/
def totalPoints (total : GoString) : Int :=
  match ParseFloat total with
  | .ok t =>
    (if Float64.eq t (Floor t) then 50 else 0) +
      (if Float64.eq (Mod t Float64.quarter) Float64.zero then 25 else 0)
  | .error _ => 0

/-- Item-count rule: 5 points for every two items. -/
def pairPoints (items : List Item) : Int :=
  5 * ((items.length / 2 : Nat) : Int)

/-- Description rule, for one item. -/
def itemPoints (cv : Float64 → Int) (item : Item) : Int :=
  if goLen (TrimSpace item.ShortDescription) % 3 = 0 then
    match ParseFloat item.Price with
    | .ok price => floatToInt cv (Ceil (Float64.mul price Float64.fifth))
    | .error _ => 0
  else 0

/-- Description rule, for all the items. -/
def descriptionPoints (cv : Float64 → Int) (items : List Item) : Int :=
  (items.map (itemPoints cv)).sum

/-- Date rule: 6 points when the third of exactly three dash-separated components is an
odd integer. -/
def datePoints (purchaseDate : GoString) : Int :=
  if (Split purchaseDate).length = 3 then
    match Atoi ((Split purchaseDate).getD 2 []) with
    | .ok day => if day.tmod 2 = 1 then 6 else 0
    | .error _ => 0
  else 0

/-- Time rule: 10 points when the hour is 14 or 15. -/
def timePoints (purchaseTime : GoString) : Int :=
  match ParseTime purchaseTime with
  | some t => if 14 ≤ t.Hour ∧ t.Hour < 16 then 10 else 0
  | none => 0

/-- The sum of the contributions of all the rules, as an unbounded integer. -/
def rulesSum (cv : Float64 → Int) (r : Receipt) : Int :=
  retailerPoints r.Retailer + totalPoints r.Total + pairPoints r.Items +
    descriptionPoints cv r.Items + datePoints r.PurchaseDate + timePoints r.PurchaseTime

/-! ## Sample receipts -/

/-- A receipt with the given scored fields, as decoded from a request body that has
neither `id` nor `points`. -/
def mkReceipt (retailer date time total : String) (items : List (String × String)) :
    Receipt :=
  ⟨[], retailer.toList, date.toList, time.toList, total.toList,
    items.map (fun p => ⟨p.1.toList, p.2.toList⟩), 0⟩

/-- The receipt of retailer "Target" with five items. -/
def targetReceipt : Receipt :=
  mkReceipt "Target" "2022-01-01" "13:01" "35.35"
    [("Mountain Dew 12PK", "6.49"), ("Emils Cheese Pizza", "12.25"),
     ("Knorr Creamy Chicken", "1.26"), ("Doritos Nacho Cheese", "3.35"),
     ("   Klarbrunn 12-PK 12 FL OZ  ", "12.00")]

/-- The receipt of retailer "M&M Corner Market" with four items. -/
def cornerMarketReceipt : Receipt :=
  mkReceipt "M&M Corner Market" "2022-03-20" "14:33" "9.00"
    [("Gatorade", "2.25"), ("Gatorade", "2.25"), ("Gatorade", "2.25"), ("Gatorade", "2.25")]

/-- The conversion of an out-of-range float on amd64: the "integer indefinite" value
`-2^63`. -/
def cvAmd64 (_ : Float64) : Int :=
  -(2 ^ 63)

/-! ## The value of a float64 -/

/-- The rational number that a finite float64 stands for (`0` for the infinities and
NaN, which stand for no number). -/
def Float64.toRat : Float64 → ℚ
  | Float64.fin neg m e => (if neg then -1 else 1) * ((m : ℚ) * 2 ^ e)
  | _ => 0

/-- The text `HH:MM` of an hour and a minute, two decimal digits each. -/
def clockText (h mi : Nat) : GoString :=
  [Char.ofNat (48 + h / 10), Char.ofNat (48 + h % 10), ':',
   Char.ofNat (48 + mi / 10), Char.ofNat (48 + mi % 10)]

/-- A receipt none of whose total, prices, date and time parses. -/
def unparsableReceipt : Receipt :=
  mkReceipt "Target" "2022-01" "2pm" "12,50"
    [("abc", "free"), ("def", "1e400"), ("ghi", "")]

/-- The least integer not below `q * 2^k`, for a natural `q`. -/
def ceilMag (q : Nat) (k : Int) : Nat :=
  if 0 ≤ k then q * 2 ^ k.toNat
  else q / 2 ^ (-k).toNat + (if q % 2 ^ (-k).toNat = 0 then 0 else 1)

/-! ## The description rule as a specification -/

/-- The description rule for one item in exact arithmetic: the ceiling of a fifth of the
price, for a trimmed description whose number of characters is a multiple of 3 and a
price that parses to a number. -/
def exactItemPoints (item : Item) : Int :=
  if (TrimSpace item.ShortDescription).length % 3 = 0 then
    match ParseFloat item.Price with
    | .ok p => ⌈p.toRat * (1 / 5)⌉
    | .error _ => 0
  else 0

/-- The description rule for one item in float64 arithmetic: the ceiling of the float64
product of the price and the constant `0.2`, for a trimmed description whose number of
characters is a multiple of 3 and a price that parses. -/
def roundedItemPoints (item : Item) : Int :=
  if (TrimSpace item.ShortDescription).length % 3 = 0 then
    match ParseFloat item.Price with
    | .ok p => ⌈(Float64.mul p Float64.fifth).toRat⌉
    | .error _ => 0
  else 0

/-- A receipt with one item, whose price is a large decimal number. -/
def bigPriceReceipt : Receipt :=
  mkReceipt "Target" "2022-01-02" "13:01" "1.10" [("abc", "1e30")]

/-- A receipt with one item, whose price is negative. -/
def refundReceipt : Receipt :=
  mkReceipt "Target" "2022-01-02" "13:01" "1.10" [("Refund", "-100.00")]

/-- Whether a price, when it parses, parses to a finite number below `2^63` in
magnitude (checked on natural numbers). -/
def priceInRange (s : GoString) : Bool :=
  match ParseFloat s with
  | .ok (Float64.fin _ m e) => decide (shiftUp m e < 2 ^ 63 * shiftUp 1 (-e))
  | .ok _ => false
  | .error _ => true

/-- Whether a price, when it parses, parses to a finite number that is not negative
and is below `2^63` (checked on natural numbers). -/
def priceNonnegInRange (s : GoString) : Bool :=
  match ParseFloat s with
  | .ok (Float64.fin neg m e) =>
    (!neg || decide (m = 0)) && decide (shiftUp m e < 2 ^ 63 * shiftUp 1 (-e))
  | .ok _ => false
  | .error _ => true

/-- Whether a price, when it parses, parses to zero or to a positive finite number `p`
with `2^(-1000) ≤ p < 2^52` (checked on natural numbers). -/
def priceExact (s : GoString) : Bool :=
  match ParseFloat s with
  | .ok (Float64.fin neg m e) =>
    decide (m = 0) ||
      (!neg && decide (shiftUp 1 (-e) ≤ shiftUp m e * 2 ^ 1000) &&
        decide (shiftUp m e < 2 ^ 52 * shiftUp 1 (-e)))
  | .ok _ => false
  | .error _ => true

/-- A receipt with one item, whose price is negative and just above -15. -/
def nearFifteenReceipt : Receipt :=
  mkReceipt "Target" "2022-01-02" "13:01" "1.10" [("abc", "-14.999999999999998")]

/-! ## encoding/json, for the type `Receipt`

A JSON text is modelled by the value it denotes: `json.Marshal` writes a text that
`json.Unmarshal` reads back to the same value.  A text that begins with a JSON value
and goes on with other data is `Document.withTrailing`: `json.Unmarshal` refuses it,
and a `json.Decoder` reads the value and leaves the rest.  A text that does not begin
with a complete JSON value is `Document.malformed`. -/

/-- A JSON value.  A number is either an integer literal (`num`) or any other number
literal, with a fraction or an exponent (`numFrac`). -/
inductive JSON
  | null
  | bool (b : Bool)
  | num (n : Int)
  | numFrac (text : GoString)
  | str (s : GoString)
  | arr (elems : List JSON)
  | obj (fields : List (GoString × JSON))

/-- A text given to the JSON decoder: the text of one JSON value (with white space
around it at most), a text that begins with a complete JSON value and goes on with
further data, or a text that does not begin with a complete JSON value. -/
inductive Document
  | json (v : JSON)
  | withTrailing (v : JSON)
  | malformed

/-- The first JSON value of a text, which is all that a `json.Decoder` reads of it for
one call of `Decode`: the decoder stops at the end of that value and does not look at
the data that follows. -/
def Document.first : Document → Option JSON
  | Document.json v => some v
  | Document.withTrailing v => some v
  | Document.malformed => none

/-- The zero value of `Receipt`, as declared by `var receipt Receipt`. -/
def Receipt.zero : Receipt :=
  ⟨[], [], [], [], [], [], 0⟩

/-- The zero value of `Item`. -/
def Item.zero : Item :=
  ⟨[], []⟩

/-- Case folding of one character as `encoding/json` does it to match an object key
with a field name: ASCII letters regardless of case, the Kelvin sign as `k` and the
long s as `s`. -/
def foldRune (c : Char) : Char :=
  if inRange 'a' 'z' c then Char.ofNat (c.toNat - 32)
  else if c.toNat = 0x212A then 'K'
  else if c.toNat = 0x17F then 'S'
  else c

/-- Whether an object key names the field whose JSON name is `name`. -/
def keyIs (key : GoString) (name : String) : Bool :=
  key.map foldRune == name.toList.map foldRune

/-- Decoding of a JSON value into a `string`: the new value of the variable, and
whether there was no error.  `null` leaves the variable alone; a value that is no
string is a type error and leaves it alone too. -/
def decodeString (old : GoString) : JSON → GoString × Bool
  | JSON.str s => (s, true)
  | JSON.null => (old, true)
  | _ => (old, false)

/-- Decoding of a JSON value into an `int`: an integer literal in the range of `int`
is stored; `null` leaves the variable alone; anything else is a type error and leaves
it alone too. -/
def decodeInt (old : Int) : JSON → Int × Bool
  | JSON.num n => if inInt64 n then (n, true) else (old, false)
  | JSON.null => (old, true)
  | _ => (old, false)

/-- Decoding of one member of a JSON object into an `Item`. -/
def decodeItemField (acc : Item × Bool) (kv : GoString × JSON) : Item × Bool :=
  if keyIs kv.1 "shortDescription" then
    let d := decodeString acc.1.ShortDescription kv.2
    ({ acc.1 with ShortDescription := d.1 }, acc.2 && d.2)
  else if keyIs kv.1 "price" then
    let d := decodeString acc.1.Price kv.2
    ({ acc.1 with Price := d.1 }, acc.2 && d.2)
  else acc

/-- Decoding of a JSON value into an `Item`. -/
def decodeItem (old : Item) : JSON → Item × Bool
  | JSON.obj fields => fields.foldl decodeItemField (old, true)
  | JSON.null => (old, true)
  | _ => (old, false)

/-- Decoding of a JSON value into a `[]Item`: an array gives a new slice, each element
decoded into a zero `Item`; `null` gives the nil slice. -/
def decodeItems (old : List Item) : JSON → List Item × Bool
  | JSON.arr elems =>
    (elems.map (fun v => (decodeItem Item.zero v).1),
      elems.all (fun v => (decodeItem Item.zero v).2))
  | JSON.null => ([], true)
  | _ => (old, false)

/-- Decoding of one member of a JSON object into a `Receipt`: the member is stored in
the field that its key names; a key that names no field is skipped; after a type error
the decoding goes on with the next member. -/
def decodeField (acc : Receipt × Bool) (kv : GoString × JSON) : Receipt × Bool :=
  if keyIs kv.1 "id" then
    let d := decodeString acc.1.ID kv.2
    ({ acc.1 with ID := d.1 }, acc.2 && d.2)
  else if keyIs kv.1 "retailer" then
    let d := decodeString acc.1.Retailer kv.2
    ({ acc.1 with Retailer := d.1 }, acc.2 && d.2)
  else if keyIs kv.1 "purchaseDate" then
    let d := decodeString acc.1.PurchaseDate kv.2
    ({ acc.1 with PurchaseDate := d.1 }, acc.2 && d.2)
  else if keyIs kv.1 "purchaseTime" then
    let d := decodeString acc.1.PurchaseTime kv.2
    ({ acc.1 with PurchaseTime := d.1 }, acc.2 && d.2)
  else if keyIs kv.1 "total" then
    let d := decodeString acc.1.Total kv.2
    ({ acc.1 with Total := d.1 }, acc.2 && d.2)
  else if keyIs kv.1 "items" then
    let d := decodeItems acc.1.Items kv.2
    ({ acc.1 with Items := d.1 }, acc.2 && d.2)
  else if keyIs kv.1 "points" then
    let d := decodeInt acc.1.Points kv.2
    ({ acc.1 with Points := d.1 }, acc.2 && d.2)
  else acc

/-- Go `json.Unmarshal(text, &receipt)`: the receipt after the call, and whether the
call returned no error.  `Unmarshal` checks the whole text first: a text that is not
one JSON value, data after the value included, is an error and changes nothing. -/
def Unmarshal (doc : Document) (receipt : Receipt) : Receipt × Bool :=
  match doc with
  | Document.malformed => (receipt, false)
  | Document.withTrailing _ => (receipt, false)
  | Document.json (JSON.obj fields) => fields.foldl decodeField (receipt, true)
  | Document.json JSON.null => (receipt, true)
  | Document.json _ => (receipt, false)

/-- The call `json.NewDecoder(r.Body).Decode(&receipt)` of `ProcessReceipt` on a zero
receipt: the receipt decoded, or `none` for a non-nil error.  The decoder reads the
first JSON value of the body and decodes it as `Unmarshal` decodes a text that is that
value alone; data after the value is not read and is no error. -/
def Decode (body : Document) : Option Receipt :=
  match body.first with
  | none => none
  | some v =>
    let d := Unmarshal (Document.json v) Receipt.zero
    if d.2 then some d.1 else none

/-- Whether the slice `Items` is nil after the decoding of a JSON value into it: an
array gives a new slice that is not nil, also when it has no element; `null` gives the
nil slice; a value of another type leaves the slice alone. -/
def decodeItemsNil (old : Bool) : JSON → Bool
  | JSON.arr _ => false
  | JSON.null => true
  | _ => old

/-- Whether the slice `Items` is nil after the decoding of one member of a JSON
object into a `Receipt`: only a member whose key names the field `items` is stored in
it (no key names two fields). -/
def decodeFieldNil (acc : Bool) (kv : GoString × JSON) : Bool :=
  if keyIs kv.1 "items" then decodeItemsNil acc kv.2 else acc

/-- Whether the slice `Items` of the receipt that `Decode` fills is nil after the
call; it is nil in the zero receipt.  A list does not tell the nil slice from an empty
one, which `json.Marshal` writes differently, so that the model keeps this bit beside
the receipt. -/
def DecodeItemsNil (body : Document) : Bool :=
  match body.first with
  | some (JSON.obj fields) => fields.foldl decodeFieldNil true
  | _ => true

/-- The JSON value of an `Item`. -/
def marshalItem (item : Item) : JSON :=
  JSON.obj [("shortDescription".toList, JSON.str item.ShortDescription),
    ("price".toList, JSON.str item.Price)]

/-- Go `json.Marshal(receipt)`: the fields in the order of the struct, under the names
of their tags; `id` and `points` carry `omitempty` and are left out when empty (the
empty string, the number 0).  `itemsNil` tells whether the slice `receipt.Items` is
nil: the nil slice is written as `null`, any other slice as an array, the empty one as
`[]`. -/
def Marshal (receipt : Receipt) (itemsNil : Bool) : JSON :=
  JSON.obj
    ((if receipt.ID = [] then [] else [("id".toList, JSON.str receipt.ID)]) ++
      [("retailer".toList, JSON.str receipt.Retailer),
        ("purchaseDate".toList, JSON.str receipt.PurchaseDate),
        ("purchaseTime".toList, JSON.str receipt.PurchaseTime),
        ("total".toList, JSON.str receipt.Total),
        ("items".toList,
          if itemsNil then JSON.null
          else JSON.arr (receipt.Items.map marshalItem))] ++
      (if receipt.Points = 0 then [] else [("points".toList, JSON.num receipt.Points)]))

/-- The members of a JSON object (none for any other value). -/
def JSON.members : JSON → List (GoString × JSON)
  | JSON.obj fields => fields
  | _ => []

/-- The keys of a JSON object. -/
def JSON.keys (v : JSON) : List GoString :=
  v.members.map Prod.fst

/-- The value of the first member of a JSON object with the given key. -/
def JSON.get (v : JSON) (key : String) : Option JSON :=
  (v.members.find? (fun kv => kv.1 == key.toList)).map Prod.snd

/-! ## github.com/google/uuid -/

/-- One hexadecimal digit, in lower case. -/
def hexDigit (n : Nat) : Char :=
  if n < 10 then Char.ofNat (48 + n) else Char.ofNat (87 + n)

/-- The two hexadecimal digits of a byte. -/
def hexByte (b : Nat) : GoString :=
  [hexDigit (b / 16 % 16), hexDigit (b % 16)]

/-- The 16 bytes of a version-4 UUID made from 128 random bits: byte 6 carries the
version 4 and byte 8 the variant `10`. -/
def uuidBytes (random : Nat) : List Nat :=
  (List.range 16).map (fun i =>
    let b := random / 256 ^ (15 - i) % 256
    if i = 6 then b % 16 + 0x40
    else if i = 8 then b % 64 + 0x80
    else b)

/-- Go `uuid.New().String()` for the given random bits: the 36 characters
`xxxxxxxx-xxxx-xxxx-xxxx-xxxxxxxxxxxx`. -/
def uuidString (random : Nat) : GoString :=
  let h := (uuidBytes random).map hexByte
  (h.take 4).flatten ++ '-' :: ((h.drop 4).take 2).flatten ++ '-' :: ((h.drop 6).take 2).flatten ++
    '-' :: ((h.drop 8).take 2).flatten ++ '-' :: (h.drop 10).flatten

/-! ## The store (Redis) and the two handlers (src/main.go) -/

/-- The key-value store: the text stored under each key, if any. -/
structure Store where
  data : GoString → Option Document

/-- The store without any key. -/
def Store.empty : Store :=
  ⟨fun _ => none⟩

/-- Go `rdb.Set(ctx, key, value, 0).Err()`: the store after the write, or `none` for
an error (`fail` tells whether the command fails to reach the store; nothing is
written then).  An existing key is overwritten. -/
def Store.Set (st : Store) (key : GoString) (value : Document) (fail : Bool) :
    Option Store :=
  if fail then none
  else some ⟨fun k => if k = key then some value else st.data k⟩

/-- The outcome of `rdb.Get(ctx, key).Result()`. -/
inductive GetResult
  | value (text : Document)
  | Nil
  | err

/-- Go `rdb.Get(ctx, key).Result()`: the text stored under the key, `redis.Nil` when
there is none, another error when the command fails to reach the store. -/
def Store.Get (st : Store) (key : GoString) (fail : Bool) : GetResult :=
  if fail then GetResult.err
  else
    match st.data key with
    | some text => GetResult.value text
    | none => GetResult.Nil

/-- An HTTP response: status 200 with a JSON body, or the status and message of
`http.Error`. -/
inductive Response
  | ok (body : JSON)
  | error (status : Nat) (message : String)

/-- The status code of a response. -/
def Response.status : Response → Nat
  | Response.ok _ => 200
  | Response.error status _ => status

/-- Go `ProcessReceipt`: the response and the store after the request.  `body` is the
request body, `random` the random bits that `uuid.New` draws, `fail` whether the write
to the store fails. -/
def ProcessReceipt (cv : Float64 → Int) (st : Store) (body : Document) (random : Nat)
    (fail : Bool) : Response × Store :=
  match Decode body with
  | none => (Response.error 400 "Invalid JSON", st)
  | some receipt =>
    -- Generate unique ID and calculate points
    let receipt := { receipt with ID := uuidString random }
    let receipt := { receipt with Points := calculatePoints cv receipt }
    -- Convert receipt to JSON and store in Redis
    let receiptJSON := Document.json (Marshal receipt (DecodeItemsNil body))
    match st.Set receipt.ID receiptJSON fail with
    | none => (Response.error 500 "Failed to store receipt", st)
    | some st' =>
      -- Respond with generated receipt ID
      (Response.ok (JSON.obj [("id".toList, JSON.str receipt.ID)]), st')

/-- Go `GetPoints`: the response, and the store after the request, which is the store
before it since the handler makes no write. -/
def GetPoints (st : Store) (id : GoString) (fail : Bool) : Response × Store :=
  -- Retrieve receipt from Redis
  match st.Get id fail with
  | GetResult.Nil => (Response.error 404 "Receipt not found", st)
  | GetResult.err => (Response.error 500 "Failed to fetch receipt", st)
  | GetResult.value receiptJSON =>
    -- Deserialize and return points
    let receipt := (Unmarshal receiptJSON Receipt.zero).1
    (Response.ok (JSON.obj [("points".toList, JSON.num receipt.Points)]), st)

/-- A request to the service, with what the environment decides for it: the random
bits of the identifier and whether the store command fails. -/
inductive Request
  | process (body : Document) (random : Nat) (fail : Bool)
  | getPoints (id : GoString) (fail : Bool)

/-- The handling of one request. -/
def step (cv : Float64 → Int) (st : Store) : Request → Response × Store
  | Request.process body random fail => ProcessReceipt cv st body random fail
  | Request.getPoints id fail => GetPoints st id fail

/-- The store after a sequence of requests. -/
def run (cv : Float64 → Int) (st : Store) : List Request → Store
  | [] => st
  | req :: rest => run cv (step cv st req).2 rest

/-- The identifiers that the requests of a sequence generate and write. -/
def issued : List Request → List GoString
  | [] => []
  | Request.process body random fail :: rest =>
    if (Decode body).isSome && !fail then uuidString random :: issued rest
    else issued rest
  | Request.getPoints _ _ :: rest => issued rest

/-- Every identifier generated and written in the sequence is new to the store at
that moment. -/
def freshRun (cv : Float64 → Int) (st : Store) : List Request → Prop
  | [] => True
  | Request.process body random fail :: rest =>
    ((Decode body).isSome = true → fail = false → st.data (uuidString random) = none) ∧
      freshRun cv (step cv st (Request.process body random fail)).2 rest
  | Request.getPoints id fail :: rest =>
    freshRun cv (step cv st (Request.getPoints id fail)).2 rest

/-- The points that a stored text holds, as `GetPoints` reads them. -/
def pointsOf (text : Document) : Int :=
  (Unmarshal text Receipt.zero).1.Points

/-- The request body of a client for a receipt: its JSON without `id` and `points`,
the items as an array. -/
def requestBody (r : Receipt) : Document :=
  Document.json (Marshal { r with ID := [], Points := 0 } false)

/-- A receipt that scores no point. -/
def zeroPointReceipt : Receipt :=
  mkReceipt "---" "2022-01-02" "13:01" "1.10" [("ab", "1.00")]

/-- A receipt whose only description has 2 characters and 3 bytes. -/
def accentReceipt : Receipt :=
  mkReceipt "" "2022-01-02" "13:01" "1.10" [("éa", "5.00")]

/-- A receipt whose only description has 3 characters and 4 bytes. -/
def accentThreeReceipt : Receipt :=
  mkReceipt "" "2022-01-02" "13:01" "1.10" [("éab", "5.00")]

/-- The description rule for one item on the number of bytes: the ceiling of the
float64 product of the price and `0.2`, for a trimmed description whose UTF-8 encoding
has a number of bytes that is a multiple of 3 and a price that parses. -/
def byteItemPoints (item : Item) : Int :=
  if goLen (TrimSpace item.ShortDescription) % 3 = 0 then
    match ParseFloat item.Price with
    | .ok p => ⌈(Float64.mul p Float64.fifth).toRat⌉
    | .error _ => 0
  else 0

/-- The description rule for one item on the number of characters. -/
def charItemPoints (item : Item) : Int :=
  if (TrimSpace item.ShortDescription).length % 3 = 0 then
    match ParseFloat item.Price with
    | .ok p => ⌈(Float64.mul p Float64.fifth).toRat⌉
    | .error _ => 0
  else 0

/-! ## Arithmetic of `int` -/

theorem wrap64_of_inInt64 {x : Int} (h : inInt64 x) : wrap64 x = x := by
  unfold inInt64 at h
  unfold wrap64
  omega

theorem inInt64_wrap64 (x : Int) : inInt64 (wrap64 x) := by
  unfold inInt64 wrap64
  omega

theorem wrap64_add_left (a b : Int) : wrap64 (wrap64 a + b) = wrap64 (a + b) := by
  unfold wrap64
  omega

theorem wrap64_add_right (a b : Int) : wrap64 (a + wrap64 b) = wrap64 (a + b) := by
  unfold wrap64
  omega

theorem wrap64_wrap64 (a : Int) : wrap64 (wrap64 a) = wrap64 a := by
  unfold wrap64
  omega

theorem wrap64_mul_five (a : Int) : wrap64 (a * 5) = wrap64 (5 * a) := by
  rw [mul_comm]

theorem itemStep_wrap64 (cv : Float64 → Int) (x : Int) (item : Item) :
    itemStep cv (wrap64 x) item = wrap64 (x + itemPoints cv item) := by
  unfold itemStep itemPoints addInt
  by_cases h : goLen (TrimSpace item.ShortDescription) % 3 = 0
  · simp only [h, if_true]
    cases ParseFloat item.Price with
    | ok price => simp only [wrap64_add_left]
    | error e => simp only [add_zero]
  · simp only [h, if_false, add_zero]

theorem foldl_itemStep (cv : Float64 → Int) (items : List Item) (x : Int) :
    items.foldl (itemStep cv) (wrap64 x) = wrap64 (x + descriptionPoints cv items) := by
  induction items generalizing x with
  | nil => simp [descriptionPoints]
  | cons item rest ih =>
    rw [List.foldl_cons, itemStep_wrap64, ih]
    simp only [descriptionPoints, List.map_cons, List.sum_cons, add_assoc]

theorem totalStep_wrap64 (x : Int) (total : GoString) :
    (match ParseFloat total with
      | .ok t =>
        let points := if Float64.eq t (Floor t) then addInt (wrap64 x) 50 else wrap64 x
        if Float64.eq (Mod t Float64.quarter) Float64.zero then addInt points 25
        else points
      | .error _ => wrap64 x) = wrap64 (x + totalPoints total) := by
  unfold totalPoints addInt
  cases ParseFloat total with
  | ok t =>
    simp only []
    split_ifs <;> simp only [wrap64_add_left, add_zero, zero_add, add_assoc]
  | error e => simp only [add_zero]

theorem dateStep_wrap64 (x : Int) (d : GoString) :
    (if (Split d).length = 3 then
      match Atoi ((Split d).getD 2 []) with
      | .ok day => if day.tmod 2 = 1 then addInt (wrap64 x) 6 else wrap64 x
      | .error _ => wrap64 x
    else wrap64 x) = wrap64 (x + datePoints d) := by
  unfold datePoints addInt
  by_cases h : (Split d).length = 3
  · simp only [h, if_true]
    cases Atoi ((Split d).getD 2 []) with
    | ok day =>
      by_cases h2 : day.tmod 2 = 1 <;> simp only [h2, if_true, if_false, wrap64_add_left, add_zero]
    | error e => simp only [add_zero]
  · simp only [h, if_false, add_zero]

theorem timeStep_wrap64 (x : Int) (t : GoString) :
    (match ParseTime t with
      | some purchaseTime =>
        if 14 ≤ purchaseTime.Hour ∧ purchaseTime.Hour < 16 then addInt (wrap64 x) 10
        else wrap64 x
      | none => wrap64 x) = wrap64 (x + timePoints t) := by
  unfold timePoints addInt
  cases ParseTime t with
  | some pt =>
    simp only []
    split_ifs <;> simp only [wrap64_add_left, add_zero]
  | none => simp only [add_zero]

theorem calculatePoints_eq_wrap64 (cv : Float64 → Int) (r : Receipt) :
    calculatePoints cv r = wrap64 (rulesSum cv r) := by
  unfold calculatePoints rulesSum
  simp only []
  have h0 : addInt 0 ((FindAllString r.Retailer).length : Nat) =
      wrap64 (retailerPoints r.Retailer) := by
    simp [addInt, retailerPoints]
  rw [h0, totalStep_wrap64]
  have h1 : ∀ y : Int, addInt (wrap64 y) (wrap64 ((r.Items.length / 2 : Nat) * 5)) =
      wrap64 (y + pairPoints r.Items) := by
    intro y
    simp only [addInt, pairPoints, wrap64_add_left, wrap64_add_right]
    rw [mul_comm]
  rw [h1, foldl_itemStep, dateStep_wrap64, timeStep_wrap64]


/-! ## Changing one field -/

theorem calculatePoints_congr (cv : Float64 → Int) (r r' : Receipt) (d : Int)
    (h : rulesSum cv r' = rulesSum cv r + d) :
    calculatePoints cv r' = wrap64 (calculatePoints cv r + d) := by
  rw [calculatePoints_eq_wrap64, calculatePoints_eq_wrap64, wrap64_add_left, h]

/-! ## C1: the score is the sum of the rule contributions -/

/-- C1: `calculatePoints` is the sum, in Go's `int`, of the contributions of the rules,
each a function of one field (the description rule of the items, which it sums item by
item); the result is the exact sum whenever that fits in `int`; and replacing one
field changes the score by the change of that field's own contribution. -/
theorem C1_calculatePoints_is_sum_of_rules (cv : Float64 → Int) (r : Receipt) :
    calculatePoints cv r =
        wrap64 (retailerPoints r.Retailer + totalPoints r.Total +
          5 * ((r.Items.length / 2 : Nat) : Int) + (r.Items.map (itemPoints cv)).sum +
          datePoints r.PurchaseDate + timePoints r.PurchaseTime) ∧
      (inInt64 (rulesSum cv r) → calculatePoints cv r = rulesSum cv r) ∧
      (∀ s, calculatePoints cv { r with Retailer := s } =
        wrap64 (calculatePoints cv r + (retailerPoints s - retailerPoints r.Retailer))) ∧
      (∀ s, calculatePoints cv { r with Total := s } =
        wrap64 (calculatePoints cv r + (totalPoints s - totalPoints r.Total))) ∧
      (∀ items, calculatePoints cv { r with Items := items } =
        wrap64 (calculatePoints cv r +
          ((pairPoints items + descriptionPoints cv items) -
            (pairPoints r.Items + descriptionPoints cv r.Items)))) ∧
      (∀ s, calculatePoints cv { r with PurchaseDate := s } =
        wrap64 (calculatePoints cv r + (datePoints s - datePoints r.PurchaseDate))) ∧
      (∀ s, calculatePoints cv { r with PurchaseTime := s } =
        wrap64 (calculatePoints cv r + (timePoints s - timePoints r.PurchaseTime))) := by
  refine ⟨?_, ?_, ?_, ?_, ?_, ?_, ?_⟩
  · rw [calculatePoints_eq_wrap64]; rfl
  · intro h
    rw [calculatePoints_eq_wrap64, wrap64_of_inInt64 h]
  all_goals
    intro s
    apply calculatePoints_congr
    simp only [rulesSum]
    ring

set_option maxRecDepth 100000 in
/-- C1, at a concrete receipt: the "Target" receipt scores 28, the plain sum of
6 + 0 + 10 + (3 + 3) + 6 + 0. -/
theorem C1_calculatePoints_is_sum_of_rules_witness :
    calculatePoints cvAmd64 targetReceipt = rulesSum cvAmd64 targetReceipt ∧
      rulesSum cvAmd64 targetReceipt = 6 + 0 + 10 + (3 + 3) + 6 + 0 :=
  ⟨(C1_calculatePoints_is_sum_of_rules cvAmd64 targetReceipt).2.1 (by decide!), by decide!⟩

/-! ## C2: the retailer rule -/

theorem FindAllString_length (s : GoString) :
    (FindAllString s).length = s.countP isAlnum := by
  induction s with
  | nil => rfl
  | cons c cs ih =>
    unfold FindAllString
    by_cases h : isAlnum c = true
    · simp [h, ih]
    · simp [h, ih]

theorem char_le_iff (a b : Char) : a ≤ b ↔ a.toNat ≤ b.toNat :=
  Iff.rfl

theorem isAlnum_iff (c : Char) :
    isAlnum c = true ↔
      ('a' ≤ c ∧ c ≤ 'z') ∨ ('A' ≤ c ∧ c ≤ 'Z') ∨ ('0' ≤ c ∧ c ≤ '9') := by
  simp only [isAlnum, inRange, Bool.or_eq_true, Bool.and_eq_true, decide_eq_true_eq,
    char_le_iff, or_assoc]

/-- C2: the retailer rule contributes one point for each character of the retailer
name that lies in `a-z`, `A-Z` or `0-9`: the score with retailer `s` is the score with
the empty retailer plus that count (in Go's `int`, and exactly when the sum fits); a
name without such characters contributes nothing; "Target" contributes 6 and
"M&M Corner Market" contributes 14. -/
theorem C2_retailer_rule (cv : Float64 → Int) (r : Receipt) (s : GoString) :
    calculatePoints cv { r with Retailer := s } =
        wrap64 (calculatePoints cv { r with Retailer := [] } +
          (s.countP (fun c =>
            decide (('a' ≤ c ∧ c ≤ 'z') ∨ ('A' ≤ c ∧ c ≤ 'Z') ∨ ('0' ≤ c ∧ c ≤ '9'))) : Nat)) ∧
      (inInt64 (calculatePoints cv { r with Retailer := [] } + (s.countP isAlnum : Nat)) →
        calculatePoints cv { r with Retailer := s } =
          calculatePoints cv { r with Retailer := [] } + (s.countP isAlnum : Nat)) ∧
      ((∀ c ∈ s, ¬ (('a' ≤ c ∧ c ≤ 'z') ∨ ('A' ≤ c ∧ c ≤ 'Z') ∨ ('0' ≤ c ∧ c ≤ '9'))) →
        calculatePoints cv { r with Retailer := s } =
          calculatePoints cv { r with Retailer := [] }) ∧
      retailerPoints "Target".toList = 6 ∧
      retailerPoints "M&M Corner Market".toList = 14 ∧
      retailerPoints " &-é٣Ω!".toList = 0 := by
  have hcount : (fun c : Char =>
      decide (('a' ≤ c ∧ c ≤ 'z') ∨ ('A' ≤ c ∧ c ≤ 'Z') ∨ ('0' ≤ c ∧ c ≤ '9'))) = isAlnum := by
    funext c
    rw [Bool.eq_iff_iff, decide_eq_true_eq, isAlnum_iff]
  have hmain : calculatePoints cv { r with Retailer := s } =
      wrap64 (calculatePoints cv { r with Retailer := [] } + (s.countP isAlnum : Nat)) := by
    apply calculatePoints_congr
    simp only [rulesSum, retailerPoints, FindAllString_length, List.countP_nil]
    push_cast
    ring
  refine ⟨?_, ?_, ?_, by decide!, by decide!, by decide!⟩
  · rw [hcount]; exact hmain
  · intro h
    rw [hmain, wrap64_of_inInt64 h]
  · intro h
    have h0 : s.countP isAlnum = 0 := by
      rw [List.countP_eq_zero]
      intro c hc
      rw [isAlnum_iff]
      exact h c hc
    rw [hmain, h0]
    simp only [Nat.cast_zero, add_zero]
    rw [calculatePoints_eq_wrap64, wrap64_wrap64]

set_option maxRecDepth 100000 in
/-- C2, at a concrete receipt: giving the "Target" receipt the retailer
"M&M Corner Market" makes its score that of the receipt without retailer plus 14. -/
theorem C2_retailer_rule_witness :
    calculatePoints cvAmd64 { targetReceipt with Retailer := "M&M Corner Market".toList } =
      calculatePoints cvAmd64 { targetReceipt with Retailer := [] } +
        (("M&M Corner Market".toList.countP isAlnum : Nat) : Int) ∧
    ("M&M Corner Market".toList.countP isAlnum : Nat) = 14 :=
  ⟨(C2_retailer_rule cvAmd64 targetReceipt "M&M Corner Market".toList).2.1 (by decide!),
    by decide!⟩

/-! ## C3: the total rules -/

theorem shiftUp_zero (n : Nat) : shiftUp n 0 = n := by
  simp [shiftUp]

theorem shiftUp_of_nonpos (n : Nat) {k : Int} (h : k ≤ 0) : shiftUp n k = n := by
  simp [shiftUp, Int.toNat_of_nonpos h]

/-- A dyadic fraction `m / 2^j` is an integer exactly when `2^j` divides `m`. -/
theorem dyadic_isInt_iff (m j : Nat) :
    (∃ k : ℤ, (m : ℚ) * ((2 : ℚ) ^ j)⁻¹ = k) ↔ 2 ^ j ∣ m := by
  have h2 : ((2 : ℚ) ^ j) ≠ 0 := pow_ne_zero _ (by norm_num)
  constructor
  · rintro ⟨k, hk⟩
    have h1 : (m : ℚ) = ((k * 2 ^ j : ℤ) : ℚ) := by
      push_cast
      rw [← hk]
      field_simp
    have h3 : (m : ℤ) = k * 2 ^ j := by exact_mod_cast h1
    have h4 : ((2 ^ j : ℕ) : ℤ) ∣ (m : ℤ) := ⟨k, by rw [h3]; push_cast; ring⟩
    exact Int.natCast_dvd_natCast.mp h4
  · rintro ⟨c, hc⟩
    refine ⟨(c : ℤ), ?_⟩
    rw [hc]
    push_cast
    field_simp

theorem signed_isInt_iff (neg : Bool) (x : ℚ) :
    (∃ k : ℤ, (if neg then -1 else 1) * x = k) ↔ ∃ k : ℤ, x = k := by
  cases neg
  · simp
  · constructor
    · rintro ⟨k, hk⟩
      refine ⟨-k, ?_⟩
      push_cast
      rw [← hk]
      simp
    · rintro ⟨k, hk⟩
      refine ⟨-k, ?_⟩
      push_cast
      rw [hk]
      simp

/-- The value of a finite float64 is an integer exactly when its exponent is not
negative or the mantissa has enough trailing zero bits. -/
theorem toRat_isInt_iff (neg : Bool) (m : Nat) (e : Int) :
    (∃ k : ℤ, (Float64.fin neg m e).toRat = k) ↔ (0 ≤ e ∨ 2 ^ (-e).toNat ∣ m) := by
  simp only [Float64.toRat]
  rw [signed_isInt_iff]
  by_cases he : 0 ≤ e
  · simp only [he, true_or, iff_true]
    obtain ⟨j, rfl⟩ := Int.eq_ofNat_of_zero_le he
    exact ⟨(m * 2 ^ j : ℕ), by push_cast; rw [zpow_natCast]⟩
  · simp only [he, false_or]
    have hj : e = -((-e).toNat : ℤ) := by omega
    rw [← dyadic_isInt_iff]
    have : (2 : ℚ) ^ e = ((2 : ℚ) ^ (-e).toNat)⁻¹ := by
      conv_lhs => rw [hj]
      rw [zpow_neg, zpow_natCast]
    rw [this]

/-- Four times the value of a finite float64 is an integer exactly when the test
`math.Mod(t, 0.25) == 0` looks at a zero remainder. -/
theorem toRat_isQuarter_iff (neg : Bool) (m : Nat) (e : Int) :
    (∃ k : ℤ, (Float64.fin neg m e).toRat = k * (1 / 4)) ↔
      (-2 ≤ e ∨ 2 ^ (-2 - e).toNat ∣ m) := by
  have h4 : ∀ k : ℤ, (Float64.fin neg m e).toRat = k * (1 / 4) ↔
      (Float64.fin neg m (e + 2)).toRat = k := by
    intro k
    simp only [Float64.toRat]
    rw [zpow_add₀ (by norm_num : (2 : ℚ) ≠ 0)]
    have h22 : (2 : ℚ) ^ (2 : ℤ) = 4 := by norm_num
    rw [h22]
    constructor
    · intro h
      linear_combination 4 * h
    · intro h
      linear_combination (1 / 4) * h
  simp only [h4]
  rw [toRat_isInt_iff]
  have : (-(e + 2)).toNat = (-2 - e).toNat := by congr 1; ring
  rw [this]
  constructor <;> rintro (h | h) <;> first | (left; omega) | (right; exact h)

theorem eq_Floor_iff (neg : Bool) (m : Nat) (e : Int) :
    Float64.eq (Float64.fin neg m e) (Floor (Float64.fin neg m e)) = true ↔
      (0 ≤ e ∨ 2 ^ (-e).toNat ∣ m) := by
  unfold Floor
  by_cases he : 0 ≤ e
  · simp [he, Float64.eq]
  · simp only [he, if_false, false_or]
    have hmin : min e 0 = e := by omega
    have hpos : 0 < 2 ^ (-e).toNat := Nat.two_pow_pos _
    have hdm := Nat.div_add_mod m (2 ^ (-e).toNat)
    have hlt := Nat.mod_lt m hpos
    have hs : ∀ q : Nat, shiftUp q (0 - e) = q * 2 ^ (-e).toNat := by
      intro q; simp [shiftUp]
    rw [Nat.dvd_iff_mod_eq_zero]
    split_ifs with h
    · simp only [Float64.eq, hmin, sub_self, shiftUp_zero, hs, Bool.and_eq_true,
        decide_eq_true_eq, Bool.or_eq_true, or_true, and_true]
      constructor
      · intro h1
        exfalso
        have : m < (m / 2 ^ (-e).toNat + 1) * 2 ^ (-e).toNat := by
          rw [Nat.add_mul, one_mul, mul_comm]
          omega
        omega
      · intro h1; exact absurd h1 h.2
    · simp only [Float64.eq, hmin, sub_self, shiftUp_zero, hs, Bool.and_eq_true,
        decide_eq_true_eq, Bool.or_eq_true, or_true, and_true]
      rw [mul_comm]
      constructor
      · intro h1; omega
      · intro h1; omega

theorem eq_zero_iff (neg : Bool) (m : Nat) (e : Int) :
    Float64.eq (Float64.fin neg m e) Float64.zero = true ↔ m = 0 := by
  have hz : shiftUp 0 (0 - min e 0) = 0 := by simp [shiftUp]
  have hpos : 0 < 2 ^ (e - min e 0).toNat := Nat.two_pow_pos _
  simp only [Float64.eq, Float64.zero, hz, Bool.and_eq_true, decide_eq_true_eq,
    Bool.or_eq_true, shiftUp]
  constructor
  · rintro ⟨h, _⟩
    rw [zero_mul] at h
    rcases Nat.mul_eq_zero.mp h with h | h
    · exact h
    · omega
  · intro h
    simp [h]

theorem eq_Mod_quarter_iff (neg : Bool) (m : Nat) (e : Int) :
    Float64.eq (Mod (Float64.fin neg m e) Float64.quarter) Float64.zero = true ↔
      (-2 ≤ e ∨ 2 ^ (-2 - e).toNat ∣ m) := by
  unfold Mod Float64.quarter
  simp only [one_ne_zero, if_false]
  rw [eq_zero_iff]
  by_cases he : -2 ≤ e
  · have hmin : min e (-2) = -2 := by omega
    simp [he, hmin, shiftUp, Nat.mod_one]
  · have hmin : min e (-2) = e := by omega
    simp only [he, false_or, hmin, sub_self, shiftUp_zero]
    rw [Nat.dvd_iff_mod_eq_zero]
    simp [shiftUp]

theorem totalPoints_nil : totalPoints [] = 0 := by
  decide

theorem totalPoints_fin {s : GoString} {neg : Bool} {m : Nat} {e : Int}
    (h : ParseFloat s = .ok (Float64.fin neg m e)) :
    totalPoints s =
      (if 0 ≤ e ∨ 2 ^ (-e).toNat ∣ m then 50 else 0) +
        (if -2 ≤ e ∨ 2 ^ (-2 - e).toNat ∣ m then 25 else 0) := by
  unfold totalPoints
  rw [h]
  simp only [eq_Floor_iff, eq_Mod_quarter_iff]

theorem calculatePoints_total (cv : Float64 → Int) (r : Receipt) :
    calculatePoints cv r =
      wrap64 (calculatePoints cv { r with Total := [] } + totalPoints r.Total) := by
  have h := calculatePoints_congr cv { r with Total := [] } r (totalPoints r.Total)
    (by simp only [rulesSum, totalPoints_nil]; ring)
  exact h

/-- C3: when the total parses to a finite float64 of value `t`, the two total rules add
75 to the score if `t` is an integer, 25 if `t` is a multiple of a quarter but not an
integer, and nothing if `t` is not a multiple of a quarter (the score without them
being that of the receipt with an empty, unparsable total); "35.00" and "9.00" give
75, "9.25" gives 25 and "9.10" gives 0. -/
theorem C3_total_rules (cv : Float64 → Int) (r : Receipt) (neg : Bool) (m : Nat) (e : Int)
    (h : ParseFloat r.Total = .ok (Float64.fin neg m e)) :
    ((∃ k : ℤ, (Float64.fin neg m e).toRat = k) →
        calculatePoints cv r = wrap64 (calculatePoints cv { r with Total := [] } + 75)) ∧
      ((¬ ∃ k : ℤ, (Float64.fin neg m e).toRat = k) →
        (∃ k : ℤ, (Float64.fin neg m e).toRat = k * (1 / 4)) →
        calculatePoints cv r = wrap64 (calculatePoints cv { r with Total := [] } + 25)) ∧
      ((¬ ∃ k : ℤ, (Float64.fin neg m e).toRat = k * (1 / 4)) →
        calculatePoints cv r = calculatePoints cv { r with Total := [] }) ∧
      totalPoints "35.00".toList = 75 ∧ totalPoints "9.00".toList = 75 ∧
      totalPoints "9.25".toList = 25 ∧ totalPoints "9.10".toList = 0 := by
  have hc := calculatePoints_total cv r
  rw [totalPoints_fin h] at hc
  rw [toRat_isInt_iff, toRat_isQuarter_iff]
  refine ⟨?_, ?_, ?_, by decide!, by decide!, by decide!, by decide!⟩
  · intro hi
    have hq : -2 ≤ e ∨ 2 ^ (-2 - e).toNat ∣ m := by
      rcases hi with hi | hi
      · left; omega
      · by_cases he : -2 ≤ e
        · left; exact he
        · right
          refine dvd_trans (pow_dvd_pow 2 ?_) hi
          omega
    rw [hc, if_pos hi, if_pos hq]
    rfl
  · intro hi hq
    rw [hc, if_neg hi, if_pos hq]
    rfl
  · intro hq
    have hi : ¬ (0 ≤ e ∨ 2 ^ (-e).toNat ∣ m) := by
      rintro (hi | hi)
      · exact hq (Or.inl (by omega))
      · by_cases he : -2 ≤ e
        · exact hq (Or.inl he)
        · exact hq (Or.inr (dvd_trans (pow_dvd_pow 2 (by omega)) hi))
    rw [hc, if_neg hi, if_neg hq]
    simp only [add_zero]
    rw [calculatePoints_eq_wrap64, wrap64_wrap64]

set_option maxRecDepth 100000 in
/-- C3, at concrete receipts: the total "9.00" of the "M&M Corner Market" receipt
parses to 9 and adds 75; with the total "9.25" the same receipt gets 25. -/
theorem C3_total_rules_witness :
    calculatePoints cvAmd64 cornerMarketReceipt =
        wrap64 (calculatePoints cvAmd64 { cornerMarketReceipt with Total := [] } + 75) ∧
      calculatePoints cvAmd64 { cornerMarketReceipt with Total := "9.25".toList } =
        wrap64 (calculatePoints cvAmd64
          { { cornerMarketReceipt with Total := "9.25".toList } with Total := [] } + 25) :=
  ⟨(C3_total_rules cvAmd64 cornerMarketReceipt false (9 * 2 ^ 49) (-49) (by decide!)).1
      ⟨9, by simp only [Float64.toRat]; norm_num⟩,
    (C3_total_rules cvAmd64 { cornerMarketReceipt with Total := "9.25".toList } false
      (37 * 2 ^ 47) (-49) (by decide!)).2.1
      (by rw [toRat_isInt_iff]; decide) ⟨37, by simp only [Float64.toRat]; norm_num⟩⟩

/-! ## C4: the item-count rule -/

theorem descriptionPoints_eq_zero (cv : Float64 → Int) (items : List Item)
    (h : ∀ item ∈ items, itemPoints cv item = 0) : descriptionPoints cv items = 0 := by
  unfold descriptionPoints
  induction items with
  | nil => rfl
  | cons item rest ih =>
    rw [List.map_cons, List.sum_cons, h item (List.mem_cons_self _ _),
      ih (fun i hi => h i (List.mem_cons_of_mem _ hi)), add_zero]

theorem itemPoints_of_length (cv : Float64 → Int) (item : Item)
    (h : goLen (TrimSpace item.ShortDescription) % 3 ≠ 0) : itemPoints cv item = 0 := by
  unfold itemPoints
  rw [if_neg h]

theorem calculatePoints_items (cv : Float64 → Int) (r : Receipt) :
    calculatePoints cv r =
      wrap64 (calculatePoints cv { r with Items := [] } +
        (pairPoints r.Items + descriptionPoints cv r.Items)) := by
  have h := calculatePoints_congr cv { r with Items := [] } r
    (pairPoints r.Items + descriptionPoints cv r.Items)
    (by simp only [rulesSum, pairPoints, descriptionPoints, List.length_nil, List.map_nil,
          List.sum_nil]; push_cast; ring)
  exact h

/-- C4: for a receipt none of whose items has a trimmed description of a length that is
a multiple of 3 (so that the description rule adds nothing), the score is the score of
the same receipt without items plus `5 * ⌊n / 2⌋`, `n` being the number of items (in
Go's `int`, and exactly when the sum fits): nothing for 0 or 1 item, 5 for 2 or 3
items, 10 for 4 items. -/
theorem C4_item_count_rule (cv : Float64 → Int) (r : Receipt)
    (h : ∀ item ∈ r.Items, goLen (TrimSpace item.ShortDescription) % 3 ≠ 0) :
    calculatePoints cv r =
        wrap64 (calculatePoints cv { r with Items := [] } +
          5 * ((r.Items.length / 2 : Nat) : Int)) ∧
      (inInt64 (calculatePoints cv { r with Items := [] } +
          5 * ((r.Items.length / 2 : Nat) : Int)) →
        calculatePoints cv r =
          calculatePoints cv { r with Items := [] } + 5 * ((r.Items.length / 2 : Nat) : Int)) ∧
      (r.Items.length = 0 ∨ r.Items.length = 1 →
        calculatePoints cv r = calculatePoints cv { r with Items := [] }) ∧
      (r.Items.length = 2 ∨ r.Items.length = 3 →
        calculatePoints cv r = wrap64 (calculatePoints cv { r with Items := [] } + 5)) ∧
      (r.Items.length = 4 →
        calculatePoints cv r = wrap64 (calculatePoints cv { r with Items := [] } + 10)) := by
  have hd : descriptionPoints cv r.Items = 0 :=
    descriptionPoints_eq_zero cv r.Items (fun i hi => itemPoints_of_length cv i (h i hi))
  have hmain := calculatePoints_items cv r
  rw [hd, add_zero] at hmain
  unfold pairPoints at hmain
  refine ⟨hmain, ?_, ?_, ?_, ?_⟩
  · intro hr
    rw [hmain, wrap64_of_inInt64 hr]
  · intro hn
    have h0 : r.Items.length / 2 = 0 := by omega
    rw [hmain, h0]
    simp only [Nat.cast_zero, mul_zero, add_zero]
    rw [calculatePoints_eq_wrap64, wrap64_wrap64]
  · intro hn
    have h0 : r.Items.length / 2 = 1 := by omega
    rw [hmain, h0]
    rfl
  · intro hn
    have h0 : r.Items.length / 2 = 2 := by omega
    rw [hmain, h0]
    rfl

set_option maxRecDepth 100000 in
/-- C4, at a concrete receipt: the four "Gatorade" items (a description of 8
characters) of the "M&M Corner Market" receipt add 10. -/
theorem C4_item_count_rule_witness :
    calculatePoints cvAmd64 cornerMarketReceipt =
      wrap64 (calculatePoints cvAmd64 { cornerMarketReceipt with Items := [] } + 10) :=
  (C4_item_count_rule cvAmd64 cornerMarketReceipt (by decide!)).2.2.2.2 (by decide!)

/-! ## C10: the order of the items -/

/-- C10: a permutation of the items leaves the score unchanged. -/
theorem C10_item_order_irrelevant (cv : Float64 → Int) (r : Receipt) (p : List Item)
    (h : p.Perm r.Items) :
    calculatePoints cv { r with Items := p } = calculatePoints cv r := by
  rw [calculatePoints_eq_wrap64, calculatePoints_eq_wrap64]
  have h1 : pairPoints p = pairPoints r.Items := by
    unfold pairPoints
    rw [h.length_eq]
  have h2 : descriptionPoints cv p = descriptionPoints cv r.Items := by
    unfold descriptionPoints
    exact (h.map (itemPoints cv)).sum_eq
  simp only [rulesSum, h1, h2]

set_option maxRecDepth 100000 in
/-- C10, at a concrete receipt: the "Target" receipt with its items in reverse order
scores the same 28 points. -/
theorem C10_item_order_irrelevant_witness :
    calculatePoints cvAmd64 { targetReceipt with Items := targetReceipt.Items.reverse } =
        calculatePoints cvAmd64 targetReceipt ∧
      calculatePoints cvAmd64 targetReceipt = 28 :=
  ⟨C10_item_order_irrelevant cvAmd64 targetReceipt targetReceipt.Items.reverse
      (List.reverse_perm _), by decide!⟩

/-! ## C6: the date rule -/

theorem Split_ne_nil (d : GoString) : Split d ≠ [] := by
  cases d with
  | nil => simp [Split]
  | cons c cs =>
    unfold Split
    split <;> split_ifs <;> simp

/-- No component of a split on `'-'` contains a dash. -/
theorem Split_no_dash (d : GoString) : ∀ p ∈ Split d, '-' ∉ p := by
  induction d with
  | nil => simp [Split]
  | cons c cs ih =>
    unfold Split
    split
    · rename_i h
      exact absurd h (Split_ne_nil cs)
    · rename_i p ps h
      rw [h] at ih
      by_cases hc : c = '-'
      · simp only [hc, if_true]
        intro q hq
        rcases List.mem_cons.mp hq with hq | hq
        · rw [hq]; simp
        · exact ih q hq
      · simp only [hc, if_false]
        intro q hq
        rcases List.mem_cons.mp hq with hq | hq
        · rw [hq]
          intro hmem
          rcases List.mem_cons.mp hmem with h1 | h1
          · exact hc h1.symm
          · exact ih p (List.mem_cons_self _ _) h1
        · exact ih q (List.mem_cons_of_mem _ hq)

/-- A text without a dash that `Atoi` accepts is not a negative number. -/
theorem Atoi_nonneg {s : GoString} {k : Int} (h : Atoi s = .ok k) (hs : '-' ∉ s) :
    0 ≤ k := by
  cases s with
  | nil => simp [Atoi] at h
  | cons c cs =>
    have hc : c ≠ '-' := fun hc => hs (by rw [hc]; exact List.mem_cons_self _ _)
    have hneg : (c == '-') = false := by simpa using hc
    unfold Atoi at h
    simp only [hneg] at h
    split at h
    · simp at h
    · split at h
      · simp at h
      · rename_i un _
        simp only [Bool.not_false, Bool.true_and, Bool.false_and, Bool.false_eq_true,
          if_false] at h
        split_ifs at h
        simp only [Except.ok.injEq] at h
        rw [← h]
        exact Int.natCast_nonneg un

theorem datePoints_nil : datePoints [] = 0 := by
  decide

theorem calculatePoints_date (cv : Float64 → Int) (r : Receipt) :
    calculatePoints cv r =
      wrap64 (calculatePoints cv { r with PurchaseDate := [] } + datePoints r.PurchaseDate) := by
  have h := calculatePoints_congr cv { r with PurchaseDate := [] } r (datePoints r.PurchaseDate)
    (by simp only [rulesSum, datePoints_nil]; ring)
  exact h

/-- The date rule gives 6 exactly for three components of which the third is an odd
integer, and 0 otherwise. -/
theorem datePoints_eq (d : GoString) :
    ((∃ a b c k, Split d = [a, b, c] ∧ Atoi c = .ok k ∧ Odd k) → datePoints d = 6) ∧
      ((¬ ∃ a b c k, Split d = [a, b, c] ∧ Atoi c = .ok k ∧ Odd k) → datePoints d = 0) := by
  constructor
  · rintro ⟨a, b, c, k, hs, hk, hodd⟩
    have hc : c ∈ Split d := by rw [hs]; simp
    have hk0 : 0 ≤ k := Atoi_nonneg hk (Split_no_dash d c hc)
    have : k.tmod 2 = 1 := by
      rw [Int.tmod_eq_emod hk0 (by norm_num)]
      exact Int.odd_iff.mp hodd
    simp [datePoints, hs, hk, this]
  · intro hno
    unfold datePoints
    by_cases hl : (Split d).length = 3
    · rw [if_pos hl]
      obtain ⟨a, b, c, hs⟩ := List.length_eq_three.mp hl
      have hg : (Split d).getD 2 [] = c := by rw [hs]; rfl
      rw [hg]
      cases hk : Atoi c with
      | error err => rfl
      | ok k =>
        simp only []
        have hc : c ∈ Split d := by rw [hs]; simp
        have hk0 : 0 ≤ k := Atoi_nonneg hk (Split_no_dash d c hc)
        have hne : ¬ k.tmod 2 = 1 := by
          intro h1
          rw [Int.tmod_eq_emod hk0 (by norm_num)] at h1
          exact hno ⟨a, b, c, k, hs, hk, Int.odd_iff.mpr h1⟩
        rw [if_neg hne]
    · rw [if_neg hl]

/-- C6: the date rule adds 6 to the score exactly when the purchase date splits on
`'-'` into exactly three components of which the third parses as an odd integer, and
nothing otherwise (the score without the rule being that of the receipt with an empty
date); a component of the split never parses to a negative integer, so that the test
`day % 2 == 1` finds every odd day; no component is checked against the calendar;
"2022-01-01" gives 6 and "2022-01-02" gives 0. -/
theorem C6_date_rule (cv : Float64 → Int) (r : Receipt) :
    ((∃ a b c k, Split r.PurchaseDate = [a, b, c] ∧ Atoi c = .ok k ∧ Odd k) →
        calculatePoints cv r =
          wrap64 (calculatePoints cv { r with PurchaseDate := [] } + 6)) ∧
      ((¬ ∃ a b c k, Split r.PurchaseDate = [a, b, c] ∧ Atoi c = .ok k ∧ Odd k) →
        calculatePoints cv r = calculatePoints cv { r with PurchaseDate := [] }) ∧
      (∀ p ∈ Split r.PurchaseDate, ∀ k, Atoi p = .ok k → 0 ≤ k) ∧
      datePoints "2022-01-01".toList = 6 ∧ datePoints "2022-01-02".toList = 0 ∧
      datePoints "2022-02-31".toList = 6 ∧ datePoints "x-y-+7".toList = 6 ∧
      datePoints "2022-01".toList = 0 ∧ datePoints "2022-01-01-".toList = 0 := by
  have hc := calculatePoints_date cv r
  refine ⟨?_, ?_, ?_, by decide!, by decide!, by decide!, by decide!, by decide!, by decide!⟩
  · intro h
    rw [hc, (datePoints_eq r.PurchaseDate).1 h]
  · intro h
    rw [hc, (datePoints_eq r.PurchaseDate).2 h, add_zero, calculatePoints_eq_wrap64,
      wrap64_wrap64]
  · intro p hp k hk
    exact Atoi_nonneg hk (Split_no_dash r.PurchaseDate p hp)

set_option maxRecDepth 100000 in
/-- C6, at a concrete receipt: the date "2022-01-01" of the "Target" receipt adds 6. -/
theorem C6_date_rule_witness :
    calculatePoints cvAmd64 targetReceipt =
      wrap64 (calculatePoints cvAmd64 { targetReceipt with PurchaseDate := [] } + 6) :=
  (C6_date_rule cvAmd64 targetReceipt).1
    ⟨"2022".toList, "01".toList, "01".toList, 1, by decide!, by decide!, by decide⟩

/-! ## C7: the time rule -/

theorem timePoints_nil : timePoints [] = 0 := by
  decide

theorem calculatePoints_time (cv : Float64 → Int) (r : Receipt) :
    calculatePoints cv r =
      wrap64 (calculatePoints cv { r with PurchaseTime := [] } + timePoints r.PurchaseTime) := by
  have h := calculatePoints_congr cv { r with PurchaseTime := [] } r (timePoints r.PurchaseTime)
    (by simp only [rulesSum, timePoints_nil]; ring)
  exact h

set_option maxRecDepth 100000 in
/-- Every 24-hour time written `HH:MM` parses, to its hour and minute. -/
theorem ParseTime_clockText :
    ∀ h < 24, ∀ mi < 60, ParseTime (clockText h mi) = some ⟨h, mi⟩ := by
  decide!

/-- C7: when the purchase time parses with the layout `"15:04"`, to the hour `h`, the
time rule adds 10 to the score if `14 ≤ h < 16` and nothing otherwise, whatever the
minute (the score without the rule being that of the receipt with an empty time);
every 24-hour `HH:MM` text parses to its hour; "14:00", "14:33" and "15:59" give 10,
"13:59" and "16:00" give 0. -/
theorem C7_time_rule (cv : Float64 → Int) (r : Receipt) (t : Time)
    (h : ParseTime r.PurchaseTime = some t) :
    ((14 ≤ t.Hour ∧ t.Hour < 16) →
        calculatePoints cv r =
          wrap64 (calculatePoints cv { r with PurchaseTime := [] } + 10)) ∧
      (¬ (14 ≤ t.Hour ∧ t.Hour < 16) →
        calculatePoints cv r = calculatePoints cv { r with PurchaseTime := [] }) ∧
      (∀ hh < 24, ∀ mi < 60, ParseTime (clockText hh mi) = some ⟨hh, mi⟩) ∧
      timePoints "14:00".toList = 10 ∧ timePoints "14:33".toList = 10 ∧
      timePoints "15:59".toList = 10 ∧ timePoints "13:59".toList = 0 ∧
      timePoints "16:00".toList = 0 := by
  have hc := calculatePoints_time cv r
  have ht : timePoints r.PurchaseTime = if 14 ≤ t.Hour ∧ t.Hour < 16 then 10 else 0 := by
    unfold timePoints
    rw [h]
  refine ⟨?_, ?_, ParseTime_clockText, by decide!, by decide!, by decide!, by decide!,
    by decide!⟩
  · intro hh
    rw [hc, ht, if_pos hh]
  · intro hh
    rw [hc, ht, if_neg hh, add_zero, calculatePoints_eq_wrap64, wrap64_wrap64]

set_option maxRecDepth 100000 in
/-- C7, at concrete receipts: the time "14:33" of the "M&M Corner Market" receipt adds
10, the time "13:01" of the "Target" receipt adds nothing. -/
theorem C7_time_rule_witness :
    calculatePoints cvAmd64 cornerMarketReceipt =
        wrap64 (calculatePoints cvAmd64 { cornerMarketReceipt with PurchaseTime := [] } + 10) ∧
      calculatePoints cvAmd64 targetReceipt =
        calculatePoints cvAmd64 { targetReceipt with PurchaseTime := [] } :=
  ⟨(C7_time_rule cvAmd64 cornerMarketReceipt ⟨14, 33⟩ (by decide!)).1 (by decide),
    (C7_time_rule cvAmd64 targetReceipt ⟨13, 1⟩ (by decide!)).2.1 (by decide)⟩

/-! ## C8: fields that do not parse -/

theorem totalPoints_of_error {s : GoString} (h : ∃ e, ParseFloat s = .error e) :
    totalPoints s = 0 := by
  obtain ⟨e, he⟩ := h
  unfold totalPoints
  rw [he]

theorem itemPoints_of_error (cv : Float64 → Int) {item : Item}
    (h : ∃ e, ParseFloat item.Price = .error e) : itemPoints cv item = 0 := by
  obtain ⟨e, he⟩ := h
  unfold itemPoints
  rw [he]
  simp

theorem datePoints_of_error {d : GoString}
    (h : ∀ a b c, Split d = [a, b, c] → ∃ e, Atoi c = .error e) : datePoints d = 0 := by
  apply (datePoints_eq d).2
  rintro ⟨a, b, c, k, hs, hk, _⟩
  obtain ⟨e, he⟩ := h a b c hs
  rw [hk] at he
  cases he

theorem timePoints_of_error {t : GoString} (h : ParseTime t = none) : timePoints t = 0 := by
  unfold timePoints
  rw [h]

theorem descriptionPoints_append (cv : Float64 → Int) (l1 l2 : List Item) :
    descriptionPoints cv (l1 ++ l2) = descriptionPoints cv l1 + descriptionPoints cv l2 := by
  simp [descriptionPoints]

/-- C8: `calculatePoints` returns an `int` for every receipt and a field that does not
parse adds nothing.  If the total does not parse, no item price parses, the date has
not exactly three components or a third one that is no integer, and the time does not
parse, the score is the number of ASCII letters and digits of the retailer plus
`5 * ⌊n / 2⌋` (in Go's `int`, and exactly when the sum fits).  Replacing, in any
receipt, the total, the price of one item, the date or the time by a text that does not
parse takes away the contribution of that field and no other. -/
theorem C8_unparsable_fields (cv : Float64 → Int) (r : Receipt) :
    inInt64 (calculatePoints cv r) ∧
      ((∃ e, ParseFloat r.Total = .error e) →
        (∀ item ∈ r.Items, ∃ e, ParseFloat item.Price = .error e) →
        (∀ a b c, Split r.PurchaseDate = [a, b, c] → ∃ e, Atoi c = .error e) →
        ParseTime r.PurchaseTime = none →
        calculatePoints cv r =
            wrap64 ((r.Retailer.countP isAlnum : Nat) + 5 * ((r.Items.length / 2 : Nat) : Int)) ∧
          (inInt64 ((r.Retailer.countP isAlnum : Nat) + 5 * ((r.Items.length / 2 : Nat) : Int)) →
            calculatePoints cv r =
              (r.Retailer.countP isAlnum : Nat) + 5 * ((r.Items.length / 2 : Nat) : Int))) ∧
      (∀ s, (∃ e, ParseFloat s = .error e) →
        calculatePoints cv { r with Total := s } =
          wrap64 (calculatePoints cv r - totalPoints r.Total)) ∧
      (∀ pre item post s, r.Items = pre ++ item :: post → (∃ e, ParseFloat s = .error e) →
        calculatePoints cv { r with Items := pre ++ { item with Price := s } :: post } =
          wrap64 (calculatePoints cv r - itemPoints cv item)) ∧
      (∀ s, (∀ a b c, Split s = [a, b, c] → ∃ e, Atoi c = .error e) →
        calculatePoints cv { r with PurchaseDate := s } =
          wrap64 (calculatePoints cv r - datePoints r.PurchaseDate)) ∧
      (∀ s, ParseTime s = none →
        calculatePoints cv { r with PurchaseTime := s } =
          wrap64 (calculatePoints cv r - timePoints r.PurchaseTime)) := by
  refine ⟨?_, ?_, ?_, ?_, ?_, ?_⟩
  · rw [calculatePoints_eq_wrap64]
    exact inInt64_wrap64 _
  · intro h1 h2 h3 h4
    have hmain : calculatePoints cv r =
        wrap64 ((r.Retailer.countP isAlnum : Nat) + 5 * ((r.Items.length / 2 : Nat) : Int)) := by
      rw [calculatePoints_eq_wrap64]
      simp only [rulesSum, totalPoints_of_error h1, datePoints_of_error h3,
        timePoints_of_error h4,
        descriptionPoints_eq_zero cv r.Items (fun i hi => itemPoints_of_error cv (h2 i hi)),
        retailerPoints, FindAllString_length, pairPoints, add_zero]
    refine ⟨hmain, ?_⟩
    intro hr
    rw [hmain, wrap64_of_inInt64 hr]
  · intro s hs
    rw [sub_eq_add_neg]
    apply calculatePoints_congr
    simp only [rulesSum, totalPoints_of_error hs]
    ring
  · intro pre item post s hr hs
    rw [sub_eq_add_neg]
    apply calculatePoints_congr
    have hi : itemPoints cv { item with Price := s } = 0 := itemPoints_of_error cv hs
    have hd : descriptionPoints cv (pre ++ { item with Price := s } :: post) =
        descriptionPoints cv r.Items - itemPoints cv item := by
      rw [hr]
      simp only [descriptionPoints, List.map_append, List.map_cons, List.sum_append,
        List.sum_cons, hi]
      ring
    have hp : pairPoints (pre ++ { item with Price := s } :: post) = pairPoints r.Items := by
      rw [hr]
      simp [pairPoints]
    simp only [rulesSum, hd, hp]
    ring
  · intro s hs
    rw [sub_eq_add_neg]
    apply calculatePoints_congr
    simp only [rulesSum, datePoints_of_error hs]
    ring
  · intro s hs
    rw [sub_eq_add_neg]
    apply calculatePoints_congr
    simp only [rulesSum, timePoints_of_error hs]
    ring

set_option maxRecDepth 100000 in
/-- C8, at a concrete receipt: with the total "12,50", the prices "free", "1e400" and
"", the date "2022-01" and the time "2pm", the retailer "Target" and the three items
give 6 + 5 = 11 points. -/
theorem C8_unparsable_fields_witness :
    calculatePoints cvAmd64 unparsableReceipt = 6 + 5 :=
  ((C8_unparsable_fields cvAmd64 unparsableReceipt).2.1 (by decide!) (by decide!)
    (fun a b c h => by
      have h2 : Split unparsableReceipt.PurchaseDate = ["2022".toList, "01".toList] := by
        decide!
      rw [h2] at h
      simp at h)
    (by decide!)).2 (by decide!)

/-! ## Rounding: the size of the result -/

theorem log2Span_spec (n : Nat) :
    ∀ f j, n < 2 ^ 2 ^ (j + f) → n < 2 ^ 2 ^ (log2Span n f j) := by
  intro f
  induction f with
  | zero => intro j h; simpa [log2Span] using h
  | succ f ih =>
    intro j h
    unfold log2Span
    split_ifs with hlt
    · exact hlt
    · apply ih
      have : j + 1 + f = j + (f + 1) := by omega
      rw [this]; exact h

theorem log2Search_spec (n : Nat) :
    ∀ i lo, 2 ^ lo ≤ n → n < 2 ^ (lo + 2 ^ i) →
      2 ^ (log2Search n i lo) ≤ n ∧ n < 2 ^ (log2Search n i lo + 1) := by
  intro i
  induction i with
  | zero => intro lo h1 h2; simpa [log2Search] using ⟨h1, h2⟩
  | succ i ih =>
    intro lo h1 h2
    unfold log2Search
    split_ifs with hle
    · apply ih _ hle
      have : lo + 2 ^ i + 2 ^ i = lo + 2 ^ (i + 1) := by rw [pow_succ]; omega
      rw [this]; exact h2
    · exact ih _ h1 (by omega)

/-- The position of the leading bit: `2 ^ floorLog2 n ≤ n < 2 ^ (floorLog2 n + 1)`. -/
theorem floorLog2_spec {n : Nat} (h : 0 < n) :
    2 ^ floorLog2 n ≤ n ∧ n < 2 ^ (floorLog2 n + 1) := by
  unfold floorLog2
  apply log2Search_spec
  · simpa using h
  · rw [zero_add]
    apply log2Span_spec
    rw [zero_add]
    calc n < 2 ^ n := Nat.lt_two_pow n
      _ ≤ 2 ^ 2 ^ n := Nat.pow_le_pow_right (by norm_num) (Nat.lt_two_pow n).le

theorem roundHalfEven_le (n d : Nat) : roundHalfEven n d ≤ n / d + 1 := by
  unfold roundHalfEven
  simp only []
  split_ifs <;> omega

theorem le_roundHalfEven (n d : Nat) : n / d ≤ roundHalfEven n d := by
  unfold roundHalfEven
  simp only []
  split_ifs <;> omega

/-- A number below `2^62` rounds to a finite float64, of magnitude below `2^63`. -/
theorem roundFloat64_small (neg : Bool) (n d : Nat) (hd : 0 < d) (h : n < 2 ^ 62 * d) :
    ∃ q k, roundFloat64 neg n d = (Float64.fin neg q k, false) ∧ ceilMag q k < 2 ^ 63 := by
  unfold roundFloat64
  by_cases hn : n = 0
  · rw [if_pos hn]
    exact ⟨0, 0, rfl, by decide⟩
  rw [if_neg hn]
  have hn0 : 0 < n := Nat.pos_of_ne_zero hn
  obtain ⟨hn1, hn2⟩ := floorLog2_spec hn0
  obtain ⟨hd1, hd2⟩ := floorLog2_spec hd
  have hL : floorLog2 n ≤ 62 + floorLog2 d := by
    by_contra hc
    have h1 : 2 ^ (63 + floorLog2 d) ≤ 2 ^ floorLog2 n :=
      Nat.pow_le_pow_right (by norm_num) (by omega)
    have h2 : 2 ^ 62 * d < 2 ^ (63 + floorLog2 d) := by
      have : 2 ^ (63 + floorLog2 d) = 2 ^ 62 * 2 ^ (floorLog2 d + 1) := by
        rw [← pow_add]; congr 1; omega
      rw [this]
      exact (Nat.mul_lt_mul_left (by positivity)).mpr hd2
    omega
  simp only []
  generalize hk0 : (52 + (floorLog2 d : Int) - (floorLog2 n : Int)) = k0
  have hk0' : -10 ≤ k0 := by omega
  generalize hk1 : (if shiftUp n k0 / shiftUp d (-k0) < 2 ^ 52 then k0 + 1 else k0) = k1
  have hk1' : -10 ≤ k1 := by
    rw [← hk1]; split_ifs <;> omega
  generalize hk : min k1 1074 = k
  have hk' : -10 ≤ k := by omega
  have hnov : ¬ (972 ≤ -k ∨ (-k = 971 ∧ 2 ^ 53 ≤ roundHalfEven (shiftUp n k) (shiftUp d (-k)))) := by
    rintro (h1 | ⟨h1, _⟩) <;> omega
  rw [if_neg hnov]
  refine ⟨_, _, rfl, ?_⟩
  have hq := roundHalfEven_le (shiftUp n k) (shiftUp d (-k))
  have hnd : n / d < 2 ^ 62 := by
    rw [Nat.div_lt_iff_lt_mul hd]; exact h
  unfold ceilMag
  by_cases hkpos : 0 < k
  · -- the unit in the last place is below 1
    have hneg : ¬ (0 ≤ -k) := by omega
    rw [if_neg hneg]
    have e1 : (- -k).toNat = k.toNat := by rw [neg_neg]
    have e2 : shiftUp d (-k) = d := shiftUp_of_nonpos d (by omega)
    rw [e1]
    rw [e2] at hq ⊢
    have hp : 0 < 2 ^ k.toNat := Nat.two_pow_pos _
    have h3 : shiftUp n k / d / 2 ^ k.toNat = n / d := by
      unfold shiftUp
      rw [Nat.div_div_eq_div_mul, Nat.mul_div_mul_right _ _ hp]
    have h4 : roundHalfEven (shiftUp n k) d / 2 ^ k.toNat ≤ n / d + 1 := by
      calc roundHalfEven (shiftUp n k) d / 2 ^ k.toNat
          ≤ (shiftUp n k / d + 1) / 2 ^ k.toNat := Nat.div_le_div_right hq
        _ ≤ shiftUp n k / d / 2 ^ k.toNat + 1 := by
            calc (shiftUp n k / d + 1) / 2 ^ k.toNat
                ≤ (shiftUp n k / d + 2 ^ k.toNat) / 2 ^ k.toNat :=
                  Nat.div_le_div_right (by omega)
              _ = shiftUp n k / d / 2 ^ k.toNat + 1 := Nat.add_div_right _ hp
        _ = n / d + 1 := by rw [h3]
    split_ifs <;> omega
  · have hnonneg : 0 ≤ -k := by omega
    rw [if_pos hnonneg]
    have e2 : shiftUp n k = n := shiftUp_of_nonpos n (by omega)
    rw [e2] at hq ⊢
    have hj : (-k).toNat ≤ 10 := by omega
    have hp : 0 < 2 ^ (-k).toNat := Nat.two_pow_pos _
    have hp10 : 2 ^ (-k).toNat ≤ 2 ^ 10 := Nat.pow_le_pow_right (by norm_num) hj
    have h3 : n / shiftUp d (-k) * 2 ^ (-k).toNat ≤ n / d := by
      unfold shiftUp
      rw [← Nat.div_div_eq_div_mul]
      exact Nat.div_mul_le_self _ _
    calc roundHalfEven n (shiftUp d (-k)) * 2 ^ (-k).toNat
        ≤ (n / shiftUp d (-k) + 1) * 2 ^ (-k).toNat := Nat.mul_le_mul_right _ hq
      _ = n / shiftUp d (-k) * 2 ^ (-k).toNat + 2 ^ (-k).toNat := by ring
      _ ≤ n / d + 2 ^ 10 := by omega
      _ < 2 ^ 63 := by omega

theorem toRat_fin_of_nonneg (neg : Bool) (q : Nat) {k : Int} (hk : 0 ≤ k) :
    (Float64.fin neg q k).toRat =
      (((if neg then -1 else 1) * ((q * 2 ^ k.toNat : Nat) : Int) : Int) : ℚ) := by
  obtain ⟨j, rfl⟩ := Int.eq_ofNat_of_zero_le hk
  simp only [Float64.toRat, Int.toNat_ofNat, zpow_natCast]
  cases neg <;> simp

theorem toRat_fin_of_neg (neg : Bool) (q : Nat) {k : Int} (hk : ¬ 0 ≤ k) :
    (Float64.fin neg q k).toRat =
      (if neg then -1 else 1) * ((q : ℚ) / ((2 ^ (-k).toNat : Nat) : ℚ)) := by
  have hj : k = -((-k).toNat : ℤ) := by omega
  simp only [Float64.toRat]
  conv_lhs => rw [hj]
  rw [zpow_neg, zpow_natCast]
  push_cast
  rw [div_eq_mul_inv]

theorem ceil_natCast_div (q d : Nat) (hd : 0 < d) :
    ⌈(q : ℚ) / (d : ℚ)⌉ = ((q / d + (if q % d = 0 then 0 else 1) : Nat) : Int) := by
  have hdm := (Nat.div_add_mod q d).symm
  have hlt := Nat.mod_lt q hd
  generalize q / d = a at hdm ⊢
  generalize q % d = r at hdm hlt ⊢
  rw [Int.ceil_eq_iff]
  have hd' : (0 : ℚ) < d := by exact_mod_cast hd
  have hq : (q : ℚ) = (d : ℚ) * (a : ℚ) + (r : ℚ) := by exact_mod_cast hdm
  have hlt' : (r : ℚ) < d := by exact_mod_cast hlt
  have hval : (q : ℚ) / d = (a : ℚ) + (r : ℚ) / d := by
    rw [hq]
    field_simp
    ring
  have hfrac1 : (r : ℚ) / d < 1 := by
    rw [div_lt_one hd']; exact hlt'
  rw [hval]
  by_cases hr : r = 0
  · simp [hr]
  · simp only [hr, if_false]
    have hpos : 0 < (r : ℚ) / d := by
      apply div_pos _ hd'
      exact_mod_cast Nat.pos_of_ne_zero hr
    push_cast
    constructor <;> linarith

/-- The code's `int(math.Ceil(x))` is the least integer not below `x`, for a finite
`x` whose ceiling is below `2^63` in magnitude. -/
theorem floatToInt_Ceil (cv : Float64 → Int) (neg : Bool) (q : Nat) (k : Int)
    (h : ceilMag q k < 2 ^ 63) :
    floatToInt cv (Ceil (Float64.fin neg q k)) = ⌈(Float64.fin neg q k).toRat⌉ := by
  unfold ceilMag at h
  by_cases hk : 0 ≤ k
  · rw [if_pos hk] at h
    rw [toRat_fin_of_nonneg neg q hk, Int.ceil_intCast]
    have hnk : (-k).toNat = 0 := by omega
    simp only [Ceil, if_pos hk, floatToInt, shiftUp, hnk, pow_zero, Nat.div_one]
    have hr : inInt64 (if neg = true then -((q * 2 ^ k.toNat : Nat) : Int)
        else ((q * 2 ^ k.toNat : Nat) : Int)) := by
      unfold inInt64
      split_ifs <;> omega
    rw [if_pos hr]
    cases neg <;> simp
  · rw [if_neg hk] at h
    rw [toRat_fin_of_neg neg q hk]
    have hp : 0 < 2 ^ (-k).toNat := Nat.two_pow_pos _
    simp only [Ceil, if_neg hk]
    cases neg
    · simp only [Bool.false_eq_true, not_false_eq_true, true_and, if_false, one_mul]
      rw [ceil_natCast_div q _ hp]
      generalize q / 2 ^ (-k).toNat = a at h ⊢
      generalize q % 2 ^ (-k).toNat = r at h ⊢
      by_cases hr : r = 0
      · simp only [hr, ne_eq, not_true_eq_false, if_false, if_true, add_zero] at h ⊢
        simp only [floatToInt, shiftUp, Int.toNat_zero, pow_zero, mul_one, neg_zero,
          Nat.div_one, Bool.false_eq_true, if_false]
        rw [if_pos (by unfold inInt64; omega)]
      · simp only [hr, ne_eq, not_false_eq_true, if_true, if_false] at h ⊢
        simp only [floatToInt, shiftUp, Int.toNat_zero, pow_zero, mul_one, neg_zero,
          Nat.div_one, Bool.false_eq_true, if_false]
        rw [if_pos (by unfold inInt64; omega)]
    · simp only [not_true_eq_false, false_and, if_false, if_true]
      have : (-1 : ℚ) * ((q : ℚ) / ((2 ^ (-k).toNat : Nat) : ℚ)) =
          -((q : ℚ) / ((2 ^ (-k).toNat : Nat) : ℚ)) := by ring
      rw [this, Int.ceil_neg, Rat.floor_natCast_div_natCast, ← Int.natCast_div]
      have hle : q / 2 ^ (-k).toNat < 2 ^ 63 := by
        split_ifs at h <;> omega
      generalize q / 2 ^ (-k).toNat = a at hle ⊢
      simp only [floatToInt, shiftUp, Int.toNat_zero, pow_zero, mul_one, neg_zero,
        Nat.div_one, if_true]
      rw [if_pos (by unfold inInt64; omega)]

theorem shiftUp_cast (a : Nat) (k : Int) :
    (shiftUp a k : ℚ) = (a : ℚ) * 2 ^ k * (shiftUp 1 (-k) : ℚ) := by
  by_cases hk : 0 ≤ k
  · obtain ⟨j, rfl⟩ := Int.eq_ofNat_of_zero_le hk
    have h0 : (-(j : ℤ)).toNat = 0 := by omega
    simp [shiftUp, h0, zpow_natCast]
  · have hj : k = -((-k).toNat : ℤ) := by omega
    have h0 : k.toNat = 0 := by omega
    have h2 : ((2 : ℚ) ^ (-k).toNat) ≠ 0 := pow_ne_zero _ (by norm_num)
    simp only [shiftUp, h0, pow_zero, mul_one, one_mul, Nat.cast_pow, Nat.cast_ofNat]
    conv_rhs => rw [hj]
    rw [zpow_neg, zpow_natCast]
    simp only [neg_neg, Int.toNat_ofNat]
    field_simp

theorem shiftUp_one_pos (k : Int) : 0 < shiftUp 1 k := by
  unfold shiftUp
  positivity

theorem abs_toRat_fin (neg : Bool) (m : Nat) (e : Int) :
    |(Float64.fin neg m e).toRat| = (m : ℚ) * 2 ^ e := by
  have hnn : (0 : ℚ) ≤ (m : ℚ) * 2 ^ e := by positivity
  simp only [Float64.toRat]
  cases neg
  · simp [abs_of_nonneg hnn]
  · simp only [if_true, neg_mul, one_mul, abs_neg]
    exact abs_of_nonneg hnn

/-- The float64 product of a finite float64 below `2^63` in magnitude and the constant
`0.2` is finite, has the sign of the first factor, and a ceiling below `2^63` in
magnitude. -/
theorem mul_fifth_small (neg : Bool) (m : Nat) (e : Int)
    (h : |(Float64.fin neg m e).toRat| < 2 ^ 63) :
    ∃ q k, Float64.mul (Float64.fin neg m e) Float64.fifth = Float64.fin neg q k ∧
      ceilMag q k < 2 ^ 63 ∧ (m = 0 → q = 0) := by
  rw [abs_toRat_fin] at h
  have hD : 0 < shiftUp 1 (-(e + -55)) := shiftUp_one_pos _
  have hlt : shiftUp (m * 7205759403792794) (e + -55) < 2 ^ 62 * shiftUp 1 (-(e + -55)) := by
    have hc := shiftUp_cast (m * 7205759403792794) (e + -55)
    have hD' : (0 : ℚ) < (shiftUp 1 (-(e + -55)) : ℚ) := by exact_mod_cast hD
    have h1 : ((m * 7205759403792794 : Nat) : ℚ) * 2 ^ (e + -55) < 2 ^ 62 := by
      rw [zpow_add₀ (by norm_num : (2 : ℚ) ≠ 0)]
      have h55 : (2 : ℚ) ^ (-55 : ℤ) = 1 / 36028797018963968 := by norm_num
      rw [h55]
      push_cast
      have hpos : (0 : ℚ) ≤ (m : ℚ) * 2 ^ e := by positivity
      nlinarith
    have h2 : (shiftUp (m * 7205759403792794) (e + -55) : ℚ) <
        ((2 ^ 62 * shiftUp 1 (-(e + -55)) : Nat) : ℚ) := by
      rw [hc]
      have h3 := mul_lt_mul_of_pos_right h1 hD'
      push_cast at h3 ⊢
      exact h3
    exact_mod_cast h2
  obtain ⟨q, k, hr, hmag⟩ := roundFloat64_small neg _ _ hD hlt
  refine ⟨q, k, ?_, hmag, ?_⟩
  · simp only [Float64.mul, Float64.fifth, Bool.xor_false, hr]
  · intro hm
    subst hm
    simp only [zero_mul, shiftUp, roundFloat64, if_true] at hr
    have := (Prod.mk.inj hr).1
    injection this with _ hq _
    exact hq.symm

/-! ## Rounding: the error of the result -/

theorem shiftUp_ratio (n d : Nat) (k : Int) (hd : 0 < d) :
    (shiftUp n k : ℚ) / (shiftUp d (-k) : ℚ) = (n : ℚ) / d * 2 ^ k := by
  have hS : (0 : ℚ) < (shiftUp 1 (-k) : ℚ) := by exact_mod_cast shiftUp_one_pos (-k)
  have hd' : (0 : ℚ) < d := by exact_mod_cast hd
  have h1 : (shiftUp d (-k) : ℚ) = (d : ℚ) * (shiftUp 1 (-k) : ℚ) := by
    simp [shiftUp]
  rw [shiftUp_cast n k, h1]
  field_simp
  ring

theorem natDiv_lt_iff_cast (a b c : Nat) (hb : 0 < b) :
    a / b < c ↔ (a : ℚ) / b < c := by
  have hb' : (0 : ℚ) < b := by exact_mod_cast hb
  rw [Nat.div_lt_iff_lt_mul hb, div_lt_iff₀ hb']
  exact_mod_cast Iff.rfl

/-- Rounding to the nearest integer is off by at most a half. -/
theorem roundHalfEven_abs (n d : Nat) (hd : 0 < d) :
    |(roundHalfEven n d : ℚ) - (n : ℚ) / d| ≤ 1 / 2 := by
  have hdm := (Nat.div_add_mod n d).symm
  have hlt := Nat.mod_lt n hd
  unfold roundHalfEven
  simp only []
  generalize n / d = a at hdm ⊢
  generalize n % d = r at hdm hlt ⊢
  have hd' : (0 : ℚ) < d := by exact_mod_cast hd
  have hn : (n : ℚ) = (d : ℚ) * a + r := by exact_mod_cast hdm
  have hval : (n : ℚ) / d = (a : ℚ) + (r : ℚ) / d := by
    rw [hn]; field_simp; ring
  rw [hval, abs_le]
  have hr0 : (0 : ℚ) ≤ (r : ℚ) / d := by positivity
  by_cases h1 : 2 * r < d
  · rw [if_pos h1]
    have : (r : ℚ) / d < 1 / 2 := by
      rw [div_lt_iff₀ hd']
      have : ((2 * r : Nat) : ℚ) < d := by exact_mod_cast h1
      push_cast at this; linarith
    constructor <;> linarith
  · rw [if_neg h1]
    have hge : (1 : ℚ) / 2 ≤ (r : ℚ) / d := by
      rw [le_div_iff₀ hd']
      have : (d : ℚ) ≤ ((2 * r : Nat) : ℚ) := by exact_mod_cast Nat.le_of_not_lt h1
      push_cast at this; linarith
    have hlt1 : (r : ℚ) / d < 1 := by
      rw [div_lt_one hd']; exact_mod_cast hlt
    by_cases h2 : d < 2 * r
    · rw [if_pos h2]
      push_cast
      constructor <;> linarith
    · rw [if_neg h2]
      have heq : (r : ℚ) / d = 1 / 2 := by
        have h3 : 2 * r = d := by omega
        rw [div_eq_iff hd'.ne']
        have : ((2 * r : Nat) : ℚ) = d := by exact_mod_cast h3
        push_cast at this; linarith
      split_ifs
      · constructor <;> linarith
      · push_cast
        constructor <;> linarith

/-- The scaling exponent that `roundFloat64` first computes brings the number into
`[2^52, 2^53)`. -/
theorem scale_spec (n d : Nat) (hn : 0 < n) (hd : 0 < d) :
    let k0 : Int := 52 + (floorLog2 d : Int) - (floorLog2 n : Int)
    let k1 : Int := if shiftUp n k0 / shiftUp d (-k0) < 2 ^ 52 then k0 + 1 else k0
    (2 : ℚ) ^ 52 ≤ (n : ℚ) / d * 2 ^ k1 ∧ (n : ℚ) / d * 2 ^ k1 < 2 ^ 53 := by
  intro k0 k1
  obtain ⟨hn1, hn2⟩ := floorLog2_spec hn
  obtain ⟨hd1, hd2⟩ := floorLog2_spec hd
  have hd' : (0 : ℚ) < d := by exact_mod_cast hd
  have hn' : (0 : ℚ) < n := by exact_mod_cast hn
  have hx : (0 : ℚ) < (n : ℚ) / d := div_pos hn' hd'
  have two_ne : (2 : ℚ) ≠ 0 := by norm_num
  have hn1' : (2 : ℚ) ^ (floorLog2 n : ℤ) ≤ n := by
    rw [zpow_natCast]; exact_mod_cast hn1
  have hn2' : (n : ℚ) < 2 ^ ((floorLog2 n : ℤ) + 1) := by
    have : (n : ℚ) < ((2 ^ (floorLog2 n + 1) : Nat) : ℚ) := by exact_mod_cast hn2
    rw [zpow_add₀ two_ne, zpow_natCast, zpow_one]
    push_cast at this
    rw [pow_succ] at this
    exact this
  have hd1' : (2 : ℚ) ^ (floorLog2 d : ℤ) ≤ d := by
    rw [zpow_natCast]; exact_mod_cast hd1
  have hd2' : (d : ℚ) < 2 ^ ((floorLog2 d : ℤ) + 1) := by
    have : (d : ℚ) < ((2 ^ (floorLog2 d + 1) : Nat) : ℚ) := by exact_mod_cast hd2
    rw [zpow_add₀ two_ne, zpow_natCast, zpow_one]
    push_cast at this
    rw [pow_succ] at this
    exact this
  have hk0 : (2 : ℚ) ^ k0 = 2 ^ (52 : ℤ) * 2 ^ (floorLog2 d : ℤ) / 2 ^ (floorLog2 n : ℤ) := by
    show (2 : ℚ) ^ (52 + (floorLog2 d : Int) - (floorLog2 n : Int)) = _
    rw [zpow_sub₀ two_ne, zpow_add₀ two_ne]
  have hLn : (0 : ℚ) < 2 ^ (floorLog2 n : ℤ) := by positivity
  have hLd : (0 : ℚ) < 2 ^ (floorLog2 d : ℤ) := by positivity
  have h52 : (2 : ℚ) ^ (52 : ℤ) = 2 ^ 52 := by norm_num
  -- the number scaled by `2 ^ k0` lies strictly between `2^51` and `2^53`
  have hlo : (2 : ℚ) ^ 51 < (n : ℚ) / d * 2 ^ k0 := by
    rw [hk0, h52, div_mul_div_comm, lt_div_iff₀ (by positivity)]
    rw [zpow_add₀ two_ne, zpow_one] at hd2'
    nlinarith
  have hhi : (n : ℚ) / d * 2 ^ k0 < 2 ^ 53 := by
    rw [hk0, h52, div_mul_div_comm, div_lt_iff₀ (by positivity)]
    rw [zpow_add₀ two_ne, zpow_one] at hn2'
    nlinarith
  have hS : 0 < shiftUp d (-k0) := by
    unfold shiftUp; positivity
  have hcond : shiftUp n k0 / shiftUp d (-k0) < 2 ^ 52 ↔ (n : ℚ) / d * 2 ^ k0 < 2 ^ 52 := by
    rw [natDiv_lt_iff_cast _ _ _ hS, shiftUp_ratio n d k0 hd]
    norm_num
  by_cases hc : shiftUp n k0 / shiftUp d (-k0) < 2 ^ 52
  · have hk1 : k1 = k0 + 1 := if_pos hc
    rw [hk1, zpow_add₀ two_ne, zpow_one]
    have := hcond.mp hc
    constructor <;> nlinarith
  · have hk1 : k1 = k0 := if_neg hc
    rw [hk1]
    have := mt hcond.mpr hc
    push_neg at this
    exact ⟨this, hhi⟩

/-- What `roundFloat64` computes for a positive number `n / d`: an overflow, or a
finite float64 `q * 2^(-k)` with `k ≤ 1074`, whose mantissa `q` is within a half
of `n / d * 2^k`, that is below `2^53`, and at least `2^52` unless the number is below
`2^(-1022)`; a number below `2^1000` does not overflow. -/
theorem roundFloat64_spec (neg : Bool) (n d : Nat) (hn : 0 < n) (hd : 0 < d) :
    (roundFloat64 neg n d = (Float64.inf neg, true) ∧ ¬ (n : ℚ) / d < 2 ^ 1000) ∨
    ∃ (q : Nat) (k : Int), roundFloat64 neg n d = (Float64.fin neg q (-k), false) ∧
      k ≤ 1074 ∧ |(q : ℚ) - (n : ℚ) / d * 2 ^ k| ≤ 1 / 2 ∧
      (n : ℚ) / d * 2 ^ k < 2 ^ 53 ∧
      ((2 : ℚ) ^ (-1022 : ℤ) ≤ (n : ℚ) / d → (2 : ℚ) ^ 52 ≤ (n : ℚ) / d * 2 ^ k) := by
  have hsc := scale_spec n d hn hd
  simp only [] at hsc
  unfold roundFloat64
  rw [if_neg (Nat.pos_iff_ne_zero.mp hn)]
  simp only []
  generalize (if shiftUp n (52 + (floorLog2 d : Int) - (floorLog2 n : Int)) /
      shiftUp d (-(52 + (floorLog2 d : Int) - (floorLog2 n : Int))) < 2 ^ 52
    then 52 + (floorLog2 d : Int) - (floorLog2 n : Int) + 1
    else 52 + (floorLog2 d : Int) - (floorLog2 n : Int)) = k1 at hsc ⊢
  obtain ⟨hlo, hhi⟩ := hsc
  have hd' : (0 : ℚ) < d := by exact_mod_cast hd
  have hn' : (0 : ℚ) < n := by exact_mod_cast hn
  have hx : (0 : ℚ) < (n : ℚ) / d := div_pos hn' hd'
  have one_lt : (1 : ℚ) < 2 := by norm_num
  generalize hk : min k1 1074 = k
  have hkle : k ≤ k1 := by omega
  have hk1074 : k ≤ 1074 := by omega
  have hmono : (n : ℚ) / d * 2 ^ k ≤ (n : ℚ) / d * 2 ^ k1 :=
    mul_le_mul_of_nonneg_left (zpow_le_zpow_right₀ one_lt.le hkle) hx.le
  by_cases hov : 972 ≤ -k ∨
      (-k = 971 ∧ 2 ^ 53 ≤ roundHalfEven (shiftUp n k) (shiftUp d (-k)))
  · left
    rw [if_pos hov]
    refine ⟨rfl, ?_⟩
    intro hfin
    have hk971 : -970 ≤ k := by
      by_contra hc
      push_neg at hc
      have h1 : k1 = k := by omega
      have h2 : (2 : ℚ) ^ k ≤ 2 ^ (-971 : ℤ) := zpow_le_zpow_right₀ one_lt.le (by omega)
      have h3 : (n : ℚ) / d * 2 ^ k < 2 ^ 1000 * 2 ^ (-971 : ℤ) := by
        calc (n : ℚ) / d * 2 ^ k ≤ (n : ℚ) / d * 2 ^ (-971 : ℤ) :=
              mul_le_mul_of_nonneg_left h2 hx.le
          _ < 2 ^ 1000 * 2 ^ (-971 : ℤ) := mul_lt_mul_of_pos_right hfin (by positivity)
      rw [h1] at hlo
      have h4 : (2 : ℚ) ^ 1000 * 2 ^ (-971 : ℤ) = 2 ^ 29 := by
        rw [← zpow_natCast, ← zpow_add₀ (by norm_num : (2 : ℚ) ≠ 0)]
        norm_num
      rw [h4] at h3
      have h5 : (2 : ℚ) ^ 29 < 2 ^ 52 := by norm_num
      linarith
    rcases hov with h1 | ⟨h1, _⟩ <;> omega
  right
  rw [if_neg hov]
  have hS : 0 < shiftUp d (-k) := by
    unfold shiftUp; positivity
  refine ⟨_, k, rfl, hk1074, ?_, lt_of_le_of_lt hmono hhi, ?_⟩
  · have := roundHalfEven_abs (shiftUp n k) (shiftUp d (-k)) hS
    rw [shiftUp_ratio n d k hd] at this
    exact this
  · intro hnorm
    have hk1 : k1 ≤ 1074 := by
      by_contra hc
      push_neg at hc
      have h2 : (2 : ℚ) ^ (1075 : ℤ) ≤ 2 ^ k1 := zpow_le_zpow_right₀ one_lt.le (by omega)
      have h3 : (2 : ℚ) ^ (-1022 : ℤ) * 2 ^ (1075 : ℤ) ≤ (n : ℚ) / d * 2 ^ k1 :=
        mul_le_mul hnorm h2 (by positivity) hx.le
      have h4 : (2 : ℚ) ^ (-1022 : ℤ) * 2 ^ (1075 : ℤ) = 2 ^ 53 := by
        rw [← zpow_add₀ (by norm_num : (2 : ℚ) ≠ 0)]
        norm_num
      rw [h4] at h3
      linarith
    have h1 : k = k1 := by omega
    rw [h1]
    exact hlo

/-- A float64 that `roundFloat64` returns has a mantissa of at most `2^53`. -/
theorem roundFloat64_mantissa (neg : Bool) (n d : Nat) (hd : 0 < d) {neg' : Bool} {m : Nat}
    {e : Int} {b : Bool} (h : roundFloat64 neg n d = (Float64.fin neg' m e, b)) :
    m ≤ 2 ^ 53 := by
  by_cases hn : n = 0
  · simp only [roundFloat64, hn, if_true] at h
    have := (Prod.mk.inj h).1
    injection this with _ hm _
    omega
  · rcases roundFloat64_spec neg n d (Nat.pos_of_ne_zero hn) hd with ⟨h1, _⟩ | ⟨q, k, h1, _, habs, hlt, _⟩
    · rw [h1] at h
      have := (Prod.mk.inj h).1
      cases this
    · rw [h1] at h
      have := (Prod.mk.inj h).1
      injection this with _ hm _
      subst hm
      have h2 := (abs_le.mp habs).2
      have h3 : (q : ℚ) < 2 ^ 53 + 1 := by linarith
      have h4 : (q : ℚ) < ((2 ^ 53 + 1 : Nat) : ℚ) := by
        push_cast; norm_num at h3 ⊢; exact h3
      have h5 : q < 2 ^ 53 + 1 := by exact_mod_cast h4
      omega

theorem specialInf_not_fin {neg : Bool} {nsign : Nat} {s : GoString} {f : Float64} {n : Nat}
    (h : specialInf neg nsign s = some (f, n)) : f = Float64.inf neg := by
  unfold specialInf at h
  simp only [] at h
  split_ifs at h
  all_goals
    simp only [Option.some.injEq, Prod.mk.injEq] at h
    exact h.1.symm

theorem special_not_fin {s : GoString} {f : Float64} {n : Nat}
    (h : special s = some (f, n)) : ∀ neg m e, f ≠ Float64.fin neg m e := by
  intro neg m e hf
  subst hf
  cases s with
  | nil => simp [special] at h
  | cons c cs =>
    simp only [special] at h
    split_ifs at h
    · cases specialInf_not_fin h
    · cases specialInf_not_fin h
    · cases specialInf_not_fin h
    · simp at h

/-- A finite float64 that `ParseFloat` returns has a mantissa of at most `2^53`. -/
theorem ParseFloat_mantissa {s : GoString} {neg : Bool} {m : Nat} {e : Int}
    (h : ParseFloat s = .ok (Float64.fin neg m e)) : m ≤ 2 ^ 53 := by
  unfold ParseFloat at h
  split at h
  · rename_i f n hs
    split_ifs at h
    injection h with h
    exact absurd h (special_not_fin hs neg m e)
  · split at h
    · cases h
    · rename_i lit hl
      simp only [] at h
      split_ifs at h
      all_goals
        injection h with h
        refine roundFloat64_mantissa lit.neg _ _ ?_ (Prod.ext h rfl)
        positivity

/-- The float64 product of a positive float64 `P = m * 2^e` (with `2^(-1000) ≤ P < 2^52`)
and the constant `0.2`: a mantissa `q` and an exponent `-k`, `k ≥ 3`, with `q` within a
half of `X * 2^k`, where `X = P * (1 + 2^(-54)) / 5` is the exact product. -/
theorem mul_fifth_spec (m : Nat) (e : Int)
    (hlo : (2 : ℚ) ^ (-1000 : ℤ) ≤ (m : ℚ) * 2 ^ e) (hhi : (m : ℚ) * 2 ^ e < 2 ^ 52) :
    ∃ (q j : Nat), Float64.mul (Float64.fin false m e) Float64.fifth =
        Float64.fin false q (-(j : ℤ)) ∧ 3 ≤ j ∧
      |(q : ℚ) - (m : ℚ) * 2 ^ e * ((1 + 1 / 2 ^ 54) / 5) * 2 ^ j| ≤ 1 / 2 ∧
      (m : ℚ) * 2 ^ e * ((1 + 1 / 2 ^ 54) / 5) * 2 ^ j < 2 ^ 53 ∧
      (2 : ℚ) ^ 52 ≤ (m : ℚ) * 2 ^ e * ((1 + 1 / 2 ^ 54) / 5) * 2 ^ j := by
  have two_ne : (2 : ℚ) ≠ 0 := by norm_num
  have hPpos : (0 : ℚ) < (m : ℚ) * 2 ^ e := lt_of_lt_of_le (by positivity) hlo
  have hmpos : 0 < m := by
    rcases Nat.eq_zero_or_pos m with h | h
    · rw [h] at hPpos; simp at hPpos
    · exact h
  have hd : 0 < shiftUp 1 (-(e + -55)) := shiftUp_one_pos _
  have hn : 0 < shiftUp (m * 7205759403792794) (e + -55) := by
    unfold shiftUp; positivity
  have hratio : (shiftUp (m * 7205759403792794) (e + -55) : ℚ) /
      (shiftUp 1 (-(e + -55)) : ℚ) = (m : ℚ) * 2 ^ e * ((1 + 1 / 2 ^ 54) / 5) := by
    have hd' : (0 : ℚ) < (shiftUp 1 (-(e + -55)) : ℚ) := by exact_mod_cast hd
    rw [shiftUp_cast, mul_div_assoc, div_self hd'.ne', mul_one,
      zpow_add₀ two_ne]
    have h55 : (2 : ℚ) ^ (-55 : ℤ) = 1 / 2 ^ 55 := by
      rw [zpow_neg, one_div]; norm_cast
    rw [h55]
    push_cast
    ring
  generalize hX : (m : ℚ) * 2 ^ e * ((1 + 1 / 2 ^ 54) / 5) = X at hratio ⊢
  have hXlo : (2 : ℚ) ^ (-1022 : ℤ) ≤ X := by
    have h1 : (2 : ℚ) ^ (-1000 : ℤ) = 2 ^ (-1022 : ℤ) * 2 ^ 22 := by
      rw [← zpow_natCast, ← zpow_add₀ two_ne]; norm_num
    have h2 : (0 : ℚ) < 2 ^ (-1022 : ℤ) := by positivity
    rw [h1] at hlo
    rw [← hX]
    have hK : (1 : ℚ) / 5 ≤ (1 + 1 / 2 ^ 54) / 5 := by norm_num
    calc (2 : ℚ) ^ (-1022 : ℤ) ≤ 2 ^ (-1022 : ℤ) * 2 ^ 22 * (1 / 5) := by
          have : (1 : ℚ) ≤ 2 ^ 22 * (1 / 5) := by norm_num
          calc (2 : ℚ) ^ (-1022 : ℤ) = 2 ^ (-1022 : ℤ) * 1 := (mul_one _).symm
            _ ≤ 2 ^ (-1022 : ℤ) * (2 ^ 22 * (1 / 5)) := mul_le_mul_of_nonneg_left this h2.le
            _ = 2 ^ (-1022 : ℤ) * 2 ^ 22 * (1 / 5) := by ring
      _ ≤ (m : ℚ) * 2 ^ e * (1 / 5) := mul_le_mul_of_nonneg_right hlo (by norm_num)
      _ ≤ (m : ℚ) * 2 ^ e * ((1 + 1 / 2 ^ 54) / 5) := mul_le_mul_of_nonneg_left hK hPpos.le
  have hXhi : X < 2 ^ 50 := by
    rw [← hX]
    have hK : (1 + 1 / 2 ^ 54) / 5 < (1 : ℚ) / 4 := by norm_num
    calc (m : ℚ) * 2 ^ e * ((1 + 1 / 2 ^ 54) / 5) < (m : ℚ) * 2 ^ e * (1 / 4) :=
          mul_lt_mul_of_pos_left hK hPpos
      _ < 2 ^ 52 * (1 / 4) := mul_lt_mul_of_pos_right hhi (by norm_num)
      _ = 2 ^ 50 := by norm_num
  rcases roundFloat64_spec false _ _ hn hd with ⟨_, hov⟩ | ⟨q, k, hr, _, habs, hlt, hnorm⟩
  · exfalso
    apply hov
    rw [hratio]
    calc X < 2 ^ 50 := hXhi
      _ < 2 ^ 1000 := by norm_num
  · rw [hratio] at habs hlt hnorm
    have h52 := hnorm hXlo
    have hk3 : 3 ≤ k := by
      by_contra hc
      push_neg at hc
      have h2 : (2 : ℚ) ^ k ≤ 2 ^ (2 : ℤ) := zpow_le_zpow_right₀ (by norm_num) (by omega)
      have h3 : X * 2 ^ k ≤ X * 2 ^ (2 : ℤ) :=
        mul_le_mul_of_nonneg_left h2 (le_trans (by positivity) hXlo)
      norm_num at h3
      linarith
    obtain ⟨j, rfl⟩ := Int.eq_ofNat_of_zero_le (by omega : (0 : ℤ) ≤ k)
    rw [zpow_natCast] at habs hlt h52
    refine ⟨q, j, ?_, by omega, habs, hlt, h52⟩
    simp only [Float64.mul, Float64.fifth, Bool.xor_false]
    rw [hr]

/-- The distance from a float64 `P = m * 2^e` to a smaller multiple of 5 is at least
`2^min(e, 0)`. -/
theorem granularity (m : Nat) (e : Int) (M : ℤ) (h : (5 * M : ℚ) < (m : ℚ) * 2 ^ e) :
    (2 : ℚ) ^ (min e 0) ≤ (m : ℚ) * 2 ^ e - 5 * M := by
  by_cases he : 0 ≤ e
  · obtain ⟨i, rfl⟩ := Int.eq_ofNat_of_zero_le he
    have hmin : min (i : ℤ) 0 = 0 := by omega
    rw [hmin, zpow_zero]
    rw [zpow_natCast] at h ⊢
    have h1 : ((5 * M : ℤ) : ℚ) < ((m * 2 ^ i : ℕ) : ℚ) := by push_cast; exact h
    have h2 : (5 * M : ℤ) < ((m * 2 ^ i : ℕ) : ℤ) := by exact_mod_cast h1
    have h3 : (5 * M : ℤ) + 1 ≤ ((m * 2 ^ i : ℕ) : ℤ) := by omega
    have h4 : (((5 * M : ℤ) + 1 : ℤ) : ℚ) ≤ (((m * 2 ^ i : ℕ) : ℤ) : ℚ) := by exact_mod_cast h3
    push_cast at h4
    linarith
  · have hmin : min e 0 = e := by omega
    rw [hmin]
    have hj : e = -((-e).toNat : ℤ) := by omega
    generalize (-e).toNat = i at hj
    subst hj
    rw [zpow_neg, zpow_natCast] at h ⊢
    have hp : (0 : ℚ) < 2 ^ i := by positivity
    have h1 : (5 * M : ℚ) * 2 ^ i < m := by
      have := mul_lt_mul_of_pos_right h hp
      have h0 : (m : ℚ) * (2 ^ i)⁻¹ * 2 ^ i = m := by
        rw [mul_assoc, inv_mul_cancel₀ hp.ne', mul_one]
      rw [h0] at this
      exact this
    have h2 : ((5 * M * 2 ^ i : ℤ) : ℚ) < ((m : ℤ) : ℚ) := by push_cast; exact h1
    have h3 : (5 * M * 2 ^ i : ℤ) < (m : ℤ) := by exact_mod_cast h2
    have h4 : (5 * M * 2 ^ i : ℤ) + 1 ≤ (m : ℤ) := by omega
    have h5 : (((5 * M * 2 ^ i : ℤ) + 1 : ℤ) : ℚ) ≤ ((m : ℤ) : ℚ) := by exact_mod_cast h4
    push_cast at h5
    have h6 : (m : ℚ) * (2 ^ i)⁻¹ - 5 * M = ((m : ℚ) - 5 * M * 2 ^ i) * (2 ^ i)⁻¹ := by
      field_simp
      ring
    rw [h6]
    have h7 : (1 : ℚ) ≤ (m : ℚ) - 5 * M * 2 ^ i := by linarith
    calc ((2 : ℚ) ^ i)⁻¹ = 1 * (2 ^ i)⁻¹ := (one_mul _).symm
      _ ≤ ((m : ℚ) - 5 * M * 2 ^ i) * (2 ^ i)⁻¹ :=
          mul_le_mul_of_nonneg_right h7 (by positivity)

/-- For a positive float64 price `P` with `2^(-1000) ≤ P < 2^52`, the ceiling of the
float64 product `P * 0.2` is the ceiling of the exact fifth of `P`. -/
theorem ceil_mul_fifth_exact (m : Nat) (e : Int) (hm : m ≤ 2 ^ 53)
    (hlo : (2 : ℚ) ^ (-1000 : ℤ) ≤ (m : ℚ) * 2 ^ e) (hhi : (m : ℚ) * 2 ^ e < 2 ^ 52) :
    ⌈(Float64.mul (Float64.fin false m e) Float64.fifth).toRat⌉ =
      ⌈(Float64.fin false m e).toRat * (1 / 5)⌉ := by
  obtain ⟨q, j, hmul, hj3, habs, hlt, h52⟩ := mul_fifth_spec m e hlo hhi
  have two_ne : (2 : ℚ) ≠ 0 := by norm_num
  have hPpos : (0 : ℚ) < (m : ℚ) * 2 ^ e := lt_of_lt_of_le (by positivity) hlo
  have hP : (Float64.fin false m e).toRat = (m : ℚ) * 2 ^ e := by
    simp [Float64.toRat]
  have hR : (Float64.fin false q (-(j : ℤ))).toRat = (q : ℚ) / 2 ^ j := by
    simp only [Float64.toRat, Bool.false_eq_true, if_false, one_mul, zpow_neg, zpow_natCast]
    rw [div_eq_mul_inv]
  rw [hmul, hP, hR]
  generalize hPdef : (m : ℚ) * 2 ^ e = P at *
  generalize hN : ⌈P * (1 / 5)⌉ = N
  have hN1 : P * (1 / 5) ≤ N := by rw [← hN]; exact Int.le_ceil _
  have hN2 : (N : ℚ) - 1 < P * (1 / 5) := by
    have := Int.ceil_lt_add_one (P * (1 / 5))
    rw [hN] at this
    linarith
  have hpj : (0 : ℚ) < 2 ^ j := by positivity
  have hq := abs_le.mp habs
  have hj8 : (8 : ℚ) ≤ 2 ^ j := by
    calc (8 : ℚ) = 2 ^ 3 := by norm_num
      _ ≤ 2 ^ j := pow_le_pow_right₀ (by norm_num) hj3
  rw [Int.ceil_eq_iff]
  constructor
  · -- the product does not round down to the integer below
    rw [lt_div_iff₀ hpj]
    have hgran := granularity m e (N - 1) (by rw [hPdef]; push_cast; linarith)
    rw [hPdef] at hgran
    push_cast at hgran
    -- `2 ^ (min e 0) * 2 ^ j ≥ 4`
    have h4 : (4 : ℚ) ≤ 2 ^ (min e 0) * 2 ^ j := by
      by_cases he : 0 ≤ e
      · have hmin : min e 0 = 0 := by omega
        rw [hmin, zpow_zero, one_mul]
        linarith
      · have hmin : min e 0 = e := by omega
        rw [hmin]
        -- the exact product is below `2 ^ (51 + e)`
        have hX : P * ((1 + 1 / 2 ^ 54) / 5) < 2 ^ (51 + e) := by
          rw [← hPdef, zpow_add₀ two_ne]
          have hm' : (m : ℚ) ≤ 2 ^ 53 := by exact_mod_cast hm
          have he' : (0 : ℚ) < 2 ^ e := by positivity
          have hK : (1 + 1 / 2 ^ 54) / 5 < (1 : ℚ) / 4 := by norm_num
          calc (m : ℚ) * 2 ^ e * ((1 + 1 / 2 ^ 54) / 5)
              < (m : ℚ) * 2 ^ e * (1 / 4) := by
                rw [hPdef]
                exact mul_lt_mul_of_pos_left hK hPpos
            _ ≤ 2 ^ 53 * 2 ^ e * (1 / 4) := by
                apply mul_le_mul_of_nonneg_right _ (by norm_num)
                exact mul_le_mul_of_nonneg_right hm' he'.le
            _ = 2 ^ (51 : ℤ) * 2 ^ e := by norm_num; ring
        have h1 : (2 : ℚ) ^ (52 : ℤ) < 2 ^ (51 + e + (j : ℤ)) := by
          rw [zpow_add₀ two_ne (51 + e), zpow_natCast]
          calc (2 : ℚ) ^ (52 : ℤ) = 2 ^ 52 := by norm_num
            _ ≤ P * ((1 + 1 / 2 ^ 54) / 5) * 2 ^ j := h52
            _ < 2 ^ (51 + e) * 2 ^ j := mul_lt_mul_of_pos_right hX hpj
        have h2 : (52 : ℤ) < 51 + e + j := (zpow_lt_zpow_iff_right₀ (by norm_num)).mp h1
        have h3 : (2 : ℚ) ^ (2 : ℤ) ≤ 2 ^ (e + (j : ℤ)) :=
          zpow_le_zpow_right₀ (by norm_num) (by omega)
        rw [zpow_add₀ two_ne, zpow_natCast] at h3
        norm_num at h3
        linarith
    -- so the scaled product exceeds `(N - 1) * 2^j` by more than a half
    have h5 : (N - 1 : ℚ) * 2 ^ j + 4 / 5 ≤ P * (1 / 5) * 2 ^ j := by
      have := mul_le_mul_of_nonneg_right hgran hpj.le
      nlinarith
    have h6 : P * (1 / 5) * 2 ^ j ≤ P * ((1 + 1 / 2 ^ 54) / 5) * 2 ^ j := by
      apply mul_le_mul_of_nonneg_right _ hpj.le
      apply mul_le_mul_of_nonneg_left _ hPpos.le
      norm_num
    linarith [hq.1]
  · -- the product does not round up beyond the ceiling
    rw [div_le_iff₀ hpj]
    by_cases hc : (N : ℚ) * 2 ^ j < 2 ^ 53
    · have h1 : P * ((1 + 1 / 2 ^ 54) / 5) * 2 ^ j < N * 2 ^ j + 1 / 2 := by
        have h2 : P * ((1 + 1 / 2 ^ 54) / 5) * 2 ^ j =
            P * (1 / 5) * 2 ^ j * (1 + 1 / 2 ^ 54) := by ring
        have h3 : P * (1 / 5) * 2 ^ j ≤ N * 2 ^ j := mul_le_mul_of_nonneg_right hN1 hpj.le
        have h4 : (0 : ℚ) < 1 + 1 / 2 ^ 54 := by norm_num
        rw [h2]
        calc P * (1 / 5) * 2 ^ j * (1 + 1 / 2 ^ 54)
            ≤ N * 2 ^ j * (1 + 1 / 2 ^ 54) := mul_le_mul_of_nonneg_right h3 h4.le
          _ = N * 2 ^ j + N * 2 ^ j * (1 / 2 ^ 54) := by ring
          _ < N * 2 ^ j + 2 ^ 53 * (1 / 2 ^ 54) := by
              have := mul_lt_mul_of_pos_right hc (by norm_num : (0 : ℚ) < 1 / 2 ^ 54)
              linarith
          _ = N * 2 ^ j + 1 / 2 := by norm_num
      have h5 : (q : ℚ) < N * 2 ^ j + 1 := by linarith [hq.2]
      have h6 : ((q : ℤ) : ℚ) < ((N * 2 ^ j + 1 : ℤ) : ℚ) := by push_cast; exact h5
      have h7 : (q : ℤ) < N * 2 ^ j + 1 := by exact_mod_cast h6
      have h8 : (q : ℤ) ≤ N * 2 ^ j := by omega
      have h9 : ((q : ℤ) : ℚ) ≤ ((N * 2 ^ j : ℤ) : ℚ) := by exact_mod_cast h8
      push_cast at h9
      exact h9
    · push_neg at hc
      have h5 : (q : ℚ) < 2 ^ 53 + 1 := by linarith [hq.2]
      have h6 : ((q : ℤ) : ℚ) < ((2 ^ 53 + 1 : ℤ) : ℚ) := by
        push_cast; norm_num at h5 ⊢; exact h5
      have h7 : (q : ℤ) < 2 ^ 53 + 1 := by exact_mod_cast h6
      have h8 : (q : ℤ) ≤ 2 ^ 53 := by omega
      have h9 : ((q : ℤ) : ℚ) ≤ ((2 ^ 53 : ℤ) : ℚ) := by exact_mod_cast h8
      push_cast at h9
      linarith

/-! ## C5: the description rule -/

theorem goLen_of_ascii (s : GoString) (h : ∀ c ∈ s, c.toNat < 128) : goLen s = s.length := by
  induction s with
  | nil => rfl
  | cons c cs ih =>
    have hc : c.toNat < 0x80 := h c (List.mem_cons_self _ _)
    simp only [goLen, runeLen, if_pos hc, List.length_cons,
      ih (fun x hx => h x (List.mem_cons_of_mem _ hx))]
    omega

theorem mem_of_mem_trimRight (s : GoString) : ∀ c ∈ trimRight s, c ∈ s := by
  induction s with
  | nil => intro c hc; simp [trimRight] at hc
  | cons a as ih =>
    intro c hc
    unfold trimRight at hc
    split at hc
    · split_ifs at hc
      · simp at hc
      · simp only [List.mem_singleton] at hc
        rw [hc]; exact List.mem_cons_self _ _
    · rename_i hr hne
      rcases List.mem_cons.mp hc with h1 | h1
      · rw [h1]; exact List.mem_cons_self _ _
      · exact List.mem_cons_of_mem _ (ih c h1)

theorem mem_of_mem_TrimSpace (s : GoString) : ∀ c ∈ TrimSpace s, c ∈ s := by
  intro c hc
  exact (List.dropWhile_sublist _).subset (mem_of_mem_trimRight _ c hc)

theorem goLen_TrimSpace_of_ascii (s : GoString) (h : ∀ c ∈ s, c.toNat < 128) :
    goLen (TrimSpace s) = (TrimSpace s).length :=
  goLen_of_ascii _ (fun c hc => h c (mem_of_mem_TrimSpace s c hc))

/-- For a price below `2^63` in magnitude, the code's `int(math.Ceil(price * 0.2))` is
the ceiling of the float64 product. -/
theorem floatToInt_Ceil_mul_fifth (cv : Float64 → Int) (neg : Bool) (m : Nat) (e : Int)
    (h : |(Float64.fin neg m e).toRat| < 2 ^ 63) :
    floatToInt cv (Ceil (Float64.mul (Float64.fin neg m e) Float64.fifth)) =
      ⌈(Float64.mul (Float64.fin neg m e) Float64.fifth).toRat⌉ := by
  obtain ⟨q, k, hmul, hmag, _⟩ := mul_fifth_small neg m e h
  rw [hmul]
  exact floatToInt_Ceil cv neg q k hmag

theorem itemPoints_eq_rounded (cv : Float64 → Int) (item : Item)
    (hascii : ∀ c ∈ item.ShortDescription, c.toNat < 128)
    (hprice : (TrimSpace item.ShortDescription).length % 3 = 0 →
      ∀ p, ParseFloat item.Price = .ok p →
        ∃ neg m e, p = Float64.fin neg m e ∧ |p.toRat| < 2 ^ 63) :
    itemPoints cv item = roundedItemPoints item := by
  unfold itemPoints roundedItemPoints
  rw [goLen_TrimSpace_of_ascii _ hascii]
  by_cases hl : (TrimSpace item.ShortDescription).length % 3 = 0
  · rw [if_pos hl, if_pos hl]
    cases hp : ParseFloat item.Price with
    | error err => rfl
    | ok p =>
      obtain ⟨neg, m, e, rfl, hlt⟩ := hprice hl p hp
      exact floatToInt_Ceil_mul_fifth cv neg m e hlt
  · rw [if_neg hl, if_neg hl]

/-- A bound on the magnitude of a float64, checked on natural numbers. -/
theorem abs_toRat_lt_of_shiftUp {neg : Bool} {m : Nat} {e : Int}
    (hb : shiftUp m e < 2 ^ 63 * shiftUp 1 (-e)) :
    |(Float64.fin neg m e).toRat| < 2 ^ 63 := by
  rw [abs_toRat_fin]
  have hD : (0 : ℚ) < (shiftUp 1 (-e) : ℚ) := by exact_mod_cast shiftUp_one_pos (-e)
  have h1 : (shiftUp m e : ℚ) < ((2 ^ 63 * shiftUp 1 (-e) : Nat) : ℚ) := by exact_mod_cast hb
  rw [shiftUp_cast] at h1
  push_cast at h1
  exact lt_of_mul_lt_mul_right h1 hD.le

/-- The hypothesis on a price, from its parse. -/
theorem price_bound_of_parse {s : GoString} {neg : Bool} {m : Nat} {e : Int}
    (hp : ParseFloat s = .ok (Float64.fin neg m e))
    (hb : shiftUp m e < 2 ^ 63 * shiftUp 1 (-e)) :
    ∀ p, ParseFloat s = .ok p → ∃ neg m e, p = Float64.fin neg m e ∧ |p.toRat| < 2 ^ 63 := by
  intro p hp2
  rw [hp] at hp2
  injection hp2 with hp2
  subst hp2
  exact ⟨neg, m, e, rfl, abs_toRat_lt_of_shiftUp hb⟩

theorem ParseFloat_nil : ParseFloat [] = .error NumError.ErrSyntax := by
  decide

theorem calculatePoints_description (cv : Float64 → Int) (r : Receipt) :
    calculatePoints cv r =
      wrap64 (calculatePoints cv
          { r with Items := r.Items.map (fun i => { i with Price := [] }) } +
        descriptionPoints cv r.Items) := by
  have h := calculatePoints_congr cv
    { r with Items := r.Items.map (fun i => { i with Price := [] }) } r
    (descriptionPoints cv r.Items)
    (by
      have h0 : descriptionPoints cv (r.Items.map (fun i => { i with Price := [] })) = 0 := by
        apply descriptionPoints_eq_zero
        intro i hi
        obtain ⟨j, _, rfl⟩ := List.mem_map.mp hi
        exact itemPoints_of_error cv ⟨_, ParseFloat_nil⟩
      simp only [rulesSum, h0, pairPoints, List.length_map]
      ring)
  exact h


/-- For a price that is zero, or positive with `2^(-1000) ≤ p < 2^52`, the ceiling of the
float64 product with `0.2` is the ceiling of the exact fifth of the price. -/
theorem roundedItemPoints_eq_exact (item : Item)
    (h : (TrimSpace item.ShortDescription).length % 3 = 0 →
      ∀ p, ParseFloat item.Price = .ok p →
        ∃ neg m e, p = Float64.fin neg m e ∧
          (p.toRat = 0 ∨ ((2 : ℚ) ^ (-1000 : ℤ) ≤ p.toRat ∧ p.toRat < 2 ^ 52))) :
    roundedItemPoints item = exactItemPoints item := by
  unfold roundedItemPoints exactItemPoints
  by_cases hl : (TrimSpace item.ShortDescription).length % 3 = 0
  · rw [if_pos hl, if_pos hl]
    cases hp : ParseFloat item.Price with
    | error err => rfl
    | ok p =>
      obtain ⟨neg, m, e, rfl, hcase⟩ := h hl p hp
      simp only []
      have hpos2 : (0 : ℚ) < 2 ^ e := by positivity
      rcases hcase with h0 | ⟨hlo, hhi⟩
      · have hm : m = 0 := by
          simp only [Float64.toRat] at h0
          rcases mul_eq_zero.mp h0 with h1 | h1
          · cases neg <;> simp at h1
          · rcases mul_eq_zero.mp h1 with h2 | h2
            · exact_mod_cast h2
            · exact absurd h2 hpos2.ne'
        subst hm
        have hmul : Float64.mul (Float64.fin neg 0 e) Float64.fifth = Float64.fin neg 0 0 := by
          simp [Float64.mul, Float64.fifth, shiftUp, roundFloat64]
        rw [hmul]
        simp [Float64.toRat]
      · have hneg : neg = false := by
          cases neg
          · rfl
          · exfalso
            simp only [Float64.toRat, if_true, neg_mul, one_mul] at hlo
            have h1 : (0 : ℚ) ≤ (m : ℚ) * 2 ^ e := by positivity
            have h2 : (0 : ℚ) < 2 ^ (-1000 : ℤ) := by positivity
            linarith
        subst hneg
        have hP : (Float64.fin false m e).toRat = (m : ℚ) * 2 ^ e := by
          simp [Float64.toRat]
        rw [hP] at hlo hhi
        exact ceil_mul_fifth_exact m e (ParseFloat_mantissa hp) hlo hhi
  · rw [if_neg hl, if_neg hl]

theorem descriptionPoints_eq_rounded (cv : Float64 → Int) (items : List Item)
    (hascii : ∀ item ∈ items, ∀ c ∈ item.ShortDescription, c.toNat < 128)
    (hprice : ∀ item ∈ items, (TrimSpace item.ShortDescription).length % 3 = 0 →
      ∀ p, ParseFloat item.Price = .ok p →
        ∃ neg m e, p = Float64.fin neg m e ∧ |p.toRat| < 2 ^ 63) :
    descriptionPoints cv items = (items.map roundedItemPoints).sum := by
  unfold descriptionPoints
  congr 1
  apply List.map_congr_left
  intro item hi
  exact itemPoints_eq_rounded cv item (hascii item hi) (hprice item hi)

theorem rounded_sum_eq_exact (items : List Item)
    (hprice : ∀ item ∈ items, (TrimSpace item.ShortDescription).length % 3 = 0 →
      ∀ p, ParseFloat item.Price = .ok p →
        ∃ neg m e, p = Float64.fin neg m e ∧
          (p.toRat = 0 ∨ ((2 : ℚ) ^ (-1000 : ℤ) ≤ p.toRat ∧ p.toRat < 2 ^ 52))) :
    (items.map roundedItemPoints).sum = (items.map exactItemPoints).sum := by
  congr 1
  apply List.map_congr_left
  intro item hi
  exact roundedItemPoints_eq_exact item (hprice item hi)

theorem price_bound_of_priceInRange {s : GoString} (h : priceInRange s = true) :
    ∀ p, ParseFloat s = .ok p → ∃ neg m e, p = Float64.fin neg m e ∧ |p.toRat| < 2 ^ 63 := by
  intro p hp
  unfold priceInRange at h
  rw [hp] at h
  cases p with
  | fin neg m e =>
    simp only [decide_eq_true_eq] at h
    exact ⟨neg, m, e, rfl, abs_toRat_lt_of_shiftUp h⟩
  | inf neg => simp at h
  | nan => simp at h

set_option exponentiation.threshold 2000 in
/-- The hypothesis on an exactly scored price, from the check on natural numbers. -/
theorem price_exact_of_priceExact {s : GoString} (h : priceExact s = true) :
    ∀ p, ParseFloat s = .ok p →
      ∃ neg m e, p = Float64.fin neg m e ∧
        (p.toRat = 0 ∨ ((2 : ℚ) ^ (-1000 : ℤ) ≤ p.toRat ∧ p.toRat < 2 ^ 52)) := by
  intro p hp
  unfold priceExact at h
  rw [hp] at h
  cases p with
  | fin neg m e =>
    refine ⟨neg, m, e, rfl, ?_⟩
    simp only [Bool.or_eq_true, Bool.and_eq_true, Bool.not_eq_true', decide_eq_true_eq] at h
    rcases h with hm | ⟨⟨hneg, h1⟩, h2⟩
    · left
      subst hm
      simp [Float64.toRat]
    · right
      subst hneg
      have hD : (0 : ℚ) < (shiftUp 1 (-e) : ℚ) := by exact_mod_cast shiftUp_one_pos (-e)
      have hc := shiftUp_cast m e
      have hP : (Float64.fin false m e).toRat = (m : ℚ) * 2 ^ e := by
        simp [Float64.toRat]
      rw [hP]
      constructor
      · have h5 : (2 : ℚ) ^ (-1000 : ℤ) = ((2 : ℚ) ^ 1000)⁻¹ := by
          rw [zpow_neg, zpow_ofNat]
        have h3 : (shiftUp 1 (-e) : ℚ) ≤ (shiftUp m e : ℚ) * (2 : ℚ) ^ 1000 := by
          have h0 : ((shiftUp 1 (-e) : Nat) : ℚ) ≤ ((shiftUp m e * 2 ^ 1000 : Nat) : ℚ) :=
            Nat.cast_le.mpr h1
          rw [Nat.cast_mul, Nat.cast_pow] at h0
          exact h0
        rw [h5]
        have hT : (0 : ℚ) < (2 : ℚ) ^ 1000 := pow_pos (by norm_num) 1000
        generalize (2 : ℚ) ^ 1000 = T at h3 hT ⊢
        rw [hc] at h3
        have h4 : (1 : ℚ) * (shiftUp 1 (-e) : ℚ) ≤ (m : ℚ) * 2 ^ e * T * (shiftUp 1 (-e) : ℚ) := by
          rw [one_mul]
          calc (shiftUp 1 (-e) : ℚ) ≤ (m : ℚ) * 2 ^ e * (shiftUp 1 (-e) : ℚ) * T := h3
            _ = (m : ℚ) * 2 ^ e * T * (shiftUp 1 (-e) : ℚ) := by ring
        have h7 : (1 : ℚ) ≤ (m : ℚ) * 2 ^ e * T := le_of_mul_le_mul_right h4 hD
        rw [inv_le_iff_one_le_mul₀ hT]
        linarith
      · have h3 : (shiftUp m e : ℚ) < ((2 ^ 52 * shiftUp 1 (-e) : Nat) : ℚ) := by
          exact_mod_cast h2
        push_cast at h3
        rw [hc] at h3
        exact lt_of_mul_lt_mul_right h3 hD.le
  | inf neg => simp at h
  | nan => simp at h

set_option maxRecDepth 100000 in
/-- C5 (as amended): for a receipt whose descriptions are ASCII and whose scored prices
parse to finite numbers below `2^63` in magnitude, the description rule adds, for each
item whose trimmed description has a number of characters that is a multiple of 3 and
whose price parses, the ceiling of the float64 product of the price and `0.2`, and
nothing for any other item (the score without the rule being that of the receipt with
all prices emptied).  When every scored price is zero, or positive with
`2^(-1000) ≤ p < 2^52`, that is the ceiling of the exact fifth of the price.
"Emils Cheese Pizza" at "12.25" adds 3, the ceiling of 2.45. -/
theorem C5_description_rule (cv : Float64 → Int) (r : Receipt)
    (hascii : ∀ item ∈ r.Items, ∀ c ∈ item.ShortDescription, c.toNat < 128)
    (hprice : ∀ item ∈ r.Items, (TrimSpace item.ShortDescription).length % 3 = 0 →
      ∀ p, ParseFloat item.Price = .ok p →
        ∃ neg m e, p = Float64.fin neg m e ∧ |p.toRat| < 2 ^ 63) :
    calculatePoints cv r =
        wrap64 (calculatePoints cv
            { r with Items := r.Items.map (fun i => { i with Price := [] }) } +
          (r.Items.map roundedItemPoints).sum) ∧
      ((∀ item ∈ r.Items, (TrimSpace item.ShortDescription).length % 3 = 0 →
          ∀ p, ParseFloat item.Price = .ok p →
            p.toRat = 0 ∨ ((2 : ℚ) ^ (-1000 : ℤ) ≤ p.toRat ∧ p.toRat < 2 ^ 52)) →
        calculatePoints cv r =
          wrap64 (calculatePoints cv
              { r with Items := r.Items.map (fun i => { i with Price := [] }) } +
            (r.Items.map exactItemPoints).sum)) ∧
      (∀ item ∈ r.Items,
        ((TrimSpace item.ShortDescription).length % 3 ≠ 0 ∨
            ∃ e, ParseFloat item.Price = .error e) →
          itemPoints cv item = 0 ∧ roundedItemPoints item = 0 ∧ exactItemPoints item = 0) ∧
      itemPoints cv ⟨"Emils Cheese Pizza".toList, "12.25".toList⟩ = 3 ∧
      exactItemPoints ⟨"Emils Cheese Pizza".toList, "12.25".toList⟩ = 3 := by
  have hsum := descriptionPoints_eq_rounded cv r.Items hascii hprice
  have hmain := calculatePoints_description cv r
  rw [hsum] at hmain
  have hemils : ∀ cv0, itemPoints cv0 ⟨"Emils Cheese Pizza".toList, "12.25".toList⟩ =
      roundedItemPoints ⟨"Emils Cheese Pizza".toList, "12.25".toList⟩ :=
    fun cv0 => itemPoints_eq_rounded cv0 _ (by decide!)
      (fun _ => price_bound_of_priceInRange (by decide!))
  have h3 : itemPoints cvAmd64 ⟨"Emils Cheese Pizza".toList, "12.25".toList⟩ = 3 := by
    decide!
  refine ⟨hmain, ?_, ?_, ?_, ?_⟩
  · intro hexact
    rw [hmain, rounded_sum_eq_exact r.Items]
    intro item hi hl p hp
    obtain ⟨neg, m, e, hpe, _⟩ := hprice item hi hl p hp
    exact ⟨neg, m, e, hpe, hexact item hi hl p hp⟩
  · intro item hi h
    have hr : roundedItemPoints item = 0 := by
      unfold roundedItemPoints
      rcases h with h | ⟨e, he⟩
      · rw [if_neg h]
      · rw [he]; simp
    have he : exactItemPoints item = 0 := by
      unfold exactItemPoints
      rcases h with h | ⟨e, he⟩
      · rw [if_neg h]
      · rw [he]; simp
    rw [itemPoints_eq_rounded cv item (hascii item hi) (hprice item hi)]
    exact ⟨hr, hr, he⟩
  · rw [hemils cv, ← hemils cvAmd64]
    exact h3
  · rw [← roundedItemPoints_eq_exact _ (fun _ => price_exact_of_priceExact (by decide!)),
      ← hemils cvAmd64]
    exact h3

set_option maxRecDepth 100000 in
/-- C5 (as amended), at a concrete receipt: in the "Target" receipt the description
rule adds 6, for "Emils Cheese Pizza" at "12.25" (the ceiling of 2.45) and for the
trimmed "Klarbrunn 12-PK 12 FL OZ" at "12.00" (the ceiling of 2.4). -/
theorem C5_description_rule_witness :
    calculatePoints cvAmd64 targetReceipt =
        wrap64 (calculatePoints cvAmd64
            { targetReceipt with
              Items := targetReceipt.Items.map (fun i => { i with Price := [] }) } +
          (targetReceipt.Items.map exactItemPoints).sum) ∧
      descriptionPoints cvAmd64 targetReceipt.Items = 6 :=
  ⟨(C5_description_rule cvAmd64 targetReceipt (by decide!)
      (fun item hi _ => price_bound_of_priceInRange
        ((by decide! : ∀ i ∈ targetReceipt.Items, priceInRange i.Price = true) item hi))).2.1
      (fun item hi _ p hp => by
        obtain ⟨_, _, _, _, h⟩ := price_exact_of_priceExact
          ((by decide! : ∀ i ∈ targetReceipt.Items, priceExact i.Price = true) item hi) p hp
        exact h),
    by decide!⟩

theorem floatToInt_inInt64 (cv : Float64 → Int) (x : Float64) : inInt64 (floatToInt cv x) := by
  cases x with
  | fin neg m e =>
    simp only [floatToInt]
    by_cases h : inInt64 (if neg = true then -((shiftUp m e / 2 ^ (-e).toNat : Nat) : Int)
        else ((shiftUp m e / 2 ^ (-e).toNat : Nat) : Int))
    · rw [if_pos h]; exact h
    · rw [if_neg h]; exact inInt64_wrap64 _
  | inf neg => exact inInt64_wrap64 _
  | nan => exact inInt64_wrap64 _

theorem inInt64_zero : inInt64 0 := by
  decide

theorem itemPoints_inInt64 (cv : Float64 → Int) (item : Item) :
    inInt64 (itemPoints cv item) := by
  unfold itemPoints
  split_ifs
  · cases ParseFloat item.Price with
    | ok p => exact floatToInt_inInt64 cv _
    | error e => exact inInt64_zero
  · exact inInt64_zero

set_option maxRecDepth 100000 in
/-- C5 fails as stated: for the ASCII description "abc" and the price "1e30", which
parses to the number 1000000000000000019884624838656, the item contributes a value of
`int`, whatever the platform, and so neither the exact ceiling
200000000000000003976924967732 of a fifth of the price nor the ceiling of the float64
product; on amd64 the receipt scores `6 - 2^63`.  Within the range of `int` too the
exact ceiling can be missed: the price "-14.999999999999998" contributes -3, the
float64 product being exactly -3, while the ceiling of its fifth is -2. -/
theorem C5_description_rule_counterexample :
    (∀ item ∈ bigPriceReceipt.Items, ∀ c ∈ item.ShortDescription, c.toNat < 128) ∧
      ParseFloat "1e30".toList = .ok (Float64.fin false 7105427357601002 47) ∧
      (bigPriceReceipt.Items.map exactItemPoints).sum = 200000000000000003976924967732 ∧
      (bigPriceReceipt.Items.map roundedItemPoints).sum = 5684341886080802 * 2 ^ 45 ∧
      (¬ ∃ cv, descriptionPoints cv bigPriceReceipt.Items =
        (bigPriceReceipt.Items.map exactItemPoints).sum) ∧
      (¬ ∃ cv, descriptionPoints cv bigPriceReceipt.Items =
        (bigPriceReceipt.Items.map roundedItemPoints).sum) ∧
      calculatePoints cvAmd64 bigPriceReceipt = 6 - 2 ^ 63 ∧
      descriptionPoints cvAmd64 nearFifteenReceipt.Items = -3 ∧
      (nearFifteenReceipt.Items.map exactItemPoints).sum = -2 := by
  have hp : ParseFloat "1e30".toList = .ok (Float64.fin false 7105427357601002 47) := by
    decide!
  have hl : (TrimSpace "abc".toList).length % 3 = 0 := by decide!
  have hitems : bigPriceReceipt.Items = [⟨"abc".toList, "1e30".toList⟩] := by decide!
  have hexact : (bigPriceReceipt.Items.map exactItemPoints).sum =
      200000000000000003976924967732 := by
    rw [hitems]
    simp only [List.map_cons, List.map_nil, List.sum_cons, List.sum_nil, add_zero,
      exactItemPoints, if_pos hl, hp]
    rw [toRat_fin_of_nonneg false _ (by norm_num : (0 : ℤ) ≤ 47)]
    have h5 : (((if false = true then -1 else 1) *
        ((7105427357601002 * 2 ^ (47 : ℤ).toNat : Nat) : Int) : Int) : ℚ) * (1 / 5) =
        ((7105427357601002 * 2 ^ 47 : Nat) : ℚ) / ((5 : Nat) : ℚ) := by
      simp only [Bool.false_eq_true, if_false, one_mul, Int.toNat_ofNat]
      push_cast
      ring
    rw [h5, ceil_natCast_div _ 5 (by norm_num)]
    decide!
  have hmul : Float64.mul (Float64.fin false 7105427357601002 47) Float64.fifth =
      Float64.fin false 5684341886080802 45 := by decide!
  have hround : (bigPriceReceipt.Items.map roundedItemPoints).sum =
      5684341886080802 * 2 ^ 45 := by
    rw [hitems]
    simp only [List.map_cons, List.map_nil, List.sum_cons, List.sum_nil, add_zero,
      roundedItemPoints, if_pos hl, hp, hmul]
    rw [toRat_fin_of_nonneg false _ (by norm_num : (0 : ℤ) ≤ 45), Int.ceil_intCast]
    simp
  have hcode : ∀ cv, descriptionPoints cv bigPriceReceipt.Items < 2 ^ 63 := by
    intro cv
    rw [hitems]
    simp only [descriptionPoints, List.map_cons, List.map_nil, List.sum_cons, List.sum_nil,
      add_zero]
    exact (itemPoints_inInt64 cv _).2
  have hnear : (nearFifteenReceipt.Items.map exactItemPoints).sum = -2 := by
    have hi : nearFifteenReceipt.Items = [⟨"abc".toList, "-14.999999999999998".toList⟩] := by
      decide!
    have hq : ParseFloat "-14.999999999999998".toList =
        .ok (Float64.fin true 8444249301319679 (-49)) := by decide!
    rw [hi]
    simp only [List.map_cons, List.map_nil, List.sum_cons, List.sum_nil, add_zero,
      exactItemPoints, if_pos hl, hq]
    rw [toRat_fin_of_neg true _ (by norm_num : ¬ (0 : ℤ) ≤ -49)]
    have h5 : (if true = true then (-1 : ℚ) else 1) *
        ((8444249301319679 : Nat) / ((2 ^ (- (-49 : ℤ)).toNat : Nat) : ℚ)) * (1 / 5) =
        -(((8444249301319679 : Nat) : ℚ) / ((5 * 2 ^ 49 : Nat) : ℚ)) := by
      simp only [if_true, neg_neg, Int.toNat_ofNat]
      push_cast
      ring
    rw [h5, Int.ceil_neg, Rat.floor_natCast_div_natCast]
    decide!
  refine ⟨by decide!, hp, hexact, hround, ?_, ?_, by decide!, by decide!, hnear⟩
  · rintro ⟨cv, h⟩
    have := hcode cv
    rw [h, hexact] at this
    norm_num at this
  · rintro ⟨cv, h⟩
    have := hcode cv
    rw [h, hround] at this
    norm_num at this

/-! ## C9: the sign of the score -/

/-- When the scored prices are in the range where `int(f)` is defined, the score is the
same on every platform. -/
theorem calculatePoints_cv_indep (cv cv' : Float64 → Int) (r : Receipt)
    (hascii : ∀ item ∈ r.Items, ∀ c ∈ item.ShortDescription, c.toNat < 128)
    (hprice : ∀ item ∈ r.Items, priceInRange item.Price = true) :
    calculatePoints cv r = calculatePoints cv' r := by
  have hd : descriptionPoints cv r.Items = descriptionPoints cv' r.Items := by
    unfold descriptionPoints
    congr 1
    apply List.map_congr_left
    intro item hi
    rw [itemPoints_eq_rounded cv item (hascii item hi)
        (fun _ => price_bound_of_priceInRange (hprice item hi)),
      itemPoints_eq_rounded cv' item (hascii item hi)
        (fun _ => price_bound_of_priceInRange (hprice item hi))]
  rw [calculatePoints_eq_wrap64, calculatePoints_eq_wrap64]
  simp only [rulesSum, hd]

set_option maxRecDepth 100000 in
/-- C9 fails as stated: the receipt with retailer "Target" and the single item "Refund"
at the price "-100.00" scores 6 - 20 = -14, on every platform. -/
theorem C9_points_nonneg_counterexample :
    (¬ ∃ cv, 0 ≤ calculatePoints cv refundReceipt) ∧
      calculatePoints cvAmd64 refundReceipt = -14 ∧
      itemPoints cvAmd64 ⟨"Refund".toList, "-100.00".toList⟩ = -20 := by
  have h14 : calculatePoints cvAmd64 refundReceipt = -14 := by decide!
  refine ⟨?_, h14, by decide!⟩
  rintro ⟨cv, h⟩
  rw [calculatePoints_cv_indep cv cvAmd64 refundReceipt (by decide!) (by decide!), h14] at h
  exact absurd h (by decide)

theorem totalPoints_nonneg (s : GoString) : 0 ≤ totalPoints s := by
  unfold totalPoints
  cases ParseFloat s with
  | ok t =>
    simp only []
    split_ifs <;> norm_num
  | error e => exact le_refl _

theorem datePoints_nonneg (s : GoString) : 0 ≤ datePoints s := by
  unfold datePoints
  split_ifs
  · cases Atoi ((Split s).getD 2 []) with
    | ok day =>
      simp only []
      split_ifs <;> norm_num
    | error e => exact le_refl _
  · exact le_refl _

theorem timePoints_nonneg (s : GoString) : 0 ≤ timePoints s := by
  unfold timePoints
  cases ParseTime s with
  | some t =>
    simp only []
    split_ifs <;> norm_num
  | none => exact le_refl _

theorem itemPoints_nonneg (cv : Float64 → Int) (item : Item)
    (hprice : goLen (TrimSpace item.ShortDescription) % 3 = 0 →
      ∀ p, ParseFloat item.Price = .ok p →
        ∃ neg m e, p = Float64.fin neg m e ∧ 0 ≤ p.toRat ∧ p.toRat < 2 ^ 63) :
    0 ≤ itemPoints cv item := by
  unfold itemPoints
  by_cases hl : goLen (TrimSpace item.ShortDescription) % 3 = 0
  · rw [if_pos hl]
    cases hp : ParseFloat item.Price with
    | error err => exact le_refl _
    | ok p =>
      obtain ⟨neg, m, e, rfl, h0, hlt⟩ := hprice hl p hp
      have habs : |(Float64.fin neg m e).toRat| < 2 ^ 63 := by
        rw [abs_of_nonneg h0]; exact hlt
      obtain ⟨q, k, hmul, hmag, hzero⟩ := mul_fifth_small neg m e habs
      simp only []
      rw [hmul, floatToInt_Ceil cv neg q k hmag]
      apply Int.ceil_nonneg
      cases neg
      · simp only [Float64.toRat, Bool.false_eq_true, if_false, one_mul]
        positivity
      · have hm : m = 0 := by
          simp only [Float64.toRat, if_true, neg_mul, one_mul, Left.nonneg_neg_iff] at h0
          have h2 : (0 : ℚ) < 2 ^ e := by positivity
          have h3 : (m : ℚ) ≤ 0 := by
            by_contra hc
            push_neg at hc
            have : 0 < (m : ℚ) * 2 ^ e := mul_pos hc h2
            linarith
          have h4 : (m : ℚ) = 0 := le_antisymm h3 (by positivity)
          exact_mod_cast h4
        rw [hzero hm]
        simp [Float64.toRat]
  · rw [if_neg hl]

/-- C9 (as amended): if every item that the description rule reads has a price that
parses to a finite number from 0 to below `2^63`, and the contributions of the rules
add up to less than `2^63`, the score is that sum and is not negative. -/
theorem C9_points_nonneg (cv : Float64 → Int) (r : Receipt)
    (hprice : ∀ item ∈ r.Items, goLen (TrimSpace item.ShortDescription) % 3 = 0 →
      ∀ p, ParseFloat item.Price = .ok p →
        ∃ neg m e, p = Float64.fin neg m e ∧ 0 ≤ p.toRat ∧ p.toRat < 2 ^ 63)
    (hsum : rulesSum cv r < 2 ^ 63) :
    0 ≤ calculatePoints cv r ∧ calculatePoints cv r = rulesSum cv r := by
  have h1 : 0 ≤ retailerPoints r.Retailer := Int.natCast_nonneg _
  have h2 := totalPoints_nonneg r.Total
  have h3 : 0 ≤ pairPoints r.Items := by unfold pairPoints; positivity
  have h4 : 0 ≤ descriptionPoints cv r.Items := by
    unfold descriptionPoints
    apply List.sum_nonneg
    intro x hx
    obtain ⟨item, hi, rfl⟩ := List.mem_map.mp hx
    exact itemPoints_nonneg cv item (hprice item hi)
  have h5 := datePoints_nonneg r.PurchaseDate
  have h6 := timePoints_nonneg r.PurchaseTime
  have h0 : 0 ≤ rulesSum cv r := by
    unfold rulesSum
    linarith
  have hr : inInt64 (rulesSum cv r) := by
    unfold inInt64
    constructor
    · linarith
    · exact hsum
  rw [calculatePoints_eq_wrap64, wrap64_of_inInt64 hr]
  exact ⟨h0, rfl⟩

theorem price_nonneg_of_priceNonnegInRange {s : GoString} (h : priceNonnegInRange s = true) :
    ∀ p, ParseFloat s = .ok p →
      ∃ neg m e, p = Float64.fin neg m e ∧ 0 ≤ p.toRat ∧ p.toRat < 2 ^ 63 := by
  intro p hp
  unfold priceNonnegInRange at h
  rw [hp] at h
  cases p with
  | fin neg m e =>
    simp only [Bool.and_eq_true, Bool.or_eq_true, Bool.not_eq_true', decide_eq_true_eq] at h
    have habs : |(Float64.fin neg m e).toRat| < 2 ^ 63 := abs_toRat_lt_of_shiftUp h.2
    have h0 : 0 ≤ (Float64.fin neg m e).toRat := by
      rcases h.1 with hn | hm
      · subst hn
        simp only [Float64.toRat, Bool.false_eq_true, if_false, one_mul]
        positivity
      · subst hm
        simp [Float64.toRat]
    exact ⟨neg, m, e, rfl, h0, lt_of_le_of_lt (le_abs_self _) habs⟩
  | inf neg => simp at h
  | nan => simp at h

set_option maxRecDepth 100000 in
/-- C9 (as amended), at a concrete receipt: the "Target" receipt, whose prices are
positive, scores 28. -/
theorem C9_points_nonneg_witness :
    0 ≤ calculatePoints cvAmd64 targetReceipt ∧
      calculatePoints cvAmd64 targetReceipt = rulesSum cvAmd64 targetReceipt :=
  C9_points_nonneg cvAmd64 targetReceipt
    (fun item hi _ => price_nonneg_of_priceNonnegInRange
      ((by decide! : ∀ i ∈ targetReceipt.Items, priceNonnegInRange i.Price = true) item hi))
    (by decide!)

/-! ## C14: the score depends on the five scored fields only -/

/-- C14: two receipts with the same retailer, purchase date, purchase time, total and
items have the same score, whatever their `ID` and `Points`; the score is a function of
the receipt, the same at every evaluation. -/
theorem C14_score_depends_on_scored_fields (cv : Float64 → Int) (r1 r2 : Receipt)
    (hRetailer : r1.Retailer = r2.Retailer) (hDate : r1.PurchaseDate = r2.PurchaseDate)
    (hTime : r1.PurchaseTime = r2.PurchaseTime) (hTotal : r1.Total = r2.Total)
    (hItems : r1.Items = r2.Items) :
    calculatePoints cv r1 = calculatePoints cv r2 := by
  rw [calculatePoints_eq_wrap64, calculatePoints_eq_wrap64]
  simp only [rulesSum, hRetailer, hDate, hTime, hTotal, hItems]

set_option maxRecDepth 100000 in
/-- C14, at a concrete receipt: the "Target" receipt scores 28 also when its body
carried the identifier "x" and 1000 points. -/
theorem C14_score_depends_on_scored_fields_witness :
    calculatePoints cvAmd64 { targetReceipt with ID := "x".toList, Points := 1000 } =
        calculatePoints cvAmd64 targetReceipt ∧
      calculatePoints cvAmd64 targetReceipt = 28 :=
  ⟨C14_score_depends_on_scored_fields cvAmd64
      { targetReceipt with ID := "x".toList, Points := 1000 } targetReceipt rfl rfl rfl rfl rfl,
    by decide!⟩

/-! ## C17: the two total rules together -/

theorem Floor_inf (neg : Bool) : Floor (Float64.inf neg) = Float64.inf neg := rfl

/-- What the two total rules give for each kind of parsed total: 0, 25 or 75 for a
finite number, 50 for an infinity, 0 for NaN. -/
theorem totalPoints_cases (s : GoString) (t : Float64) (h : ParseFloat s = .ok t) :
    ((∃ neg m e, t = Float64.fin neg m e) →
        totalPoints s = 0 ∨ totalPoints s = 25 ∨ totalPoints s = 75) ∧
      ((∃ neg, t = Float64.inf neg) → totalPoints s = 50) ∧
      (t = Float64.nan → totalPoints s = 0) := by
  refine ⟨?_, ?_, ?_⟩
  · rintro ⟨neg, m, e, rfl⟩
    rw [totalPoints_fin h]
    by_cases h1 : 0 ≤ e ∨ 2 ^ (-e).toNat ∣ m
    · have h2 : -2 ≤ e ∨ 2 ^ (-2 - e).toNat ∣ m := by
        rcases h1 with h1 | h1
        · left; omega
        · by_cases he : -2 ≤ e
          · left; exact he
          · right
            exact dvd_trans (pow_dvd_pow 2 (by omega)) h1
      rw [if_pos h1, if_pos h2]
      right; right; rfl
    · rw [if_neg h1]
      by_cases h2 : -2 ≤ e ∨ 2 ^ (-2 - e).toNat ∣ m
      · rw [if_pos h2]; right; left; rfl
      · rw [if_neg h2]; left; rfl
  · rintro ⟨neg, rfl⟩
    unfold totalPoints
    rw [h]
    cases neg <;> rfl
  · rintro rfl
    unfold totalPoints
    rw [h]
    rfl

/-- For a total that parses to a finite number, the round-amount rule fires only when
the multiple-of-0.25 rule fires too, and the two rules together add 0, 25 or 75. -/
theorem totalPoints_finite (s : GoString) (neg : Bool) (m : Nat) (e : Int)
    (h : ParseFloat s = .ok (Float64.fin neg m e)) :
    (Float64.eq (Float64.fin neg m e) (Floor (Float64.fin neg m e)) = true →
        Float64.eq (Mod (Float64.fin neg m e) Float64.quarter) Float64.zero = true) ∧
      (totalPoints s = 0 ∨ totalPoints s = 25 ∨ totalPoints s = 75) := by
  refine ⟨?_, (totalPoints_cases s _ h).1 ⟨neg, m, e, rfl⟩⟩
  rw [eq_Floor_iff, eq_Mod_quarter_iff]
  rintro (hi | hi)
  · left; omega
  · by_cases he : -2 ≤ e
    · left; exact he
    · right
      exact dvd_trans (pow_dvd_pow 2 (by omega)) hi

set_option maxRecDepth 100000 in
/-- C17: the code departs from the claim, and from its own comments ("50 points if
total is a round dollar amount", "25 points if total is a multiple of 0.25"), at the
total "Inf".  `strconv.ParseFloat` accepts that total without error; the test
`total == math.Floor(total)` holds of the infinity and the test
`math.Mod(total, 0.25) == 0` does not, `math.Mod` being NaN there; so the two total
rules add exactly 50, and the "Target" receipt with that total scores 6 + 50 + 10 + 6 +
6 = 78, against 28 without its total.  The same goes for the other spellings of an
infinity.  For every total that parses to a finite number the claim holds: the
round-amount rule fires only when the multiple-of-0.25 rule fires too, and the two
rules add 0, 25 or 75. -/
theorem C17_total_Inf_earns_fifty_alone :
    ParseFloat "Inf".toList = .ok (Float64.inf false) ∧
      Float64.eq (Float64.inf false) (Floor (Float64.inf false)) = true ∧
      Float64.eq (Mod (Float64.inf false) Float64.quarter) Float64.zero = false ∧
      totalPoints "Inf".toList = 50 ∧
      calculatePoints cvAmd64 { targetReceipt with Total := "Inf".toList } = 78 ∧
      calculatePoints cvAmd64 { targetReceipt with Total := [] } = 28 ∧
      totalPoints "-Infinity".toList = 50 ∧ totalPoints "+inf".toList = 50 ∧
      (∀ s t, ParseFloat s = .ok t → (∃ neg, t = Float64.inf neg) → totalPoints s = 50) ∧
      (∀ s neg m e, ParseFloat s = .ok (Float64.fin neg m e) →
        (Float64.eq (Float64.fin neg m e) (Floor (Float64.fin neg m e)) = true →
          Float64.eq (Mod (Float64.fin neg m e) Float64.quarter) Float64.zero = true) ∧
        (totalPoints s = 0 ∨ totalPoints s = 25 ∨ totalPoints s = 75)) := by
  refine ⟨by decide!, by decide!, by decide!, by decide!, by decide!, by decide!,
    by decide!, by decide!, ?_, totalPoints_finite⟩
  intro s t h hinf
  exact (totalPoints_cases s t h).2.1 hinf
/-! ## C16: the length that the description rule tests -/

theorem itemPoints_eq_byte (cv : Float64 → Int) (item : Item)
    (hprice : goLen (TrimSpace item.ShortDescription) % 3 = 0 →
      ∀ p, ParseFloat item.Price = .ok p →
        ∃ neg m e, p = Float64.fin neg m e ∧ |p.toRat| < 2 ^ 63) :
    itemPoints cv item = byteItemPoints item := by
  unfold itemPoints byteItemPoints
  by_cases hl : goLen (TrimSpace item.ShortDescription) % 3 = 0
  · rw [if_pos hl, if_pos hl]
    cases hp : ParseFloat item.Price with
    | error err => rfl
    | ok p =>
      obtain ⟨neg, m, e, rfl, hlt⟩ := hprice hl p hp
      exact floatToInt_Ceil_mul_fifth cv neg m e hlt
  · rw [if_neg hl, if_neg hl]

theorem length_le_goLen (s : GoString) : s.length ≤ goLen s := by
  induction s with
  | nil => exact le_refl _
  | cons c cs ih =>
    simp only [goLen, runeLen, List.length_cons]
    split_ifs <;> omega

/-- The number of bytes of a string is its number of characters exactly when every
character is ASCII. -/
theorem goLen_eq_length_iff (s : GoString) :
    goLen s = s.length ↔ ∀ c ∈ s, c.toNat < 128 := by
  constructor
  · induction s with
    | nil => intro _ c hc; cases hc
    | cons d ds ih =>
      intro h c hc
      have hle := length_le_goLen ds
      simp only [goLen, runeLen, List.length_cons] at h
      rcases List.mem_cons.mp hc with rfl | hc
      · by_contra hlt
        rw [if_neg hlt] at h
        split_ifs at h <;> omega
      · refine ih ?_ c hc
        split_ifs at h <;> omega
  · exact goLen_of_ascii s

/-- The number of bytes of a string is larger than its number of characters exactly
when some character is not ASCII. -/
theorem length_lt_goLen_iff (s : GoString) :
    s.length < goLen s ↔ ∃ c ∈ s, 128 ≤ c.toNat := by
  have hle := length_le_goLen s
  have hiff := goLen_eq_length_iff s
  constructor
  · intro hlt
    by_contra hno
    have hall : ∀ c ∈ s, c.toNat < 128 := by
      intro c hc
      by_contra hge
      exact hno ⟨c, hc, by omega⟩
    have := hiff.mpr hall
    omega
  · rintro ⟨c, hc, hge⟩
    by_contra hnlt
    have heq : goLen s = s.length := by omega
    have := hiff.mp heq c hc
    omega

/-- The score of a receipt, from the score of the receipt in which the price of one
item is replaced. -/
theorem calculatePoints_item (cv : Float64 → Int) (r : Receipt) (pre post : List Item)
    (item : Item) (hitems : r.Items = pre ++ item :: post) (price : GoString) :
    calculatePoints cv r =
      wrap64 (calculatePoints cv
          { r with Items := pre ++ { item with Price := price } :: post } +
        (itemPoints cv item - itemPoints cv { item with Price := price })) := by
  refine calculatePoints_congr cv
    { r with Items := pre ++ { item with Price := price } :: post } r
    (itemPoints cv item - itemPoints cv { item with Price := price }) ?_
  simp only [rulesSum, hitems, pairPoints, descriptionPoints, List.length_append,
    List.length_cons, List.map_append, List.map_cons, List.sum_append, List.sum_cons]
  ring

/-- The conversion of a float64 out of the range of `int` matters to the score through
the description rule only. -/
theorem calculatePoints_cv (cv cv' : Float64 → Int) (r : Receipt)
    (h : descriptionPoints cv r.Items = descriptionPoints cv' r.Items) :
    calculatePoints cv r = calculatePoints cv' r := by
  rw [calculatePoints_eq_wrap64, calculatePoints_eq_wrap64]
  simp only [rulesSum, h]

theorem descriptionPoints_eq_byte (cv : Float64 → Int) (items : List Item)
    (hprice : ∀ i ∈ items, goLen (TrimSpace i.ShortDescription) % 3 = 0 →
      ∀ p, ParseFloat i.Price = .ok p →
        ∃ neg m e, p = Float64.fin neg m e ∧ |p.toRat| < 2 ^ 63) :
    descriptionPoints cv items = (items.map byteItemPoints).sum := by
  unfold descriptionPoints
  induction items with
  | nil => rfl
  | cons i rest ih =>
    rw [List.map_cons, List.map_cons, List.sum_cons, List.sum_cons,
      itemPoints_eq_byte cv i (hprice i (List.mem_cons_self _ _)),
      ih (fun j hj => hprice j (List.mem_cons_of_mem _ hj))]

/-- C16 (as amended): the length that the description rule of `calculatePoints` tests
is the number of bytes of the UTF-8 encoding of the trimmed description.  For an item
of a receipt whose trimmed description has a number of bytes that is not a multiple of
3, the statement of the loop leaves the points as they are and the score of the receipt
is the same whatever the price of the item; for an item whose trimmed description has a
number of bytes that is a multiple of 3 and whose price parses to a finite number below
`2^63` in magnitude, the statement of the loop adds the ceiling of the float64 product
of the price and `0.2`, and the score of the receipt is the score of the receipt with
that price emptied plus that ceiling (in Go's `int`).  The score of a receipt all of
whose scored prices are such is the score without the prices plus the sum of the
contributions by bytes.  The number of bytes of the trimmed description is at least its
number of characters, equal to it exactly when the trimmed description has ASCII
characters only, and larger exactly when it has a character that is not ASCII. -/
theorem C16_description_length_in_bytes (cv : Float64 → Int) (r : Receipt)
    (pre post : List Item) (item : Item) (hitems : r.Items = pre ++ item :: post) :
    (goLen (TrimSpace item.ShortDescription) % 3 ≠ 0 →
        (∀ points, itemStep cv points item = points) ∧
        ∀ price, calculatePoints cv
          { r with Items := pre ++ { item with Price := price } :: post } =
            calculatePoints cv r) ∧
      (goLen (TrimSpace item.ShortDescription) % 3 = 0 →
        ∀ neg m e, ParseFloat item.Price = .ok (Float64.fin neg m e) →
          |(Float64.fin neg m e).toRat| < 2 ^ 63 →
          (∀ points, itemStep cv points item =
            addInt points ⌈(Float64.mul (Float64.fin neg m e) Float64.fifth).toRat⌉) ∧
          calculatePoints cv r =
            wrap64 (calculatePoints cv
                { r with Items := pre ++ { item with Price := [] } :: post } +
              ⌈(Float64.mul (Float64.fin neg m e) Float64.fifth).toRat⌉)) ∧
      ((∀ i ∈ r.Items, goLen (TrimSpace i.ShortDescription) % 3 = 0 →
          ∀ p, ParseFloat i.Price = .ok p →
            ∃ neg m e, p = Float64.fin neg m e ∧ |p.toRat| < 2 ^ 63) →
        calculatePoints cv r =
          wrap64 (calculatePoints cv
              { r with Items := r.Items.map (fun i => { i with Price := [] }) } +
            (r.Items.map byteItemPoints).sum)) ∧
      (TrimSpace item.ShortDescription).length ≤ goLen (TrimSpace item.ShortDescription) ∧
      (goLen (TrimSpace item.ShortDescription) = (TrimSpace item.ShortDescription).length ↔
        ∀ c ∈ TrimSpace item.ShortDescription, c.toNat < 128) ∧
      ((TrimSpace item.ShortDescription).length < goLen (TrimSpace item.ShortDescription) ↔
        ∃ c ∈ TrimSpace item.ShortDescription, 128 ≤ c.toNat) := by
  refine ⟨?_, ?_, ?_, length_le_goLen _, goLen_eq_length_iff _, length_lt_goLen_iff _⟩
  · intro hl
    refine ⟨?_, ?_⟩
    · intro points
      unfold itemStep
      simp only [if_neg hl]
    · intro price
      have h := calculatePoints_item cv r pre post item hitems price
      rw [itemPoints_of_length cv item hl,
        itemPoints_of_length cv { item with Price := price } hl, sub_zero, add_zero,
        calculatePoints_eq_wrap64 cv { r with Items := pre ++ { item with Price := price } :: post },
        wrap64_wrap64, ← calculatePoints_eq_wrap64] at h
      exact h.symm
  · intro hl neg m e hp hlt
    have hc := floatToInt_Ceil_mul_fifth cv neg m e hlt
    refine ⟨?_, ?_⟩
    · intro points
      unfold itemStep
      simp only [if_pos hl, hp, hc]
    · have h := calculatePoints_item cv r pre post item hitems []
      have h1 : itemPoints cv item =
          ⌈(Float64.mul (Float64.fin neg m e) Float64.fifth).toRat⌉ := by
        unfold itemPoints
        simp only [if_pos hl, hp, hc]
      have h0 : itemPoints cv { item with Price := [] } = 0 :=
        itemPoints_of_error cv ⟨_, ParseFloat_nil⟩
      rw [h1, h0, sub_zero] at h
      exact h
  · intro hprice
    rw [calculatePoints_description, descriptionPoints_eq_byte cv r.Items hprice]

set_option maxRecDepth 100000 in
/-- C16 (as amended), at a concrete receipt: the receipt with retailer "", total
"1.10", date "2022-01-02", time "13:01" and the one item "éa" (2 characters, 3 bytes)
at "5.00" scores 1, which is the 0 of the same receipt with the price emptied plus the
ceiling of the float64 product of 5 and 0.2. -/
theorem C16_description_length_in_bytes_witness :
    calculatePoints cvAmd64 accentReceipt =
        wrap64 (calculatePoints cvAmd64
            { accentReceipt with Items := [] ++ [⟨"éa".toList, []⟩] } +
          ⌈(Float64.mul (Float64.fin false 5629499534213120 (-50)) Float64.fifth).toRat⌉) ∧
      calculatePoints cvAmd64 accentReceipt = 1 ∧
      calculatePoints cvAmd64 { accentReceipt with Items := [] ++ [⟨"éa".toList, []⟩] } = 0 :=
  ⟨((C16_description_length_in_bytes cvAmd64 accentReceipt [] [] ⟨"éa".toList, "5.00".toList⟩
      rfl).2.1 (by decide!) false 5629499534213120 (-50) (by decide!)
      (abs_toRat_lt_of_shiftUp (by decide!))).2,
    by decide!, by decide!⟩

set_option maxRecDepth 100000 in
/-- C16 fails as stated: the description "éa" has 2 characters, not a multiple of 3,
and yet the item at "5.00" contributes 1, its 3 bytes being a multiple of 3: the
receipt with that one item scores 1 under every conversion, and 0 once the price is
emptied.  The description "éab" has 3 characters and the item at "5.00" contributes
0, where the rule on characters gives the ceiling of 1, its 4 bytes not being a
multiple of 3: the receipt with that one item scores 0. -/
theorem C16_description_length_in_bytes_counterexample :
    (TrimSpace "éa".toList).length = 2 ∧ goLen (TrimSpace "éa".toList) = 3 ∧
      charItemPoints ⟨"éa".toList, "5.00".toList⟩ = 0 ∧
      (¬ ∃ cv, itemPoints cv ⟨"éa".toList, "5.00".toList⟩ = 0) ∧
      (¬ ∃ cv, calculatePoints cv accentReceipt ≠ 1) ∧
      calculatePoints cvAmd64 { accentReceipt with Items := [⟨"éa".toList, []⟩] } = 0 ∧
      (TrimSpace "éab".toList).length = 3 ∧ goLen (TrimSpace "éab".toList) = 4 ∧
      charItemPoints ⟨"éab".toList, "5.00".toList⟩ = 1 ∧
      (¬ ∃ cv, itemPoints cv ⟨"éab".toList, "5.00".toList⟩ = 1) ∧
      (¬ ∃ cv, calculatePoints cv accentThreeReceipt ≠ 0) := by
  have hp : ParseFloat "5.00".toList = .ok (Float64.fin false 5629499534213120 (-50)) := by
    decide!
  have hmul : Float64.mul (Float64.fin false 5629499534213120 (-50)) Float64.fifth =
      Float64.fin false 4503599627370496 (-52) := by decide!
  have h2 : (TrimSpace "éa".toList).length % 3 ≠ 0 := by decide!
  have h3 : (TrimSpace "éab".toList).length % 3 = 0 := by decide!
  have hb : ∀ cv, itemPoints cv ⟨"éa".toList, "5.00".toList⟩ = 1 := by
    intro cv
    have e1 := itemPoints_eq_byte cv ⟨"éa".toList, "5.00".toList⟩
      (fun _ => price_bound_of_priceInRange (by decide!))
    have e2 := itemPoints_eq_byte cvAmd64 ⟨"éa".toList, "5.00".toList⟩
      (fun _ => price_bound_of_priceInRange (by decide!))
    rw [e1, ← e2]
    decide!
  have hc : ∀ cv, itemPoints cv ⟨"éab".toList, "5.00".toList⟩ = 0 := by
    intro cv
    exact itemPoints_of_length cv _ (by decide!)
  have hs2 : ∀ cv, calculatePoints cv accentReceipt = 1 := by
    intro cv
    rw [calculatePoints_cv cv cvAmd64 accentReceipt (by
      show descriptionPoints cv [⟨"éa".toList, "5.00".toList⟩] =
        descriptionPoints cvAmd64 [⟨"éa".toList, "5.00".toList⟩]
      simp only [descriptionPoints, List.map_cons, List.map_nil, hb])]
    decide!
  have hs3 : ∀ cv, calculatePoints cv accentThreeReceipt = 0 := by
    intro cv
    rw [calculatePoints_cv cv cvAmd64 accentThreeReceipt (by
      show descriptionPoints cv [⟨"éab".toList, "5.00".toList⟩] =
        descriptionPoints cvAmd64 [⟨"éab".toList, "5.00".toList⟩]
      simp only [descriptionPoints, List.map_cons, List.map_nil, hc])]
    decide!
  refine ⟨by decide!, by decide!, ?_, ?_, ?_, by decide!, by decide!, by decide!, ?_, ?_, ?_⟩
  · unfold charItemPoints
    rw [if_neg h2]
  · rintro ⟨cv, h⟩
    rw [hb cv] at h
    exact absurd h (by decide)
  · rintro ⟨cv, h⟩
    exact h (hs2 cv)
  · unfold charItemPoints
    rw [if_pos h3]
    simp only [hp, hmul]
    rw [toRat_fin_of_neg false _ (by norm_num : ¬ (0 : ℤ) ≤ -52)]
    have h5 : (if false = true then (-1 : ℚ) else 1) *
        ((4503599627370496 : Nat) / ((2 ^ (- (-52 : ℤ)).toNat : Nat) : ℚ)) =
        ((4503599627370496 : Nat) : ℚ) / ((2 ^ 52 : Nat) : ℚ) := by
      simp only [Bool.false_eq_true, if_false, one_mul, neg_neg]
      rfl
    rw [h5, ceil_natCast_div _ _ (by norm_num)]
    decide!
  · rintro ⟨cv, h⟩
    rw [hc cv] at h
    exact absurd h (by decide)
  · rintro ⟨cv, h⟩
    exact h (hs3 cv)

/-! ## encoding/json: what is written is read back -/

theorem decodeField_Points_of_not (acc : Receipt × Bool) (kv : GoString × JSON)
    (h : keyIs kv.1 "points" = false) : (decodeField acc kv).1.Points = acc.1.Points := by
  unfold decodeField
  split_ifs <;> first | rfl | simp_all

theorem foldl_decodeField_Points (l : List (GoString × JSON))
    (h : ∀ kv ∈ l, keyIs kv.1 "points" = false) (acc : Receipt × Bool) :
    (l.foldl decodeField acc).1.Points = acc.1.Points := by
  induction l generalizing acc with
  | nil => rfl
  | cons kv rest ih =>
    rw [List.foldl_cons, ih (fun x hx => h x (List.mem_cons_of_mem _ hx)),
      decodeField_Points_of_not acc kv (h kv (List.mem_cons_self _ _))]

theorem decodeField_points (acc : Receipt × Bool) (n : Int) (hn : inInt64 n) :
    (decodeField acc ("points".toList, JSON.num n)).1.Points = n := by
  have k1 : keyIs "points".toList "id" = false := by decide
  have k2 : keyIs "points".toList "retailer" = false := by decide
  have k3 : keyIs "points".toList "purchaseDate" = false := by decide
  have k4 : keyIs "points".toList "purchaseTime" = false := by decide
  have k5 : keyIs "points".toList "total" = false := by decide
  have k6 : keyIs "points".toList "items" = false := by decide
  have k7 : keyIs "points".toList "points" = true := by decide
  simp only [decodeField, k1, k2, k3, k4, k5, k6, k7, Bool.false_eq_true, if_false, if_true,
    decodeInt, if_pos hn]

/-- The points of a receipt survive `json.Marshal` followed by `json.Unmarshal` into a
zero receipt, also when they are 0 and the field is left out. -/
theorem Unmarshal_Marshal_Points (r : Receipt) (itemsNil : Bool) (h : inInt64 r.Points) :
    pointsOf (Document.json (Marshal r itemsNil)) = r.Points := by
  unfold pointsOf Marshal
  simp only [Unmarshal]
  rw [List.foldl_append]
  have hpre : ∀ kv ∈ (if r.ID = [] then [] else [("id".toList, JSON.str r.ID)]) ++
      [("retailer".toList, JSON.str r.Retailer),
        ("purchaseDate".toList, JSON.str r.PurchaseDate),
        ("purchaseTime".toList, JSON.str r.PurchaseTime),
        ("total".toList, JSON.str r.Total),
        ("items".toList,
          if itemsNil = true then JSON.null else JSON.arr (r.Items.map marshalItem))],
      keyIs kv.1 "points" = false := by
    intro kv hkv
    rcases List.mem_append.mp hkv with h1 | h1
    · split_ifs at h1
      · simp at h1
      · simp only [List.mem_singleton] at h1
        rw [h1]
        show keyIs "id".toList "points" = false
        decide
    · simp only [List.mem_cons, List.mem_singleton, List.not_mem_nil, or_false] at h1
      rcases h1 with h1 | h1 | h1 | h1 | h1 <;> rw [h1]
      · show keyIs "retailer".toList "points" = false
        decide
      · show keyIs "purchaseDate".toList "points" = false
        decide
      · show keyIs "purchaseTime".toList "points" = false
        decide
      · show keyIs "total".toList "points" = false
        decide
      · show keyIs "items".toList "points" = false
        decide
  by_cases hp : r.Points = 0
  · rw [if_pos hp, List.foldl_nil, foldl_decodeField_Points _ hpre, hp]
    rfl
  · rw [if_neg hp, List.foldl_cons, List.foldl_nil, decodeField_points _ _ h]

/-- Data after the first JSON value of a body does not change what `Decode` gives. -/
theorem Decode_withTrailing (v : JSON) :
    Decode (Document.withTrailing v) = Decode (Document.json v) := rfl

theorem uuidString_ne_nil (random : Nat) : uuidString random ≠ [] := by
  unfold uuidString
  simp

theorem calculatePoints_with_ID (cv : Float64 → Int) (r : Receipt) (id : GoString) :
    calculatePoints cv { r with ID := id } = calculatePoints cv r := by
  rw [calculatePoints_eq_wrap64, calculatePoints_eq_wrap64]
  rfl

/-- What `ProcessReceipt` does with a body that decodes, when the store takes the
write. -/
theorem ProcessReceipt_ok (cv : Float64 → Int) (st : Store) (body : Document) (r : Receipt)
    (random : Nat) (hdec : Decode body = some r) :
    ProcessReceipt cv st body random false =
      (Response.ok (JSON.obj [("id".toList, JSON.str (uuidString random))]),
        ⟨fun k => if k = uuidString random then
            some (Document.json (Marshal
              { r with ID := uuidString random, Points := calculatePoints cv r }
              (DecodeItemsNil body)))
          else st.data k⟩) := by
  unfold ProcessReceipt
  rw [hdec]
  simp only [Store.Set, Bool.false_eq_true, if_false, calculatePoints_with_ID]

/-! ## C11: submit, then fetch -/

/-- C11: after `ProcessReceipt` has decoded a receipt `r` from the body (whatever `id`
and `points` the body carried), drawn an identifier and written the record without a
store error, the response carries that identifier and `GetPoints` on it answers 200
with the points `calculatePoints r`. -/
theorem C11_submit_then_fetch (cv : Float64 → Int) (st : Store) (body : Document)
    (r : Receipt) (random : Nat) (hdec : Decode body = some r) :
    (ProcessReceipt cv st body random false).1 =
        Response.ok (JSON.obj [("id".toList, JSON.str (uuidString random))]) ∧
      GetPoints (ProcessReceipt cv st body random false).2 (uuidString random) false =
        (Response.ok (JSON.obj [("points".toList, JSON.num (calculatePoints cv r))]),
          (ProcessReceipt cv st body random false).2) := by
  rw [ProcessReceipt_ok cv st body r random hdec]
  refine ⟨rfl, ?_⟩
  have hp := Unmarshal_Marshal_Points
    { r with ID := uuidString random, Points := calculatePoints cv r } (DecodeItemsNil body)
    (by
      show inInt64 (calculatePoints cv r)
      rw [calculatePoints_eq_wrap64]
      exact inInt64_wrap64 _)
  unfold pointsOf at hp
  simp only [GetPoints, Store.Get, Bool.false_eq_true, if_false, if_true, hp]

set_option maxRecDepth 100000 in
/-- C11, at a concrete request: the "Target" receipt sent with the identifier "mine"
and -5 points in its body, stored in the empty store, is fetched with its 28 points. -/
theorem C11_submit_then_fetch_witness :
    (GetPoints
        (ProcessReceipt cvAmd64 Store.empty
          (Document.json (Marshal { targetReceipt with ID := "mine".toList, Points := -5 } false))
          0 false).2 (uuidString 0) false).1 =
      Response.ok (JSON.obj [("points".toList,
        JSON.num (calculatePoints cvAmd64
          { targetReceipt with ID := "mine".toList, Points := -5 }))]) ∧
    calculatePoints cvAmd64 { targetReceipt with ID := "mine".toList, Points := -5 } = 28 :=
  ⟨congrArg Prod.fst (C11_submit_then_fetch cvAmd64 Store.empty
      (Document.json (Marshal { targetReceipt with ID := "mine".toList, Points := -5 } false))
      { targetReceipt with ID := "mine".toList, Points := -5 } 0 (by decide!)).2,
    by decide!⟩

/-! ## C12: the answers of GetPoints -/

theorem GetPoints_store (st : Store) (id : GoString) (fail : Bool) :
    (GetPoints st id fail).2 = st := by
  unfold GetPoints
  cases st.Get id fail <;> rfl

theorem ProcessReceipt_other_keys (cv : Float64 → Int) (st : Store) (body : Document)
    (random : Nat) (fail : Bool) (k : GoString) (hk : k ≠ uuidString random) :
    (ProcessReceipt cv st body random fail).2.data k = st.data k := by
  unfold ProcessReceipt
  cases Decode body with
  | none => rfl
  | some r =>
    cases fail
    · simp only [Store.Set, Bool.false_eq_true, if_false, if_neg hk]
    · rfl

/-- A key that no request of a sequence generates and writes holds after the sequence
what it held before. -/
theorem run_data_of_not_issued (cv : Float64 → Int) (reqs : List Request) :
    ∀ (st : Store) (k : GoString), k ∉ issued reqs → (run cv st reqs).data k = st.data k := by
  induction reqs with
  | nil => intro st k _; rfl
  | cons req rest ih =>
    intro st k hk
    cases req with
    | getPoints id fail =>
      simp only [run, step, issued] at hk ⊢
      rw [ih _ k hk, GetPoints_store]
    | process body random fail =>
      simp only [run, step]
      by_cases hw : ((Decode body).isSome && !fail) = true
      · simp only [issued, hw, if_true, List.mem_cons, not_or] at hk
        rw [ih _ k hk.2, ProcessReceipt_other_keys cv st body random fail k hk.1]
      · simp only [issued, hw, Bool.false_eq_true, if_false] at hk
        rw [ih _ k hk]
        unfold ProcessReceipt
        cases hd : Decode body with
        | none => rfl
        | some r =>
          cases fail
          · simp [hd] at hw
          · rfl

/-- C12: `GetPoints` answers by the outcome of the read alone.  It answers 404 exactly
when the read reports that no value is stored under the identifier, 500 exactly when
the read fails with another error, and 200 with a `points` body exactly when the read
returns a value, whatever that value is; it never changes the store; and after any
sequence of requests on an empty store, an identifier that none of them issued is
answered with 404. -/
theorem C12_GetPoints_answers (st : Store) (id : GoString) (fail : Bool) :
    ((GetPoints st id fail).1 = Response.error 404 "Receipt not found" ↔
        fail = false ∧ st.data id = none) ∧
      ((GetPoints st id fail).1.status = 404 ↔ st.Get id fail = GetResult.Nil) ∧
      ((GetPoints st id fail).1 = Response.error 500 "Failed to fetch receipt" ↔
        fail = true) ∧
      ((GetPoints st id fail).1.status = 500 ↔ st.Get id fail = GetResult.err) ∧
      ((GetPoints st id fail).1.status = 200 ↔ fail = false ∧ ∃ text, st.data id = some text) ∧
      (∀ text, fail = false → st.data id = some text →
        (GetPoints st id fail).1 =
          Response.ok (JSON.obj [("points".toList, JSON.num (pointsOf text))])) ∧
      (GetPoints st id fail).2 = st ∧
      (∀ cv reqs, id ∉ issued reqs →
        (GetPoints (run cv Store.empty reqs) id false).1 =
          Response.error 404 "Receipt not found") := by
  refine ⟨?_, ?_, ?_, ?_, ?_, ?_, GetPoints_store st id fail, ?_⟩
  · unfold GetPoints Store.Get
    cases fail <;> cases h : st.data id <;> simp
  · unfold GetPoints Store.Get
    cases fail <;> cases h : st.data id <;> simp [Response.status]
  · unfold GetPoints Store.Get
    cases fail <;> cases h : st.data id <;> simp
  · unfold GetPoints Store.Get
    cases fail <;> cases h : st.data id <;> simp [Response.status]
  · unfold GetPoints Store.Get
    cases fail <;> cases h : st.data id <;> simp [Response.status]
  · intro text hf hd
    subst hf
    simp only [GetPoints, Store.Get, Bool.false_eq_true, if_false, hd, pointsOf]
  · intro cv reqs hid
    have h : (run cv Store.empty reqs).data id = none :=
      run_data_of_not_issued cv reqs Store.empty id hid
    simp only [GetPoints, Store.Get, Bool.false_eq_true, if_false, h]

/-! ## C13: the record that is stored -/

theorem keyIs_items_only (k : GoString) (h : keyIs k "items" = true) :
    keyIs k "id" = false ∧ keyIs k "retailer" = false ∧ keyIs k "purchaseDate" = false ∧
      keyIs k "purchaseTime" = false ∧ keyIs k "total" = false := by
  unfold keyIs at h ⊢
  rw [eq_of_beq h]
  refine ⟨by decide, by decide, by decide, by decide, by decide⟩

theorem decodeField_Items_of_not (acc : Receipt × Bool) (kv : GoString × JSON)
    (h : keyIs kv.1 "items" = false) : (decodeField acc kv).1.Items = acc.1.Items := by
  unfold decodeField
  split_ifs <;> first | rfl | simp_all

theorem decodeField_Items_of_nil (acc : Receipt × Bool) (nilItems : Bool)
    (kv : GoString × JSON) (h : nilItems = true → acc.1.Items = []) :
    decodeFieldNil nilItems kv = true → (decodeField acc kv).1.Items = [] := by
  unfold decodeFieldNil
  by_cases hk : keyIs kv.1 "items" = true
  · obtain ⟨k1, k2, k3, k4, k5⟩ := keyIs_items_only kv.1 hk
    rw [if_pos hk]
    simp only [decodeField, k1, k2, k3, k4, k5, hk, Bool.false_eq_true, if_false, if_true]
    cases kv.2 <;> simp only [decodeItemsNil, decodeItems] <;> first | exact h | simp
  · rw [if_neg hk]
    intro hn
    rw [decodeField_Items_of_not acc kv (by simpa using hk)]
    exact h hn

theorem foldl_decodeField_Items_of_nil (l : List (GoString × JSON)) :
    ∀ (acc : Receipt × Bool) (nilItems : Bool), (nilItems = true → acc.1.Items = []) →
      l.foldl decodeFieldNil nilItems = true → (l.foldl decodeField acc).1.Items = [] := by
  induction l with
  | nil => intro acc nilItems h hn; exact h hn
  | cons kv rest ih =>
    intro acc nilItems h
    rw [List.foldl_cons, List.foldl_cons]
    exact ih _ _ (decodeField_Items_of_nil acc nilItems kv h)

/-- The list of items of a decoded receipt whose slice is nil is empty. -/
theorem Decode_Items_of_nil (body : Document) (r : Receipt) (hdec : Decode body = some r) :
    DecodeItemsNil body = true → r.Items = [] := by
  unfold Decode at hdec
  unfold DecodeItemsNil
  cases hf : body.first with
  | none => rw [hf] at hdec; cases hdec
  | some v =>
    rw [hf] at hdec
    cases v with
    | obj fields =>
      simp only [Unmarshal] at hdec
      split_ifs at hdec
      injection hdec with hdec
      rw [← hdec]
      exact foldl_decodeField_Items_of_nil fields _ true (fun _ => rfl)
    | null =>
      simp only [Unmarshal, if_true] at hdec
      injection hdec with hdec
      rw [← hdec]
      intro _
      rfl
    | bool b => simp [Unmarshal] at hdec
    | num n => simp [Unmarshal] at hdec
    | numFrac t => simp [Unmarshal] at hdec
    | str t => simp [Unmarshal] at hdec
    | arr t => simp [Unmarshal] at hdec

theorem Marshal_get_strings (r : Receipt) (itemsNil : Bool) (h : r.ID ≠ []) :
    (Marshal r itemsNil).get "id" = some (JSON.str r.ID) ∧
      (Marshal r itemsNil).get "retailer" = some (JSON.str r.Retailer) ∧
      (Marshal r itemsNil).get "purchaseDate" = some (JSON.str r.PurchaseDate) ∧
      (Marshal r itemsNil).get "purchaseTime" = some (JSON.str r.PurchaseTime) ∧
      (Marshal r itemsNil).get "total" = some (JSON.str r.Total) ∧
      (Marshal r itemsNil).get "items" =
        some (if itemsNil = true then JSON.null else JSON.arr (r.Items.map marshalItem)) := by
  simp only [Marshal, if_neg h, JSON.get, JSON.members]
  refine ⟨rfl, rfl, rfl, rfl, rfl, rfl⟩

theorem Marshal_get_points (r : Receipt) (itemsNil : Bool) (h : r.ID ≠ []) :
    (r.Points ≠ 0 → (Marshal r itemsNil).get "points" = some (JSON.num r.Points)) ∧
      (r.Points = 0 →
        (Marshal r itemsNil).get "points" = none ∧
          "points".toList ∉ (Marshal r itemsNil).keys) := by
  constructor
  · intro hp
    simp only [Marshal, if_neg h, if_neg hp, JSON.get, JSON.members]
    rfl
  · intro hp
    simp only [Marshal, if_neg h, if_pos hp, JSON.get, JSON.members, JSON.keys]
    refine ⟨rfl, ?_⟩
    simp only [List.append_nil, List.singleton_append, List.map_cons, List.map_nil]
    decide

/-- C13 (as amended): the record that `ProcessReceipt` stores under the generated
identifier is a JSON object with the members `id` (that identifier), `retailer`,
`purchaseDate`, `purchaseTime`, `total` and `items` (`null` for the nil slice of a
body without an array of items, the array of the items otherwise), and with a member
`points` holding `calculatePoints` of the receipt when that is not 0; when the points
are 0 the record has no member `points` (the field is tagged `omitempty`), and reading
the record back gives 0 points. -/
theorem C13_stored_record (cv : Float64 → Int) (st : Store) (body : Document) (r : Receipt)
    (random : Nat) (hdec : Decode body = some r) :
    ∃ record : JSON,
      (ProcessReceipt cv st body random false).2.data (uuidString random) =
          some (Document.json record) ∧
        record.get "id" = some (JSON.str (uuidString random)) ∧
        record.get "retailer" = some (JSON.str r.Retailer) ∧
        record.get "purchaseDate" = some (JSON.str r.PurchaseDate) ∧
        record.get "purchaseTime" = some (JSON.str r.PurchaseTime) ∧
        record.get "total" = some (JSON.str r.Total) ∧
        record.get "items" =
          some (if DecodeItemsNil body = true then JSON.null
            else JSON.arr (r.Items.map marshalItem)) ∧
        (DecodeItemsNil body = true → r.Items = []) ∧
        (calculatePoints cv r ≠ 0 →
          record.get "points" = some (JSON.num (calculatePoints cv r))) ∧
        (calculatePoints cv r = 0 →
          record.get "points" = none ∧ "points".toList ∉ record.keys) ∧
        pointsOf (Document.json record) = calculatePoints cv r := by
  refine ⟨Marshal { r with ID := uuidString random, Points := calculatePoints cv r }
    (DecodeItemsNil body), ?_⟩
  have hne : ({ r with ID := uuidString random, Points := calculatePoints cv r } : Receipt).ID
      ≠ [] := uuidString_ne_nil random
  obtain ⟨g1, g2, g3, g4, g5, g6⟩ := Marshal_get_strings _ (DecodeItemsNil body) hne
  obtain ⟨p1, p2⟩ := Marshal_get_points _ (DecodeItemsNil body) hne
  refine ⟨?_, g1, g2, g3, g4, g5, g6, Decode_Items_of_nil body r hdec, p1, p2, ?_⟩
  · rw [ProcessReceipt_ok cv st body r random hdec]
    simp
  · apply Unmarshal_Marshal_Points
    show inInt64 (calculatePoints cv r)
    rw [calculatePoints_eq_wrap64]
    exact inInt64_wrap64 _

set_option maxRecDepth 100000 in
/-- C13 (as amended), at a concrete request: the record stored for the "Target"
receipt has the member `points` with the value 28. -/
theorem C13_stored_record_witness :
    ∃ record : JSON,
      (ProcessReceipt cvAmd64 Store.empty (requestBody targetReceipt) 0 false).2.data
          (uuidString 0) = some (Document.json record) ∧
        record.get "points" = some (JSON.num 28) := by
  obtain ⟨record, h1, _, _, _, _, _, _, _, h8, _, _⟩ :=
    C13_stored_record cvAmd64 Store.empty (requestBody targetReceipt) targetReceipt 0
      (by decide!)
  have h28 : calculatePoints cvAmd64 targetReceipt = 28 := by decide!
  rw [h28] at h8
  exact ⟨record, h1, h8 (by decide)⟩

set_option maxRecDepth 100000 in
/-- C13 fails as stated: the receipt with retailer "---", total "1.10", date
"2022-01-02", time "13:01" and the item "ab" at "1.00" scores 0, and the record stored
for it has the members `id`, `retailer`, `purchaseDate`, `purchaseTime`, `total` and
`items` but no member `points`. -/
theorem C13_stored_record_counterexample :
    Decode (requestBody zeroPointReceipt) = some zeroPointReceipt ∧
      calculatePoints cvAmd64 zeroPointReceipt = 0 ∧
      (((ProcessReceipt cvAmd64 Store.empty (requestBody zeroPointReceipt) 0 false).2.data
          (uuidString 0)).map (fun text =>
            match text with
            | Document.json v => v.keys
            | Document.withTrailing _ => []
            | Document.malformed => [])) =
        some ["id".toList, "retailer".toList, "purchaseDate".toList, "purchaseTime".toList,
          "total".toList, "items".toList] := by
  refine ⟨by decide!, by decide!, by decide!⟩

/-! ## C15: a stored record is not changed -/

/-- A request whose generated identifier, if it is written, is new to the store leaves
every stored value in place. -/
theorem step_preserves (cv : Float64 → Int) (st : Store) (req : Request)
    (hfresh : ∀ body random fail, req = Request.process body random fail →
      (Decode body).isSome = true → fail = false → st.data (uuidString random) = none)
    (id : GoString) (text : Document) (h : st.data id = some text) :
    (step cv st req).2.data id = some text := by
  cases req with
  | getPoints k fail =>
    simp only [step, GetPoints_store]
    exact h
  | process body random fail =>
    simp only [step]
    cases hd : Decode body with
    | none =>
      simp only [ProcessReceipt, hd]
      exact h
    | some r =>
      cases fail
      · have hnew := hfresh body random false rfl (by rw [hd]; rfl) rfl
        have hne : id ≠ uuidString random := by
          intro heq
          rw [heq, hnew] at h
          cases h
        rw [ProcessReceipt_other_keys cv st body random false id hne]
        exact h
      · simp only [ProcessReceipt, hd, Store.Set, if_true]
        exact h

theorem run_preserves (cv : Float64 → Int) (reqs : List Request) :
    ∀ (st : Store), freshRun cv st reqs →
      ∀ (id : GoString) (text : Document), st.data id = some text →
        (run cv st reqs).data id = some text := by
  induction reqs with
  | nil => intro st _ id text h; exact h
  | cons req rest ih =>
    intro st hf id text h
    cases req with
    | getPoints k fail =>
      simp only [run]
      exact ih _ hf id text (step_preserves cv st _ (fun _ _ _ he => by cases he) id text h)
    | process body random fail =>
      simp only [run]
      obtain ⟨hnew, hrest⟩ := hf
      refine ih _ hrest id text (step_preserves cv st _ ?_ id text h)
      intro b rd fl he
      injection he with h1 h2 h3
      subst h1; subst h2; subst h3
      exact hnew

/-- C15 (as amended): in a sequence of `ProcessReceipt` and `GetPoints` requests in
which every identifier that is generated and written is new to the store at that
moment, a record that is stored stays as it is, and so do its points and the answer of
`GetPoints` for its identifier.  `GetPoints` writes nothing, and `ProcessReceipt`
writes no key but the identifier that it generates. -/
theorem C15_stored_points_immutable (cv : Float64 → Int) (st : Store) (reqs : List Request)
    (hfresh : freshRun cv st reqs) (id : GoString) (text : Document)
    (h : st.data id = some text) :
    (run cv st reqs).data id = some text ∧
      ((run cv st reqs).data id).map pointsOf = (st.data id).map pointsOf ∧
      (GetPoints (run cv st reqs) id false).1 = (GetPoints st id false).1 ∧
      (∀ st0 k fail, (GetPoints st0 k fail).2 = st0) ∧
      (∀ st0 body random fail k, k ≠ uuidString random →
        (ProcessReceipt cv st0 body random fail).2.data k = st0.data k) := by
  have hrun := run_preserves cv reqs st hfresh id text h
  refine ⟨hrun, by rw [hrun, h], ?_, GetPoints_store, ?_⟩
  · simp only [GetPoints, Store.Get, Bool.false_eq_true, if_false, hrun, h]
  · intro st0 body random fail k hk
    exact ProcessReceipt_other_keys cv st0 body random fail k hk

set_option maxRecDepth 100000 in
/-- C15 (as amended), at a concrete run: the "Target" receipt stored with the random
bits 0 keeps its 28 points when the "M&M Corner Market" receipt is stored with the
random bits 1 and the points are fetched. -/
theorem C15_stored_points_immutable_witness :
    ((run cvAmd64 (run cvAmd64 Store.empty [Request.process (requestBody targetReceipt) 0 false])
        [Request.process (requestBody cornerMarketReceipt) 1 false,
          Request.getPoints (uuidString 0) false]).data (uuidString 0)).map pointsOf =
      some 28 := by
  have h0 : ((run cvAmd64 Store.empty
      [Request.process (requestBody targetReceipt) 0 false]).data (uuidString 0)).isSome =
      true := by decide!
  obtain ⟨text, ht⟩ := Option.isSome_iff_exists.mp h0
  have h28 : ((run cvAmd64 Store.empty
      [Request.process (requestBody targetReceipt) 0 false]).data (uuidString 0)).map pointsOf
      = some 28 := by decide!
  rw [← h28]
  exact (C15_stored_points_immutable cvAmd64 _
    [Request.process (requestBody cornerMarketReceipt) 1 false,
      Request.getPoints (uuidString 0) false]
    ⟨fun _ _ => Option.isNone_iff_eq_none.mp (by decide!), trivial⟩ (uuidString 0) text ht).2.1

set_option maxRecDepth 100000 in
/-- C15 fails as stated: when `uuid.New` draws the same random bits for two requests,
the second `ProcessReceipt` overwrites the record of the first; the identifier that
held the 28 points of the "Target" receipt then holds the 109 points of the
"M&M Corner Market" receipt. -/
theorem C15_stored_points_immutable_counterexample :
    ((run cvAmd64 Store.empty
        [Request.process (requestBody targetReceipt) 0 false]).data (uuidString 0)).map
          pointsOf = some 28 ∧
      ((run cvAmd64 Store.empty
        [Request.process (requestBody targetReceipt) 0 false,
          Request.process (requestBody cornerMarketReceipt) 0 false]).data (uuidString 0)).map
          pointsOf = some 109 := by
  refine ⟨by decide!, by decide!⟩

end ReceiptProcessor
